import Mathlib

/-!
Verification development for the Cloud-Pipelines backend (graph compiler,
SQL-backed orchestrator, cache-key computation, query services).

The Python sources are shallowly embedded: pure helpers become Lean
functions, the orchestrator sweeps become explicit state transformers over a
record of database rows, and fallible code returns `Except`/`Option`.
Machine-level details (timestamps, SQLAlchemy sessions) are modelled only to
the extent the verified properties depend on them.
-/

set_option maxRecDepth 100000

namespace CloudPipelines

/-! ## JSON values (the subset produced by the backend: no floats) -/

inductive Json where
  | null : Json
  | bool (b : Bool) : Json
  | num (n : Int) : Json
  | str (s : String) : Json
  | arr (items : List Json) : Json
  | obj (entries : List (String × Json)) : Json
deriving Repr

mutual

def Json.beq : Json → Json → Bool
  | .null, .null => true
  | .bool a, .bool b => a == b
  | .num a, .num b => a == b
  | .str a, .str b => a == b
  | .arr a, .arr b => Json.beqList a b
  | .obj a, .obj b => Json.beqPairs a b
  | _, _ => false

def Json.beqList : List Json → List Json → Bool
  | [], [] => true
  | a :: as, b :: bs => Json.beq a b && Json.beqList as bs
  | _, _ => false

def Json.beqPairs : List (String × Json) → List (String × Json) → Bool
  | [], [] => true
  | (ka, va) :: as, (kb, vb) :: bs => ka == kb && Json.beq va vb && Json.beqPairs as bs
  | _, _ => false

end

mutual

theorem Json.eq_of_beq : ∀ {a b : Json}, Json.beq a b = true → a = b
  | .null, .null, _ => rfl
  | .bool _, .bool _, h => by
      simp only [Json.beq, beq_iff_eq] at h; simp [h]
  | .num _, .num _, h => by
      simp only [Json.beq, beq_iff_eq] at h; simp [h]
  | .str _, .str _, h => by
      simp only [Json.beq, beq_iff_eq] at h; simp [h]
  | .arr a, .arr b, h => by
      simp only [Json.beq] at h
      exact congrArg Json.arr (Json.eq_of_beqList h)
  | .obj a, .obj b, h => by
      simp only [Json.beq] at h
      exact congrArg Json.obj (Json.eq_of_beqPairs h)

theorem Json.eq_of_beqList : ∀ {a b : List Json}, Json.beqList a b = true → a = b
  | [], [], _ => rfl
  | a :: as, b :: bs, h => by
      simp only [Json.beqList, Bool.and_eq_true] at h
      have h1 := Json.eq_of_beq h.1
      have h2 := Json.eq_of_beqList h.2
      simp [h1, h2]

theorem Json.eq_of_beqPairs :
    ∀ {a b : List (String × Json)}, Json.beqPairs a b = true → a = b
  | [], [], _ => rfl
  | (ka, va) :: as, (kb, vb) :: bs, h => by
      simp only [Json.beqPairs, Bool.and_eq_true] at h
      have h1 := Json.eq_of_beq h.1.2
      have h2 := Json.eq_of_beqPairs h.2
      simp only [beq_iff_eq] at h
      refine List.cons_eq_cons.mpr ⟨?_, h2⟩
      exact Prod.ext h.1.1 h1

end

mutual

theorem Json.beq_refl : ∀ (a : Json), Json.beq a a = true
  | .null => rfl
  | .bool b => by simp [Json.beq]
  | .num n => by simp [Json.beq]
  | .str s => by simp [Json.beq]
  | .arr items => by simp only [Json.beq]; exact Json.beqList_refl items
  | .obj entries => by simp only [Json.beq]; exact Json.beqPairs_refl entries

theorem Json.beqList_refl : ∀ (a : List Json), Json.beqList a a = true
  | [] => rfl
  | a :: as => by
      simp only [Json.beqList, Bool.and_eq_true]
      exact ⟨Json.beq_refl a, Json.beqList_refl as⟩

theorem Json.beqPairs_refl : ∀ (a : List (String × Json)), Json.beqPairs a a = true
  | [] => rfl
  | (k, v) :: as => by
      simp only [Json.beqPairs, Bool.and_eq_true]
      exact ⟨⟨by simp, Json.beq_refl v⟩, Json.beqPairs_refl as⟩

end

instance : DecidableEq Json := fun a b =>
  if h : Json.beq a b = true then
    .isTrue (Json.eq_of_beq h)
  else
    .isFalse (fun he => h (he ▸ Json.beq_refl a))

/-! ## UTF-8 encoding (Python `str.encode("utf-8")`), as a list of byte values -/

def encodeCharUtf8 (c : Char) : List Nat :=
  let n := c.toNat
  if n < 0x80 then [n]
  else if n < 0x800 then [0xC0 + n / 64, 0x80 + n % 64]
  else if n < 0x10000 then [0xE0 + n / 4096, 0x80 + (n / 64) % 64, 0x80 + n % 64]
  else [0xF0 + n / 262144, 0x80 + (n / 4096) % 64, 0x80 + (n / 64) % 64, 0x80 + n % 64]

def utf8Encode (s : String) : List Nat :=
  (s.data.map encodeCharUtf8).flatten

/-! ## MD5 (RFC 1321) over byte lists, registers as `Nat` reduced mod 2^32 -/

namespace Md5

def M32 : Nat := 4294967296

def add32 (a b : Nat) : Nat := (a + b) % M32

def not32 (x : Nat) : Nat := x ^^^ (M32 - 1)

def rotl32 (x n : Nat) : Nat := ((x <<< n) % M32) ||| (x >>> (32 - n))

def kTable : List Nat :=
  [0xd76aa478, 0xe8c7b756, 0x242070db, 0xc1bdceee,
   0xf57c0faf, 0x4787c62a, 0xa8304613, 0xfd469501,
   0x698098d8, 0x8b44f7af, 0xffff5bb1, 0x895cd7be,
   0x6b901122, 0xfd987193, 0xa679438e, 0x49b40821,
   0xf61e2562, 0xc040b340, 0x265e5a51, 0xe9b6c7aa,
   0xd62f105d, 0x02441453, 0xd8a1e681, 0xe7d3fbc8,
   0x21e1cde6, 0xc33707d6, 0xf4d50d87, 0x455a14ed,
   0xa9e3e905, 0xfcefa3f8, 0x676f02d9, 0x8d2a4c8a,
   0xfffa3942, 0x8771f681, 0x6d9d6122, 0xfde5380c,
   0xa4beea44, 0x4bdecfa9, 0xf6bb4b60, 0xbebfbc70,
   0x289b7ec6, 0xeaa127fa, 0xd4ef3085, 0x04881d05,
   0xd9d4d039, 0xe6db99e5, 0x1fa27cf8, 0xc4ac5665,
   0xf4292244, 0x432aff97, 0xab9423a7, 0xfc93a039,
   0x655b59c3, 0x8f0ccc92, 0xffeff47d, 0x85845dd1,
   0x6fa87e4f, 0xfe2ce6e0, 0xa3014314, 0x4e0811a1,
   0xf7537e82, 0xbd3af235, 0x2ad7d2bb, 0xeb86d391]

def sTable : List Nat :=
  [7, 12, 17, 22, 7, 12, 17, 22, 7, 12, 17, 22, 7, 12, 17, 22,
   5, 9, 14, 20, 5, 9, 14, 20, 5, 9, 14, 20, 5, 9, 14, 20,
   4, 11, 16, 23, 4, 11, 16, 23, 4, 11, 16, 23, 4, 11, 16, 23,
   6, 10, 15, 21, 6, 10, 15, 21, 6, 10, 15, 21, 6, 10, 15, 21]

/-- One of the 64 round steps; `m` is the 16-word message block. -/
def roundStep (m : List Nat) (st : Nat × Nat × Nat × Nat) (i : Nat) :
    Nat × Nat × Nat × Nat :=
  let (a, b, c, d) := st
  let f :=
    if i < 16 then (b &&& c) ||| (not32 b &&& d)
    else if i < 32 then (d &&& b) ||| (not32 d &&& c)
    else if i < 48 then b ^^^ c ^^^ d
    else c ^^^ (b ||| not32 d)
  let g :=
    if i < 16 then i
    else if i < 32 then (5 * i + 1) % 16
    else if i < 48 then (3 * i + 5) % 16
    else (7 * i) % 16
  let f := add32 (add32 (add32 f a) (kTable.getD i 0)) (m.getD g 0)
  (d, add32 b (rotl32 f (sTable.getD i 0)), b, c)

/-- Split a 64-byte chunk into 16 little-endian 32-bit words. -/
def chunkWords (chunk : List Nat) : List Nat :=
  (List.range 16).map fun i =>
    chunk.getD (4 * i) 0 + chunk.getD (4 * i + 1) 0 * 256 +
      chunk.getD (4 * i + 2) 0 * 65536 + chunk.getD (4 * i + 3) 0 * 16777216

def processChunk (st : Nat × Nat × Nat × Nat) (chunk : List Nat) :
    Nat × Nat × Nat × Nat :=
  let m := chunkWords chunk
  let (a0, b0, c0, d0) := st
  let (a, b, c, d) := (List.range 64).foldl (roundStep m) (a0, b0, c0, d0)
  (add32 a0 a, add32 b0 b, add32 c0 c, add32 d0 d)

/-- Split into 64-byte chunks. Structural recursion on a fuel bound (one unit
per chunk, `l.length + 1` always suffices) so that the definition reduces in
the kernel. -/
def chunksGo : Nat → List Nat → List (List Nat)
  | 0, _ => []
  | fuel + 1, l => if l.isEmpty then [] else l.take 64 :: chunksGo fuel (l.drop 64)

def chunksOf64 (l : List Nat) : List (List Nat) :=
  chunksGo (l.length + 1) l

/-- Message padding: append `0x80`, zeros to 56 mod 64, 8-byte LE bit length. -/
def padMessage (msg : List Nat) : List Nat :=
  let bitLen := (8 * msg.length) % (2 ^ 64)
  let afterOne := msg ++ [0x80]
  let zeros := (64 + 56 - afterOne.length % 64) % 64
  afterOne ++ List.replicate zeros 0 ++
    (List.range 8).map fun i => bitLen / (256 ^ i) % 256

def bytesLE (n : Nat) : List Nat :=
  [n % 256, n / 256 % 256, n / 65536 % 256, n / 16777216 % 256]

def hexDigit (n : Nat) : Char :=
  if n < 10 then Char.ofNat (48 + n) else Char.ofNat (87 + n)

def byteHex (n : Nat) : String :=
  String.mk [hexDigit (n / 16 % 16), hexDigit (n % 16)]

/-- Lowercase hex MD5 digest of a byte list (`hashlib.md5(...).hexdigest()`). -/
def md5Hex (msg : List Nat) : String :=
  let chunks := chunksOf64 (padMessage msg)
  let (a, b, c, d) :=
    chunks.foldl processChunk (0x67452301, 0xefcdab89, 0x98badcfe, 0x10325476)
  String.join (((bytesLE a ++ bytesLE b ++ bytesLE c ++ bytesLE d).map byteHex))

end Md5

/-- Known-answer checks against `hashlib.md5` (RFC 1321 test vectors). -/
example : Md5.md5Hex (utf8Encode "") = "d41d8cd98f00b204e9800998ecf8427e" := by decide

example : Md5.md5Hex (utf8Encode "abc") = "900150983cd24fb0d6963f7d28e17f72" := by
  decide

/-! ## Canonical JSON serialization
`json.dumps(obj, separators=(",", ":"), sort_keys=True)` with the default
`ensure_ascii=True`.  Sorting is factored out (`sortJson` recursively sorts
every object's keys, `dumpsJson` serializes without reordering), which is
extensionally the same pipeline. -/

def hex4 (n : Nat) : String :=
  String.mk [Md5.hexDigit (n / 4096 % 16), Md5.hexDigit (n / 256 % 16),
    Md5.hexDigit (n / 16 % 16), Md5.hexDigit (n % 16)]

/-- `\uXXXX` escape; code points above the BMP become a surrogate pair,
exactly as CPython's `json` encoder emits them. -/
def uEscape (n : Nat) : String :=
  if n < 0x10000 then "\\u" ++ hex4 n
  else
    "\\u" ++ hex4 (0xD800 + (n - 0x10000) / 1024) ++
      "\\u" ++ hex4 (0xDC00 + (n - 0x10000) % 1024)

def escapeCharJson (c : Char) : String :=
  if c = '"' then "\\\""
  else if c = '\\' then "\\\\"
  else if c = '\n' then "\\n"
  else if c = '\t' then "\\t"
  else if c = '\r' then "\\r"
  else if c = Char.ofNat 8 then "\\b"
  else if c = Char.ofNat 12 then "\\f"
  else if c.toNat < 0x20 || c.toNat > 0x7e then uEscape c.toNat
  else String.singleton c

def quoteJsonString (s : String) : String :=
  "\"" ++ String.join (s.data.map escapeCharJson) ++ "\""

/-- Strict lexicographic comparison of code-point lists — how Python compares
`str` values (and hence how `sort_keys=True` orders keys). -/
def cpLt : List Char → List Char → Bool
  | [], [] => false
  | [], _ :: _ => true
  | _ :: _, [] => false
  | a :: as, b :: bs =>
      if a.toNat < b.toNat then true
      else if b.toNat < a.toNat then false
      else cpLt as bs

def strLe (a b : String) : Bool := ! cpLt b.data a.data

theorem cpLt_asymm : ∀ {x y : List Char}, cpLt x y = true → cpLt y x = false
  | [], [], h => by simp [cpLt] at h
  | [], _ :: _, _ => by simp [cpLt]
  | _ :: _, [], h => by simp [cpLt] at h
  | a :: as, b :: bs, h => by
      simp only [cpLt] at h ⊢
      by_cases hab : a.toNat < b.toNat
      · simp [hab, Nat.lt_asymm hab, Nat.not_lt_of_lt hab]
      · by_cases hba : b.toNat < a.toNat
        · simp [hab, hba] at h
        · simp only [hab, hba, if_false, if_neg] at h ⊢
          simp [hab, hba, cpLt_asymm h]

theorem cpLt_trans :
    ∀ {x y z : List Char}, cpLt x y = true → cpLt y z = true → cpLt x z = true
  | [], [], _, h, _ => by simp [cpLt] at h
  | [], _ :: _, [], _, h => by simp [cpLt] at h
  | [], _ :: _, _ :: _, _, _ => by simp [cpLt]
  | _ :: _, [], _, h, _ => by simp [cpLt] at h
  | _ :: _, _ :: _, [], _, h => by simp [cpLt] at h
  | a :: as, b :: bs, c :: cs, h₁, h₂ => by
      simp only [cpLt] at h₁ h₂ ⊢
      by_cases hab : a.toNat < b.toNat <;> by_cases hbc : b.toNat < c.toNat
      · simp [Nat.lt_trans hab hbc]
      · by_cases hcb : c.toNat < b.toNat
        · simp [hbc, hcb] at h₂
        · have hbc' : b.toNat = c.toNat := Nat.le_antisymm
            (Nat.le_of_not_lt hcb) (Nat.le_of_not_lt hbc)
          simp [hbc' ▸ hab]
      · by_cases hba : b.toNat < a.toNat
        · simp [hab, hba] at h₁
        · have hab' : a.toNat = b.toNat := Nat.le_antisymm
            (Nat.le_of_not_lt hba) (Nat.le_of_not_lt hab)
          simp [hab' ▸ hbc]
      · by_cases hba : b.toNat < a.toNat
        · simp [hab, hba] at h₁
        · by_cases hcb : c.toNat < b.toNat
          · simp [hbc, hcb] at h₂
          · have hab' : a.toNat = b.toNat := Nat.le_antisymm
              (Nat.le_of_not_lt hba) (Nat.le_of_not_lt hab)
            have hbc' : b.toNat = c.toNat := Nat.le_antisymm
              (Nat.le_of_not_lt hcb) (Nat.le_of_not_lt hbc)
            simp only [hab, hba, if_neg, if_false] at h₁
            simp only [hbc, hcb, if_neg, if_false] at h₂
            have hac : ¬ a.toNat < c.toNat := by omega
            have hca : ¬ c.toNat < a.toNat := by omega
            simp [hac, hca, cpLt_trans h₁ h₂]

theorem cpLt_connex :
    ∀ {x y : List Char}, cpLt x y = false → cpLt y x = false → x = y
  | [], [], _, _ => rfl
  | [], _ :: _, h, _ => by simp [cpLt] at h
  | _ :: _, [], _, h => by simp [cpLt] at h
  | a :: as, b :: bs, h₁, h₂ => by
      simp only [cpLt] at h₁ h₂
      by_cases hab : a.toNat < b.toNat
      · simp [hab] at h₁
      · by_cases hba : b.toNat < a.toNat
        · simp [hab, hba] at h₂
        · simp only [hab, hba, if_neg, if_false] at h₁ h₂
          have hval : a = b := by
            have h : a.toNat = b.toNat := Nat.le_antisymm
              (Nat.le_of_not_lt hba) (Nat.le_of_not_lt hab)
            exact_mod_cast Char.ofNat_toNat a ▸ Char.ofNat_toNat b ▸
              congrArg Char.ofNat h
          rw [hval, cpLt_connex h₁ h₂]

theorem strLe_total (a b : String) : strLe a b = true ∨ strLe b a = true := by
  simp only [strLe, Bool.not_eq_true']
  by_cases h : cpLt b.data a.data = true
  · exact Or.inr (cpLt_asymm h)
  · exact Or.inl (Bool.not_eq_true _ ▸ h)

theorem strLe_trans {a b c : String} (h₁ : strLe a b = true)
    (h₂ : strLe b c = true) : strLe a c = true := by
  simp only [strLe, Bool.not_eq_true'] at h₁ h₂ ⊢
  by_cases hca : cpLt c.data a.data = true
  · by_cases hbc : cpLt b.data c.data = true
    · exact absurd (cpLt_trans hbc hca) (by simp [h₁])
    · have : b.data = c.data := cpLt_connex (by simpa using hbc) h₂
      rw [← this] at hca
      simp [hca] at h₁
  · simpa using hca

theorem strLe_antisymm {a b : String} (h₁ : strLe a b = true)
    (h₂ : strLe b a = true) : a = b := by
  simp only [strLe, Bool.not_eq_true'] at h₁ h₂
  exact congrArg String.mk (cpLt_connex h₂ h₁)

/-- Key order used by `sort_keys=True`. -/
def pairKeyLe {α : Type} (a b : String × α) : Prop := strLe a.1 b.1 = true

instance {α : Type} : DecidableRel (α := String × α) pairKeyLe := fun a b =>
  inferInstanceAs (Decidable (strLe a.1 b.1 = true))

instance {α : Type} : IsTotal (String × α) pairKeyLe :=
  ⟨fun a b => strLe_total a.1 b.1⟩

instance {α : Type} : IsTrans (String × α) pairKeyLe :=
  ⟨fun _ _ _ h h' => strLe_trans h h'⟩

mutual

def sortJson : Json → Json
  | .null => .null
  | .bool b => .bool b
  | .num n => .num n
  | .str s => .str s
  | .arr items => .arr (sortJsonList items)
  | .obj entries => .obj (List.insertionSort pairKeyLe (sortJsonPairs entries))

def sortJsonList : List Json → List Json
  | [] => []
  | j :: rest => sortJson j :: sortJsonList rest

def sortJsonPairs : List (String × Json) → List (String × Json)
  | [] => []
  | (k, v) :: rest => (k, sortJson v) :: sortJsonPairs rest

end

mutual

def dumpsJson : Json → String
  | .null => "null"
  | .bool true => "true"
  | .bool false => "false"
  | .num n => toString n
  | .str s => quoteJsonString s
  | .arr items => "[" ++ String.intercalate "," (dumpsJsonList items) ++ "]"
  | .obj entries =>
      "\x7b" ++ String.intercalate "," (dumpsJsonPairs entries) ++ "\x7d"

def dumpsJsonList : List Json → List String
  | [] => []
  | j :: rest => dumpsJson j :: dumpsJsonList rest

def dumpsJsonPairs : List (String × Json) → List String
  | [] => []
  | (k, v) :: rest => (quoteJsonString k ++ ":" ++ dumpsJson v) :: dumpsJsonPairs rest

end

/-- `json.dumps(j, separators=(",", ":"), sort_keys=True)`. -/
def jsonDumpsSorted (j : Json) : String :=
  dumpsJson (sortJson j)

/-- Sanity check against CPython: key sorting, separators, escapes. -/
example :
    jsonDumpsSorted
      (.obj [("k", .str "é\n\"\\")]) =
      "\x7b\"k\":\"\\u00e9\\n\\\"\\\\\"\x7d" := by decide

example :
    jsonDumpsSorted
      (.obj [("input_hashes", .obj [("b", .str "md5=y"), ("a", .str "md5=x")]),
             ("container_spec",
              .obj [("image", .str "python"),
                    ("command", .arr [.str "echo", .str "hi"])])]) =
      "\x7b\"container_spec\":\x7b\"command\":[\"echo\",\"hi\"],\"image\":\"python\"\x7d,\"input_hashes\":\x7b\"a\":\"md5=x\",\"b\":\"md5=y\"\x7d\x7d" := by
  decide

theorem sortJsonPairs_eq_map (l : List (String × Json)) :
    sortJsonPairs l = l.map (fun p => (p.1, sortJson p.2)) := by
  induction l with
  | nil => rfl
  | cons p rest ih => cases p; simp [sortJsonPairs, ih]

/-- Two key-sorted pair lists that are permutations of each other with no
duplicate keys are equal. -/
theorem sorted_perm_nodupKeys_eq {α : Type} :
    ∀ {l₁ l₂ : List (String × α)}, l₁.Perm l₂ →
      l₁.Sorted pairKeyLe → l₂.Sorted pairKeyLe →
      (l₁.map Prod.fst).Nodup → l₁ = l₂ := by
  intro l₁
  induction l₁ with
  | nil =>
      intro l₂ hperm _ _ _
      exact (hperm.nil_eq).symm ▸ rfl
  | cons a t₁ ih =>
      intro l₂ hperm hs₁ hs₂ hnd
      cases l₂ with
      | nil => exact absurd hperm.symm.nil_eq (by simp)
      | cons b t₂ =>
          rcases List.sorted_cons.mp hs₁ with ⟨ha, hst₁⟩
          rcases List.sorted_cons.mp hs₂ with ⟨hb, hst₂⟩
          have hab : a = b := by
            have hmem : a ∈ b :: t₂ := hperm.mem_iff.mp (List.mem_cons_self a t₁)
            rcases List.mem_cons.mp hmem with h | h
            · exact h
            · have hmem' : b ∈ a :: t₁ :=
                hperm.symm.mem_iff.mp (List.mem_cons_self b t₂)
              rcases List.mem_cons.mp hmem' with h' | h'
              · exact h'.symm
              · -- keys equal by antisymmetry, contradicting no-duplicate keys
                have h₁ : strLe a.1 b.1 = true := ha b h'
                have h₂ : strLe b.1 a.1 = true := hb a h
                have hkey : a.1 = b.1 := strLe_antisymm h₁ h₂
                have : a.1 ∈ t₁.map Prod.fst := by
                  rw [hkey]
                  exact List.mem_map_of_mem Prod.fst h'
                simp only [List.map_cons, List.nodup_cons] at hnd
                exact absurd this hnd.1
          subst hab
          have hperm' : t₁.Perm t₂ := hperm.cons_inv
          have hnd' : (t₁.map Prod.fst).Nodup := by
            simp only [List.map_cons, List.nodup_cons] at hnd
            exact hnd.2
          rw [ih hperm' hst₁ hst₂ hnd']

/-- Sorting all keys makes serialization of an object independent of the
(Python dict insertion) order of its entries, given distinct keys. -/
theorem sortJson_obj_perm {l₁ l₂ : List (String × Json)} (hperm : l₁.Perm l₂)
    (hnd : (l₁.map Prod.fst).Nodup) :
    sortJson (.obj l₁) = sortJson (.obj l₂) := by
  simp only [sortJson, sortJsonPairs_eq_map]
  congr 1
  have hperm' : (l₁.map (fun p => (p.1, sortJson p.2))).Perm
      (l₂.map (fun p => (p.1, sortJson p.2))) := hperm.map _
  have hkeys : ((l₁.map (fun p => (p.1, sortJson p.2))).map Prod.fst).Nodup := by
    simpa [Function.comp] using hnd
  refine sorted_perm_nodupKeys_eq ?_ ?_ ?_ ?_
  · exact ((List.perm_insertionSort pairKeyLe _).trans hperm').trans
      (List.perm_insertionSort pairKeyLe _).symm
  · exact List.sorted_insertionSort pairKeyLe _
  · exact List.sorted_insertionSort pairKeyLe _
  · exact ((List.perm_insertionSort pairKeyLe _).map Prod.fst).nodup_iff.mpr hkeys

/-! ## Artifact data rows and the cache key
(`orchestrator_sql._calculate_hash`, `_calculate_container_execution_cache_key`;
the `ArtifactData` table of `backend_types_sql` is modelled from the spec's
data-model section, the module itself is not part of the sources.) -/

/-- Modelled from the spec: `ArtifactData` — immutable content record with
`total_size`, `is_dir`, `hash` (`md5=<hex>`), nullable `uri` and `value`.
`id` is assigned by the database on insert; `created_at` is not modelled. -/
structure ArtifactDataRow where
  id : Nat := 0
  total_size : Nat := 0
  is_dir : Bool := false
  hash : String := ""
  uri : Option String := none
  value : Option String := none
deriving DecidableEq, Repr

/-- `_calculate_hash` (identical in `orchestrator_sql` and `api_server_sql`). -/
def calculateHash (s : String) : String :=
  "md5=" ++ Md5.md5Hex (utf8Encode s)

/-- `orchestrator_sql._calculate_container_execution_cache_key`.  The
`ContainerSpec.to_json_dict()` result is taken as an opaque `Json` value
(`component_structures` is not part of the sources; per the spec, the cache
key input is the canonical JSON of the container spec). -/
def calculateContainerExecutionCacheKey (containerSpecJson : Json)
    (inputArtifactData : List (String × ArtifactDataRow)) : String :=
  let inputHashes := inputArtifactData.map fun p => (p.1, Json.str p.2.hash)
  let cacheKeyStruct : Json :=
    .obj [("container_spec", containerSpecJson), ("input_hashes", .obj inputHashes)]
  calculateHash (jsonDumpsSorted cacheKeyStruct)

/-! ## Type-spec splitting and constant artifacts (`api_server_sql`) -/

/-- A `TypeSpecType` value: either a plain string or a mapping
(`{"TypeName": {...props...}}`). -/
inductive TypeSpecT where
  | str (s : String) : TypeSpecT
  | map (entries : List (String × Json)) : TypeSpecT
deriving DecidableEq, Repr

/-- Python exceptions surfaced by graph compilation. -/
inductive CompileErr where
  | apiServiceError : CompileErr
  | typeError : CompileErr
  | indexError : CompileErr
  | valueErrorCycle : CompileErr
  | keyError : CompileErr
  | fuelExhausted : CompileErr
deriving DecidableEq, Repr

/-- `api_server_sql._split_type_spec`.  For a mapping with exactly one entry
the source unpacks `kv_pairs[1]` from the one-element `kv_pairs` list, which
raises `IndexError` before anything can be returned; every other mapping
reaches the final `raise TypeError`. -/
def splitTypeSpec :
    Option TypeSpecT → Except CompileErr (Option String × Option (List (String × Json)))
  | none => .ok (none, none)
  | some (.str s) => .ok (some s, none)
  | some (.map kvs) =>
      if kvs.length = 1 then .error .indexError
      else .error .typeError

/-- `api_server_sql._construct_constant_artifact_data`.  Note that the source
uses Python `len(value)` — the number of code points — for `total_size`,
while `hash` is the MD5 of the UTF-8 encoding. -/
def constructConstantArtifactData (value : String) : ArtifactDataRow :=
  { total_size := value.length
    is_dir := false
    hash := calculateHash value
    value := some value }

/-- `ArtifactNode` row (table modelled from the spec's data-model section). -/
structure ArtifactNodeRow where
  id : Nat := 0
  typeName : Option String := none
  typeProps : Option (List (String × Json)) := none
  dataId : Option Nat := none
  hadDataInPast : Bool := false
  producerExecutionId : Option Nat := none
  producerOutputName : Option String := none
deriving DecidableEq, Repr

/-- `api_server_sql._construct_constant_artifact_node`: the artifact node
together with its inline `ArtifactData` (the id link is made on insert). -/
def constructConstantArtifactNode (value : String)
    (artifactType : Option TypeSpecT) :
    Except CompileErr (ArtifactNodeRow × ArtifactDataRow) := do
  let tnp ← splitTypeSpec artifactType
  .ok ({ typeName := tnp.1, typeProps := tnp.2, hadDataInPast := true },
    constructConstantArtifactData value)

/-- Claim C3: the cache key is `md5=` followed by the lowercase hex MD5 of the
UTF-8 encoding of the JSON object with keys `container_spec` and
`input_hashes`, serialized with lexicographically sorted keys and the tightest
separators; and any two nodes whose container spec and input-hash maps agree
(the latter up to dict ordering, with distinct input names) receive identical
cache keys. -/
theorem C3_cache_key_canonical_and_deterministic
    (cs₁ cs₂ : Json) (d₁ d₂ : List (String × ArtifactDataRow))
    (hcs : cs₁ = cs₂)
    (hperm : (d₁.map fun p => (p.1, p.2.hash)).Perm
      (d₂.map fun p => (p.1, p.2.hash)))
    (hnd : (d₁.map Prod.fst).Nodup) :
    calculateContainerExecutionCacheKey cs₁ d₁ =
      "md5=" ++ Md5.md5Hex (utf8Encode (jsonDumpsSorted
        (.obj [("container_spec", cs₁),
               ("input_hashes",
                .obj (d₁.map fun p => (p.1, Json.str p.2.hash)))]))) ∧
    calculateContainerExecutionCacheKey cs₁ d₁ =
      calculateContainerExecutionCacheKey cs₂ d₂ := by
  subst hcs
  refine ⟨rfl, ?_⟩
  have hperm' : (d₁.map fun p => (p.1, Json.str p.2.hash)).Perm
      (d₂.map fun p => (p.1, Json.str p.2.hash)) := by
    have := hperm.map (fun q : String × String => (q.1, Json.str q.2))
    simpa [List.map_map, Function.comp] using this
  have hnd' : ((d₁.map fun p => (p.1, Json.str p.2.hash)).map Prod.fst).Nodup := by
    simpa [List.map_map, Function.comp] using hnd
  have hsort := sortJson_obj_perm hperm' hnd'
  simp only [sortJson, sortJsonPairs] at hsort
  simp only [calculateContainerExecutionCacheKey, jsonDumpsSorted, calculateHash]
  congr 3
  simp only [sortJson, sortJsonPairs]
  rw [hsort]

theorem C3_witness :
    calculateContainerExecutionCacheKey
        (.obj [("image", .str "python"), ("command", .arr [.str "echo", .str "hi"])])
        [("a", { hash := "md5=x" }), ("b", { hash := "md5=y" })] =
      calculateContainerExecutionCacheKey
        (.obj [("image", .str "python"), ("command", .arr [.str "echo", .str "hi"])])
        [("b", { hash := "md5=y" }), ("a", { hash := "md5=x" })] ∧
    calculateContainerExecutionCacheKey
        (.obj [("image", .str "python"), ("command", .arr [.str "echo", .str "hi"])])
        [("a", { hash := "md5=x" }), ("b", { hash := "md5=y" })] =
      "md5=7f08a49ace6ce63f59dcd7b986bb6290" :=
  ⟨(C3_cache_key_canonical_and_deterministic _ _ _ _ rfl (by decide) (by decide)).2,
    by decide⟩

/-- Claim C4 (code bug): `_construct_constant_artifact_data` sets `value`,
leaves `uri` null, `is_dir` false, and hashes the UTF-8 bytes, but sets
`total_size` with Python `len(value)` — the number of code points — not the
UTF-8 byte length.  At the one-character value `"é"` (2 UTF-8 bytes) the
stored `total_size` is 1 while the byte length is 2, so the claimed invariant
`len(utf8(value)) == total_size` fails. -/
theorem C4_constant_artifact_size_is_codepoints :
    (constructConstantArtifactData "é").value = some "é" ∧
    (constructConstantArtifactData "é").uri = none ∧
    (constructConstantArtifactData "é").is_dir = false ∧
    (constructConstantArtifactData "é").hash = "md5=" ++ Md5.md5Hex (utf8Encode "é") ∧
    (constructConstantArtifactData "é").hash = "md5=66ddcd97cfdeabb2f6fb8a999b4bc76f" ∧
    (constructConstantArtifactNode "é" none).toOption.map (·.1.hadDataInPast) =
      some true ∧
    (constructConstantArtifactData "é").total_size = 1 ∧
    (utf8Encode "é").length = 2 ∧
    (constructConstantArtifactData "é").total_size ≠ (utf8Encode "é").length := by
  refine ⟨rfl, rfl, rfl, rfl, by decide, by decide, by decide, by decide, by decide⟩

/-! ## UTF-8 decoding (Python `bytes.decode("utf-8")`, strict) -/

/-- A UTF-8 continuation byte. -/
def isCont (b : Nat) : Bool := 0x80 ≤ b && b < 0xC0

/-- Strict UTF-8 decoder: rejects stray continuation bytes, truncated or
overlong sequences, surrogates, and code points above `0x10FFFF` — the
sequences CPython's strict decoder rejects. -/
def utf8Decode : List Nat → Option (List Char)
  | [] => some []
  | b :: rest =>
    if b < 0x80 then (utf8Decode rest).map (Char.ofNat b :: ·)
    else if b < 0xC2 then none
    else if b < 0xE0 then
      match rest with
      | b2 :: rest2 =>
          if isCont b2 then
            (utf8Decode rest2).map (Char.ofNat ((b - 0xC0) * 64 + (b2 - 0x80)) :: ·)
          else none
      | [] => none
    else if b < 0xF0 then
      match rest with
      | b2 :: b3 :: rest3 =>
          if isCont b2 && isCont b3 then
            let n := (b - 0xE0) * 4096 + (b2 - 0x80) * 64 + (b3 - 0x80)
            if n < 0x800 || (0xD800 ≤ n && n < 0xE000) then none
            else (utf8Decode rest3).map (Char.ofNat n :: ·)
          else none
      | _ => none
    else if b < 0xF5 then
      match rest with
      | b2 :: b3 :: b4 :: rest4 =>
          if isCont b2 && isCont b3 && isCont b4 then
            let n := (b - 0xF0) * 262144 + (b2 - 0x80) * 4096 +
              (b3 - 0x80) * 64 + (b4 - 0x80)
            if n < 0x10000 || 0x110000 ≤ n then none
            else (utf8Decode rest4).map (Char.ofNat n :: ·)
          else none
      | _ => none
    else none

def utf8DecodeString (bytes : List Nat) : Option String :=
  (utf8Decode bytes).map String.mk

example : utf8DecodeString (utf8Encode "héllo✓") = some "héllo✓" := by decide

example : utf8DecodeString [0xFF] = none := by decide

example : utf8DecodeString [0xC3] = none := by decide

/-! ## Orchestrator state (`orchestrator_sql.OrchestratorService_Sql`)
Database rows as lists of records; the two queue sweeps as state
transformers.  The launcher and the storage provider are external
collaborators, so each sweep takes an oracle describing their responses. -/

/-- `bts.ContainerExecutionStatus` — modelled from the spec (the
`backend_types_sql` module is not part of the sources): the ten states of
§4.2.1. -/
inductive ContainerExecutionStatus where
  | UNINITIALIZED
  | WAITING_FOR_UPSTREAM
  | QUEUED
  | PENDING
  | RUNNING
  | SUCCEEDED
  | FAILED
  | SKIPPED
  | SYSTEM_ERROR
  | CANCELLED
deriving DecidableEq, Repr

/-- Terminal states per the spec: `SUCCEEDED`, `FAILED`, `SKIPPED`,
`SYSTEM_ERROR`, `CANCELLED`. -/
def ContainerExecutionStatus.isTerminal : ContainerExecutionStatus → Bool
  | .SUCCEEDED => true
  | .FAILED => true
  | .SKIPPED => true
  | .SYSTEM_ERROR => true
  | .CANCELLED => true
  | _ => false

/-- `launchers.interfaces.ContainerStatus` (launcher-reported status). -/
inductive ContainerStatus where
  | PENDING
  | RUNNING
  | SUCCEEDED
  | FAILED
  | ERROR
deriving DecidableEq, Repr

/-- `ExecutionNode` row.  `containerSpec` and `outputNames` are the
projections of the frozen `task_spec` JSON that the sweeps read (container
spec of the implementation and the declared output names); `containerSpec =
none` models a task spec whose component is missing or not a
`ContainerImplementation`. -/
structure ExecNodeRow where
  id : Nat
  parent_execution_id : Option Nat := none
  task_id_in_parent_execution : Option String := none
  containerSpec : Option Json := none
  outputNames : List String := []
  container_execution_id : Option Nat := none
  container_execution_cache_key : Option String := none
  container_execution_status : Option ContainerExecutionStatus := none
deriving DecidableEq, Repr

/-- `ContainerExecution` row.  `launcher_status` is the status recorded
inside the opaque `launcher_data` handle (the only part of it the sweeps
branch on); `output_uris` is `output_artifact_data_map` (`name ↦ {uri}`). -/
structure ContainerExecutionRow where
  id : Nat
  status : ContainerExecutionStatus
  last_processed_at : Nat := 0
  launcher_status : ContainerStatus := .PENDING
  exit_code : Option Int := none
  output_uris : List (String × String) := []
deriving DecidableEq, Repr

structure InputArtifactLinkRow where
  execution_id : Nat
  input_name : String
  artifact_id : Nat
deriving DecidableEq, Repr

structure OutputArtifactLinkRow where
  execution_id : Nat
  output_name : String
  artifact_id : Nat
deriving DecidableEq, Repr

structure AncestorLinkRow where
  execution_id : Nat
  ancestor_execution_id : Nat
deriving DecidableEq, Repr

structure PipelineRunRow where
  id : Nat
  root_execution_id : Nat
deriving DecidableEq, Repr

/-- The database state the orchestrator operates on.  `launcher_calls`
records the executions for which `launch_container_task` was invoked (an
event log, used to state "without calling the launcher"). -/
structure OrchState where
  nodes : List ExecNodeRow := []
  container_executions : List ContainerExecutionRow := []
  artifact_nodes : List ArtifactNodeRow := []
  artifact_datas : List ArtifactDataRow := []
  input_links : List InputArtifactLinkRow := []
  output_links : List OutputArtifactLinkRow := []
  anc_links : List AncestorLinkRow := []
  runs : List PipelineRunRow := []
  launcher_calls : List Nat := []
deriving DecidableEq, Repr

def findNode (s : OrchState) (execId : Nat) : Option ExecNodeRow :=
  s.nodes.find? (·.id == execId)

def findCe (s : OrchState) (ceId : Nat) : Option ContainerExecutionRow :=
  s.container_executions.find? (·.id == ceId)

def updateNode (s : OrchState) (execId : Nat) (f : ExecNodeRow → ExecNodeRow) :
    OrchState :=
  { s with nodes := s.nodes.map fun n => if n.id == execId then f n else n }

def updateCe (s : OrchState) (ceId : Nat)
    (f : ContainerExecutionRow → ContainerExecutionRow) : OrchState :=
  { s with container_executions :=
      s.container_executions.map fun c => if c.id == ceId then f c else c }

def setNodeStatus (s : OrchState) (execId : Nat) (st : ContainerExecutionStatus) :
    OrchState :=
  updateNode s execId fun n => { n with container_execution_status := some st }

def nodeStatus (s : OrchState) (execId : Nat) : Option ContainerExecutionStatus :=
  (findNode s execId).bind (·.container_execution_status)

/-- The input-data query of `internal_process_one_queued_execution`:
`InputArtifactLink` rows of the execution, inner-joined to `ArtifactNode`,
outer-joined to `ArtifactData` (so a not-yet-produced artifact yields
`none`). -/
def inputDataOf (s : OrchState) (execId : Nat) :
    List (String × Option ArtifactDataRow) :=
  (s.input_links.filter (·.execution_id == execId)).filterMap fun il =>
    (s.artifact_nodes.find? (·.id == il.artifact_id)).map fun an =>
      (il.input_name, an.dataId.bind fun did =>
        s.artifact_datas.find? (·.id == did))

/-- The `PipelineRun` lookup: a run whose `root_execution_id` is an ancestor
of the execution via the closure table. -/
def runExistsFor (s : OrchState) (execId : Nat) : Bool :=
  s.runs.any fun r => s.anc_links.any fun l =>
    l.execution_id == execId && l.ancestor_execution_id == r.root_execution_id

/-- `_get_direct_downstream_executions`: `OutputArtifactLink` of the
execution, joined through `ArtifactNode` to `InputArtifactLink` to
`ExecutionNode`. -/
def directDownstreamExecutions (s : OrchState) (execId : Nat) : List Nat :=
  ((s.output_links.filter (·.execution_id == execId)).map fun ol =>
    if s.artifact_nodes.any (·.id == ol.artifact_id) then
      (s.input_links.filter (·.artifact_id == ol.artifact_id)).filterMap fun il =>
        if s.nodes.any (·.id == il.execution_id) then some il.execution_id else none
    else []).flatten

/-- `_mark_all_downstream_executions_as_skipped` (recursive with a visited
set; `fuel` bounds the recursion depth, one unit per newly visited node, so
`s.nodes.length + 2` always suffices). -/
def markSkippedGo : Nat → OrchState → List Nat → Nat → OrchState × List Nat
  | 0, s, seen, _ => (s, seen)
  | fuel + 1, s, seen, execId =>
    if execId ∈ seen then (s, seen)
    else
      let seen' := execId :: seen
      let s' := if nodeStatus s execId == some .WAITING_FOR_UPSTREAM then
          setNodeStatus s execId .SKIPPED
        else s
      (directDownstreamExecutions s' execId).foldl
        (fun acc d => markSkippedGo fuel acc.1 acc.2 d) (s', seen')

def markAllDownstreamExecutionsAsSkipped (s : OrchState) (execId : Nat) :
    OrchState :=
  (markSkippedGo (s.nodes.length + 2) s [] execId).1

/-- Launcher/storage responses for one ready-queue sweep iteration:
`launch_result = none` models `launch_container_task` raising;
`persist_fails` models a database failure while committing the new
`ContainerExecution` and the node update (step 6). -/
structure QueuedSweepOracle where
  launch_result : Option ContainerStatus := some .PENDING
  persist_fails : Bool := false
  now : Nat := 0
  exec_uuid : String := "e"
deriving DecidableEq, Repr

/-- The id the database identity column assigns to a freshly inserted
`ContainerExecution` row. -/
def freshCeId (s : OrchState) : Nat :=
  (s.container_executions.map (·.id)).foldr max 0 + 1

/-- One iteration of `internal_process_queued_executions_queue` processing
execution `pick`, including `internal_process_one_queued_execution` and the
outer exception handler (which rolls back and re-commits the node as
`SYSTEM_ERROR`).  The iteration is a no-op unless `pick` satisfies the
query's `WHERE` clause (`status ∈ {UNINITIALIZED, QUEUED}`). -/
def processQueuedSweep (o : QueuedSweepOracle) (pick : Nat) (s : OrchState) :
    OrchState :=
  match findNode s pick with
  | none => s
  | some n =>
    if !(n.container_execution_status == some .UNINITIALIZED ||
        n.container_execution_status == some .QUEUED) then s
    else
      match n.containerSpec with
      | none =>
          -- Missing ComponentSpec / implementation not a container:
          -- OrchestratorError escapes to the outer handler (no skip).
          setNodeStatus s pick .SYSTEM_ERROR
      | some cs =>
          let inputData := inputDataOf s pick
          if inputData.any (fun p => p.2.isNone) then
            setNodeStatus s pick .WAITING_FOR_UPSTREAM
          else
            let cacheKey := calculateContainerExecutionCacheKey cs
              (inputData.filterMap fun p => p.2.map fun d => (p.1, d))
            -- NOTE: the source computes the cache key and then immediately
            -- proceeds to launch ("# TODO: !!! Cache reuse"): no lookup of a
            -- prior SUCCEEDED ContainerExecution is performed.
            if !runExistsFor s pick then
              -- "Execution is not associated with a PipelineRun":
              -- OrchestratorError escapes to the outer handler (no skip).
              setNodeStatus s pick .SYSTEM_ERROR
            else
              let s := { s with launcher_calls := s.launcher_calls ++ [pick] }
              match o.launch_result with
              | none =>
                  markAllDownstreamExecutionsAsSkipped
                    (setNodeStatus s pick .SYSTEM_ERROR) pick
              | some lst =>
                  if !(lst == .PENDING || lst == .RUNNING) then
                    -- "Unexpected status of just launched container" raised
                    -- inside the try: same handler as a launch failure.
                    markAllDownstreamExecutionsAsSkipped
                      (setNodeStatus s pick .SYSTEM_ERROR) pick
                  else if o.persist_fails then
                    setNodeStatus s pick .SYSTEM_ERROR
                  else
                    let ceId := freshCeId s
                    let ce : ContainerExecutionRow :=
                      { id := ceId
                        status := .PENDING
                        last_processed_at := o.now
                        launcher_status := lst
                        output_uris := n.outputNames.map fun nm =>
                          (nm, "by_execution/" ++ o.exec_uuid ++ "/outputs/" ++
                            nm ++ "/data") }
                    let s := { s with
                      container_executions := s.container_executions ++ [ce] }
                    updateNode s pick fun m =>
                      { m with
                        container_execution_id := some ceId
                        container_execution_cache_key := some cacheKey
                        container_execution_status := some .PENDING }

/-- Set the status of every `ExecutionNode` associated with the container
execution (the `for execution_node in execution_nodes` loops). -/
def setStatusOfCeNodes (s : OrchState) (ceId : Nat)
    (st : ContainerExecutionStatus) : OrchState :=
  { s with nodes := s.nodes.map fun n =>
      if n.container_execution_id == some ceId then
        { n with container_execution_status := some st }
      else n }

/-- Waking direct downstream executions: `WAITING_FOR_UPSTREAM → QUEUED`. -/
def wakeDirectDownstream (s : OrchState) (execId : Nat) : OrchState :=
  (directDownstreamExecutions s execId).foldl
    (fun acc d =>
      if nodeStatus acc d == some .WAITING_FOR_UPSTREAM then
        setNodeStatus acc d .QUEUED
      else acc) s

def updateArtifactNode (s : OrchState) (artifactId : Nat)
    (f : ArtifactNodeRow → ArtifactNodeRow) : OrchState :=
  { s with artifact_nodes := s.artifact_nodes.map fun a =>
      if a.id == artifactId then f a else a }

/-- Attach the freshly created output `ArtifactData` rows (keyed by output
name) to the node's output artifact nodes and flip `had_data_in_past`. -/
def attachOutputsForNode (s : OrchState) (nodeId : Nat)
    (dataIds : List (String × Nat)) : OrchState :=
  (s.output_links.filter (·.execution_id == nodeId)).foldl
    (fun acc ol =>
      match (dataIds.find? (·.1 == ol.output_name)).map (·.2) with
      | some did =>
          updateArtifactNode acc ol.artifact_id fun a =>
            { a with dataId := some did, hadDataInPast := true }
      | none => acc) s

/-- The catch-all failure path of the in-flight sweep: the container
execution and all its nodes become `SYSTEM_ERROR`, then downstream skipping
runs from each node. -/
def runningSystemError (s : OrchState) (ceId : Nat) : OrchState :=
  let s := updateCe s ceId fun c => { c with status := .SYSTEM_ERROR }
  let ids := (s.nodes.filter (·.container_execution_id == some ceId)).map (·.id)
  let s := setStatusOfCeNodes s ceId .SYSTEM_ERROR
  ids.foldl (fun acc i => markAllDownstreamExecutionsAsSkipped acc i) s

/-- Storage-provider answer for one output artifact: `get_info()` plus the
bytes `download_as_bytes()` would return. -/
structure DataInfoB where
  total_size : Nat := 0
  is_dir : Bool := false
  md5_hex : String := ""
  bytes : List Nat := []
deriving DecidableEq, Repr

/-- Launcher/storage responses for one in-flight sweep iteration.
`refreshed_status` is the status of the refreshed `LaunchedContainer`;
`output_info` answers the storage queries, keyed by output name (output URIs
are generated injectively from output names). -/
structure RunningSweepOracle where
  refreshed_status : ContainerStatus := .RUNNING
  exit_code : Option Int := none
  output_info : List (String × DataInfoB) := []
  now : Nat := 0
  fresh_data_id : Nat := 2000
deriving DecidableEq, Repr

/-- `_maybe_preload_value`: preload the artifact value if it is a file small
enough (`total_size < 255`); Python returns `None` implicitly both when the
guard fails and when UTF-8 decoding raises. -/
def maybePreloadValue (downloadedBytes : List Nat) (isDir : Bool)
    (totalSize : Nat) : Option String :=
  if !isDir && totalSize < 255 then
    match utf8DecodeString downloadedBytes with
    | some text => some text
    | none => none
  else none

/-- The fresh `ArtifactData` rows built in the success path: one row per
declared output, with size/dir/hash from `get_info()` and the value inlined
by `_maybe_preload_value`. -/
def newOutputArtifactData (o : RunningSweepOracle) (ce : ContainerExecutionRow) :
    List (String × ArtifactDataRow) :=
  (List.range ce.output_uris.length).filterMap fun i =>
    (ce.output_uris.get? i).bind fun p =>
      (o.output_info.find? (·.1 == p.1)).map fun info =>
        (p.1,
          { id := o.fresh_data_id + i
            total_size := info.2.total_size
            is_dir := info.2.is_dir
            hash := "md5=" ++ info.2.md5_hex
            uri := some p.2
            value := maybePreloadValue info.2.bytes info.2.is_dir
              info.2.total_size })

/-- The success-finalization path of the in-flight sweep: create one
`ArtifactData` per declared output from the storage info, attach them to each
associated node's output artifacts, mark everything `SUCCEEDED`, wake direct
downstream `WAITING_FOR_UPSTREAM` nodes. -/
def runningSucceeded (o : RunningSweepOracle) (ceId : Nat)
    (ce : ContainerExecutionRow) (s : OrchState) : OrchState :=
  let execNodes := s.nodes.filter (·.container_execution_id == some ceId)
  -- A missing storage answer models `get_info()` failing even after retries;
  -- a node output name absent from the new-data map models the `KeyError` of
  -- `new_output_artifact_data_map[output_name]`.  Both raise into the
  -- catch-all handler after the session rollback.
  if ce.output_uris.any (fun p => (o.output_info.find? (·.1 == p.1)).isNone) ||
      execNodes.any (fun n => (s.output_links.filter (·.execution_id == n.id)).any
        fun ol => ce.output_uris.all (·.1 != ol.output_name)) then
    runningSystemError s ceId
  else
    let newData := newOutputArtifactData o ce
    let s := { s with artifact_datas := s.artifact_datas ++ newData.map (·.2) }
    let s := updateCe s ceId fun c =>
      { c with status := .SUCCEEDED, exit_code := o.exit_code }
    let s := setStatusOfCeNodes s ceId .SUCCEEDED
    let dataIds := newData.map fun p => (p.1, p.2.id)
    execNodes.foldl
      (fun acc n => wakeDirectDownstream (attachOutputsForNode acc n.id dataIds) n.id)
      s

/-- One iteration of `internal_process_running_executions_queue` processing
container execution `pick`, including `internal_process_one_running_execution`
and the outer exception handler.  No-op unless `pick` satisfies the query's
`WHERE` clause (`status ∈ {PENDING, RUNNING}`). -/
def processRunningSweep (o : RunningSweepOracle) (pick : Nat) (s : OrchState) :
    OrchState :=
  match findCe s pick with
  | none => s
  | some ce =>
    if !(ce.status == .PENDING || ce.status == .RUNNING) then s
    else
      -- `last_processed_at` is stamped and committed first.
      let s := updateCe s pick fun c => { c with last_processed_at := o.now }
      if !(ce.launcher_status == .PENDING || ce.launcher_status == .RUNNING) then
        -- "Unexpected running container status" raised before the refresh.
        runningSystemError s pick
      else
        let newStatus := o.refreshed_status
        -- Persist refreshed launcher data when it changed.
        let s := if newStatus != ce.launcher_status then
            updateCe s pick fun c => { c with launcher_status := newStatus }
          else s
        if newStatus == ce.launcher_status then s
        else
          let execNodes := s.nodes.filter (·.container_execution_id == some pick)
          if execNodes.isEmpty then
            -- "Could not find ExecutionNode associated with ContainerExecution".
            runningSystemError s pick
          else
            match newStatus with
            | .RUNNING =>
                let s := updateCe s pick fun c => { c with status := .RUNNING }
                setStatusOfCeNodes s pick .RUNNING
            | .SUCCEEDED =>
                runningSucceeded o pick
                  { ce with last_processed_at := o.now, launcher_status := newStatus } s
            | .FAILED =>
                let s := updateCe s pick fun c =>
                  { c with status := .FAILED, exit_code := o.exit_code }
                let s := setStatusOfCeNodes s pick .FAILED
                execNodes.foldl
                  (fun acc n => markAllDownstreamExecutionsAsSkipped acc n.id) s
            | _ =>
                -- `ERROR` (or a report of `PENDING` after `RUNNING`): raised as
                -- OrchestratorError and handled by the catch-all path.
                runningSystemError s pick

/-! ## Step relations: how a sweep may evolve the `ExecutionNode` table -/

/-- The node table evolves by an id-preserving rewrite that leaves every node
already in a terminal state untouched. -/
def StepOK (s s' : OrchState) : Prop :=
  ∃ g, s'.nodes = s.nodes.map g ∧ (∀ n, (g n).id = n.id) ∧
    ∀ n ∈ s.nodes, ∀ st, n.container_execution_status = some st →
      st.isTerminal = true → g n = n

/-- The node table evolves by an id-preserving rewrite whose only effect is
turning some nodes in status `a` into status `b`. -/
def FlipStep (a b : ContainerExecutionStatus) (s s' : OrchState) : Prop :=
  ∃ g, s'.nodes = s.nodes.map g ∧ (∀ n, (g n).id = n.id) ∧
    ∀ n ∈ s.nodes, g n = n ∨
      (n.container_execution_status = some a ∧
        g n = { n with container_execution_status := some b })

/-- Downstream skipping only turns `WAITING_FOR_UPSTREAM` into `SKIPPED`. -/
def SkipOnlyStep (s s' : OrchState) : Prop :=
  FlipStep .WAITING_FOR_UPSTREAM .SKIPPED s s'

theorem stepOK_refl (s : OrchState) : StepOK s s :=
  ⟨id, by simp, fun _ => rfl, fun _ _ _ _ _ => rfl⟩

theorem stepOK_of_nodes_eq {s s' : OrchState} (h : s'.nodes = s.nodes) :
    StepOK s s' :=
  ⟨id, by simp [h], fun _ => rfl, fun _ _ _ _ _ => rfl⟩

theorem stepOK_trans {s₁ s₂ s₃ : OrchState} (h₁ : StepOK s₁ s₂)
    (h₂ : StepOK s₂ s₃) : StepOK s₁ s₃ := by
  obtain ⟨g₁, he₁, hid₁, ht₁⟩ := h₁
  obtain ⟨g₂, he₂, hid₂, ht₂⟩ := h₂
  refine ⟨g₂ ∘ g₁, by simp [he₂, he₁, List.map_map], fun n => by
    simp [Function.comp, hid₂, hid₁], ?_⟩
  intro n hn st hst hterm
  have h₁n : g₁ n = n := ht₁ n hn st hst hterm
  have hmem : g₁ n ∈ s₂.nodes := he₁ ▸ List.mem_map_of_mem g₁ hn
  rw [h₁n] at hmem
  show g₂ (g₁ n) = n
  rw [h₁n]
  exact ht₂ n hmem st hst hterm

theorem FlipStep.toStepOK {a b : ContainerExecutionStatus} {s s' : OrchState}
    (ha : a.isTerminal = false) (h : FlipStep a b s s') : StepOK s s' := by
  obtain ⟨g, he, hid, hc⟩ := h
  refine ⟨g, he, hid, ?_⟩
  intro n hn st hst hterm
  rcases hc n hn with h' | ⟨hw, _⟩
  · exact h'
  · rw [hw] at hst
    cases hst
    rw [ha] at hterm
    exact absurd hterm (by simp)

theorem flipStep_refl (a b : ContainerExecutionStatus) (s : OrchState) :
    FlipStep a b s s :=
  ⟨id, by simp, fun _ => rfl, fun n _ => Or.inl rfl⟩

theorem flipStep_of_nodes_eq {a b : ContainerExecutionStatus} {s s' : OrchState}
    (h : s'.nodes = s.nodes) : FlipStep a b s s' :=
  ⟨id, by simp [h], fun _ => rfl, fun n _ => Or.inl rfl⟩

theorem flipStep_trans {a b : ContainerExecutionStatus} {s₁ s₂ s₃ : OrchState}
    (hab : a ≠ b) (h₁ : FlipStep a b s₁ s₂) (h₂ : FlipStep a b s₂ s₃) :
    FlipStep a b s₁ s₃ := by
  obtain ⟨g₁, he₁, hid₁, hc₁⟩ := h₁
  obtain ⟨g₂, he₂, hid₂, hc₂⟩ := h₂
  refine ⟨g₂ ∘ g₁, by simp [he₂, he₁, List.map_map], fun n => by
    simp [Function.comp, hid₂, hid₁], ?_⟩
  intro n hn
  have hmem : g₁ n ∈ s₂.nodes := he₁ ▸ List.mem_map_of_mem g₁ hn
  rcases hc₁ n hn with h₁' | ⟨hw₁, h₁'⟩
  · rw [h₁'] at hmem
    rcases hc₂ n hmem with h₂' | ⟨hw₂, h₂'⟩
    · exact Or.inl (by simp [Function.comp, h₁', h₂'])
    · exact Or.inr ⟨hw₂, by simp [Function.comp, h₁', h₂']⟩
  · rcases hc₂ (g₁ n) hmem with h₂' | ⟨hw₂, _⟩
    · exact Or.inr ⟨hw₁, by show g₂ (g₁ n) = _; rw [h₂', h₁']⟩
    · rw [h₁'] at hw₂
      simp at hw₂
      exact absurd hw₂.symm hab

/-- The non-node tables are untouched. -/
def NonNodesEq (s s' : OrchState) : Prop :=
  s'.container_executions = s.container_executions ∧
  s'.artifact_nodes = s.artifact_nodes ∧
  s'.artifact_datas = s.artifact_datas ∧
  s'.input_links = s.input_links ∧
  s'.output_links = s.output_links ∧
  s'.anc_links = s.anc_links ∧
  s'.runs = s.runs ∧
  s'.launcher_calls = s.launcher_calls

theorem nonNodesEq_refl (s : OrchState) : NonNodesEq s s :=
  ⟨rfl, rfl, rfl, rfl, rfl, rfl, rfl, rfl⟩

theorem nonNodesEq_trans {s₁ s₂ s₃ : OrchState} (h₁ : NonNodesEq s₁ s₂)
    (h₂ : NonNodesEq s₂ s₃) : NonNodesEq s₁ s₃ := by
  obtain ⟨a₁, b₁, c₁, d₁, e₁, f₁, g₁, i₁⟩ := h₁
  obtain ⟨a₂, b₂, c₂, d₂, e₂, f₂, g₂, i₂⟩ := h₂
  exact ⟨a₂.trans a₁, b₂.trans b₁, c₂.trans c₁, d₂.trans d₁, e₂.trans e₁,
    f₂.trans f₁, g₂.trans g₁, i₂.trans i₁⟩

theorem StepOK.ids_eq {s s' : OrchState} (h : StepOK s s') :
    s'.nodes.map (·.id) = s.nodes.map (·.id) := by
  obtain ⟨g, he, hid, _⟩ := h
  simp [he, List.map_map, Function.comp, hid]

theorem StepOK.ids_nodup {s s' : OrchState} (h : StepOK s s')
    (hnd : (s.nodes.map (·.id)).Nodup) : (s'.nodes.map (·.id)).Nodup := by
  rw [h.ids_eq]; exact hnd

/-- With distinct node ids, looking a member node up by its id finds it. -/
theorem find?_self_of_nodup :
    ∀ {l : List ExecNodeRow}, (l.map (·.id)).Nodup →
      ∀ {n : ExecNodeRow}, n ∈ l → l.find? (·.id == n.id) = some n := by
  intro l
  induction l with
  | nil => intro _ n hn; simp at hn
  | cons a t ih =>
      intro hnd n hn
      simp only [List.map_cons, List.nodup_cons] at hnd
      rcases List.mem_cons.mp hn with h | h
      · subst h; simp [List.find?]
      · have hne : a.id ≠ n.id := by
          intro he
          exact hnd.1 (he ▸ List.mem_map_of_mem (·.id) h)
        rw [List.find?_cons_of_neg _ (by simpa using hne)]
        exact ih hnd.2 h

/-- Any node with the id of a member equals that member, when ids are
distinct. -/
theorem eq_of_mem_of_id_eq {l : List ExecNodeRow}
    (hnd : (l.map (·.id)).Nodup) {m n : ExecNodeRow} (hm : m ∈ l) (hn : n ∈ l)
    (hid : m.id = n.id) : m = n :=
  List.inj_on_of_nodup_map hnd hm hn hid

/-- `setNodeStatus` is a `StepOK` step whenever every node carrying the
updated id is non-terminal. -/
theorem setNodeStatus_stepOK (s : OrchState) (e : Nat)
    (st : ContainerExecutionStatus)
    (h : ∀ n ∈ s.nodes, n.id = e → ∀ st', n.container_execution_status = some st' →
      st'.isTerminal = false) :
    StepOK s (setNodeStatus s e st) := by
  refine ⟨fun n => if n.id == e then { n with container_execution_status := some st }
    else n, rfl, fun n => by by_cases hc : n.id = e <;> simp [hc], ?_⟩
  intro n hn st' hst' hterm
  have hne : ¬ n.id = e := by
    intro he
    rw [h n hn he st' hst'] at hterm
    exact Bool.false_ne_true hterm
  simp [hne]

/-- Likewise for a general per-node update. -/
theorem updateNode_stepOK (s : OrchState) (e : Nat) (f : ExecNodeRow → ExecNodeRow)
    (hid : ∀ n, (f n).id = n.id)
    (h : ∀ n ∈ s.nodes, n.id = e → ∀ st', n.container_execution_status = some st' →
      st'.isTerminal = false) :
    StepOK s (updateNode s e f) := by
  refine ⟨fun n => if n.id == e then f n else n, rfl,
    fun n => by by_cases hc : n.id = e <;> simp [hc, hid], ?_⟩
  intro n hn st' hst' hterm
  have hne : ¬ n.id = e := by
    intro he
    rw [h n hn he st' hst'] at hterm
    exact Bool.false_ne_true hterm
  simp [hne]

/-- `setNodeStatus` to `b` is a flip step from `a` when every node carrying
the updated id currently has status `a`. -/
theorem setNodeStatus_flip (s : OrchState) (e : Nat)
    (a b : ContainerExecutionStatus)
    (h : ∀ n ∈ s.nodes, n.id = e → n.container_execution_status = some a) :
    FlipStep a b s (setNodeStatus s e b) := by
  refine ⟨fun n => if n.id == e then { n with container_execution_status := some b }
    else n, rfl, fun n => by by_cases hc : n.id = e <;> simp [hc], ?_⟩
  intro n hn
  by_cases hc : n.id = e
  · exact Or.inr ⟨h n hn hc, by simp [hc]⟩
  · exact Or.inl (by simp [hc])

theorem setNodeStatus_nonNodesEq (s : OrchState) (e : Nat)
    (st : ContainerExecutionStatus) : NonNodesEq s (setNodeStatus s e st) :=
  ⟨rfl, rfl, rfl, rfl, rfl, rfl, rfl, rfl⟩

/-- `_mark_all_downstream_executions_as_skipped` only turns
`WAITING_FOR_UPSTREAM` nodes into `SKIPPED` and touches no other table. -/
theorem markSkippedGo_spec :
    ∀ (fuel : Nat) (s : OrchState) (seen : List Nat) (e : Nat),
      (s.nodes.map (·.id)).Nodup →
      SkipOnlyStep s (markSkippedGo fuel s seen e).1 ∧
      NonNodesEq s (markSkippedGo fuel s seen e).1 := by
  intro fuel
  induction fuel with
  | zero =>
      intro s seen e _
      exact ⟨flipStep_refl _ _ _, nonNodesEq_refl _⟩
  | succ fuel ih =>
      intro s seen e hnd
      by_cases hseen : e ∈ seen
      · simp only [markSkippedGo, if_pos hseen]
        exact ⟨flipStep_refl _ _ _, nonNodesEq_refl _⟩
      · simp only [markSkippedGo, if_neg hseen]
        have hstep : SkipOnlyStep s
            (if nodeStatus s e == some .WAITING_FOR_UPSTREAM then
              setNodeStatus s e .SKIPPED else s) ∧ NonNodesEq s
            (if nodeStatus s e == some .WAITING_FOR_UPSTREAM then
              setNodeStatus s e .SKIPPED else s) := by
          by_cases hw : nodeStatus s e = some .WAITING_FOR_UPSTREAM
          · rw [if_pos (by simp [hw])]
            refine ⟨setNodeStatus_flip s e _ _ ?_, setNodeStatus_nonNodesEq s e _⟩
            intro n hn hid
            obtain ⟨n₀, hfind, hstat⟩ : ∃ n₀, findNode s e = some n₀ ∧
                n₀.container_execution_status = some .WAITING_FOR_UPSTREAM := by
              cases hf : findNode s e with
              | none => rw [nodeStatus, hf] at hw; simp at hw
              | some m => exact ⟨m, rfl, by rw [nodeStatus, hf] at hw; simpa using hw⟩
            have hn₀mem : n₀ ∈ s.nodes := List.mem_of_find?_eq_some hfind
            have hn₀id : n₀.id = e := by simpa using List.find?_some hfind
            have he : n = n₀ := eq_of_mem_of_id_eq hnd hn hn₀mem (by rw [hid, hn₀id])
            rw [he]; exact hstat
          · rw [if_neg (by simpa using hw)]
            exact ⟨flipStep_refl _ _ _, nonNodesEq_refl _⟩
        have aux : ∀ (l : List Nat) (acc : OrchState × List Nat),
            SkipOnlyStep s acc.1 → NonNodesEq s acc.1 →
            SkipOnlyStep s
              (l.foldl (fun a d => markSkippedGo fuel a.1 a.2 d) acc).1 ∧
            NonNodesEq s
              (l.foldl (fun a d => markSkippedGo fuel a.1 a.2 d) acc).1 := by
          intro l
          induction l with
          | nil => intro acc h1 h2; exact ⟨h1, h2⟩
          | cons d t iht =>
              intro acc h1 h2
              simp only [List.foldl_cons]
              have hndacc : ((acc.1).nodes.map (·.id)).Nodup :=
                (FlipStep.toStepOK (by decide) h1).ids_nodup hnd
              have hd := ih acc.1 acc.2 d hndacc
              exact iht (markSkippedGo fuel acc.1 acc.2 d)
                (flipStep_trans (by decide) h1 hd.1) (nonNodesEq_trans h2 hd.2)
        exact aux _ _ hstep.1 hstep.2

theorem markAllDownstreamSkipped_spec (s : OrchState) (e : Nat)
    (hnd : (s.nodes.map (·.id)).Nodup) :
    SkipOnlyStep s (markAllDownstreamExecutionsAsSkipped s e) ∧
    NonNodesEq s (markAllDownstreamExecutionsAsSkipped s e) :=
  markSkippedGo_spec _ s [] e hnd

/-- Downstream wake-up only turns `WAITING_FOR_UPSTREAM` into `QUEUED` and
touches no other table. -/
theorem wakeDirectDownstream_spec (s : OrchState) (e : Nat)
    (hnd : (s.nodes.map (·.id)).Nodup) :
    FlipStep .WAITING_FOR_UPSTREAM .QUEUED s (wakeDirectDownstream s e) ∧
    NonNodesEq s (wakeDirectDownstream s e) := by
  rw [wakeDirectDownstream]
  have aux : ∀ (l : List Nat) (acc : OrchState),
      FlipStep .WAITING_FOR_UPSTREAM .QUEUED s acc → NonNodesEq s acc →
      FlipStep .WAITING_FOR_UPSTREAM .QUEUED s
        (l.foldl (fun acc d =>
          if nodeStatus acc d == some .WAITING_FOR_UPSTREAM then
            setNodeStatus acc d .QUEUED else acc) acc) ∧
      NonNodesEq s
        (l.foldl (fun acc d =>
          if nodeStatus acc d == some .WAITING_FOR_UPSTREAM then
            setNodeStatus acc d .QUEUED else acc) acc) := by
    intro l
    induction l with
    | nil => intro acc h1 h2; exact ⟨h1, h2⟩
    | cons d t iht =>
        intro acc h1 h2
        simp only [List.foldl_cons]
        have hndacc : (acc.nodes.map (·.id)).Nodup :=
          (FlipStep.toStepOK (by decide) h1).ids_nodup hnd
        have hstep : FlipStep .WAITING_FOR_UPSTREAM .QUEUED acc
            (if nodeStatus acc d == some .WAITING_FOR_UPSTREAM then
              setNodeStatus acc d .QUEUED else acc) ∧ NonNodesEq acc
            (if nodeStatus acc d == some .WAITING_FOR_UPSTREAM then
              setNodeStatus acc d .QUEUED else acc) := by
          by_cases hw : nodeStatus acc d = some .WAITING_FOR_UPSTREAM
          · rw [if_pos (by simp [hw])]
            refine ⟨setNodeStatus_flip acc d _ _ ?_, setNodeStatus_nonNodesEq acc d _⟩
            intro n hn hid
            obtain ⟨n₀, hfind, hstat⟩ : ∃ n₀, findNode acc d = some n₀ ∧
                n₀.container_execution_status = some .WAITING_FOR_UPSTREAM := by
              cases hf : findNode acc d with
              | none => rw [nodeStatus, hf] at hw; simp at hw
              | some m => exact ⟨m, rfl, by rw [nodeStatus, hf] at hw; simpa using hw⟩
            have hn₀mem : n₀ ∈ acc.nodes := List.mem_of_find?_eq_some hfind
            have hn₀id : n₀.id = d := by simpa using List.find?_some hfind
            have he : n = n₀ := eq_of_mem_of_id_eq hndacc hn hn₀mem (by rw [hid, hn₀id])
            rw [he]; exact hstat
          · rw [if_neg (by simpa using hw)]
            exact ⟨flipStep_refl _ _ _, nonNodesEq_refl _⟩
        exact iht _ (flipStep_trans (by decide) h1 hstep.1) (nonNodesEq_trans h2 hstep.2)
  exact aux _ s (flipStep_refl _ _ _) (nonNodesEq_refl _)

/-- `setStatusOfCeNodes` is a `StepOK` step whenever every node referencing
the container execution is non-terminal. -/
theorem setStatusOfCeNodes_stepOK (s : OrchState) (ceId : Nat)
    (st : ContainerExecutionStatus)
    (h : ∀ n ∈ s.nodes, n.container_execution_id = some ceId →
      ∀ st', n.container_execution_status = some st' → st'.isTerminal = false) :
    StepOK s (setStatusOfCeNodes s ceId st) := by
  refine ⟨fun n => if n.container_execution_id == some ceId then
    { n with container_execution_status := some st } else n, rfl,
    fun n => by by_cases hc : n.container_execution_id = some ceId <;> simp [hc], ?_⟩
  intro n hn st' hst' hterm
  have hne : ¬ n.container_execution_id = some ceId := by
    intro he
    rw [h n hn he st' hst'] at hterm
    exact Bool.false_ne_true hterm
  simp [hne]

/-! ## The reachability invariant maintained by the sweeps -/

/-- Statuses a node can only hold while it has no `ContainerExecution`
attached (it was never launched, or its launch was skipped). -/
def idleStatus : Option ContainerExecutionStatus → Bool
  | none => true
  | some .UNINITIALIZED => true
  | some .WAITING_FOR_UPSTREAM => true
  | some .QUEUED => true
  | some .SKIPPED => true
  | _ => false

/-- State invariant: distinct node ids; idle nodes are unlaunched; node
`container_execution_id`s reference existing rows; a terminal node's
container execution is itself terminal.  It holds for freshly compiled runs
(nodes start `QUEUED`/`WAITING_FOR_UPSTREAM`/`none` with no container
execution) and, as proved below, is preserved by both sweeps. -/
def Inv (s : OrchState) : Prop :=
  (s.nodes.map (·.id)).Nodup ∧
  (∀ n ∈ s.nodes, idleStatus n.container_execution_status = true →
    n.container_execution_id = none) ∧
  (∀ n ∈ s.nodes, ∀ cid, n.container_execution_id = some cid →
    cid ∈ s.container_executions.map (·.id)) ∧
  (∀ n ∈ s.nodes, ∀ st, n.container_execution_status = some st →
    st.isTerminal = true →
    ∀ c ∈ s.container_executions, n.container_execution_id = some c.id →
    c.status.isTerminal = true)

instance (s : OrchState) : Decidable (Inv s) := by
  unfold Inv; infer_instance

theorem le_foldr_max {x : Nat} : ∀ {l : List Nat}, x ∈ l → x ≤ l.foldr max 0 := by
  intro l
  induction l with
  | nil => intro h; simp at h
  | cons a t ih =>
      intro h
      rcases List.mem_cons.mp h with h | h
      · subst h; simp [List.foldr_cons]
      · simp only [List.foldr_cons]
        exact le_trans (ih h) (le_max_right _ _)

theorem freshCeId_not_mem (s : OrchState) :
    freshCeId s ∉ s.container_executions.map (·.id) := by
  intro hmem
  have := le_foldr_max hmem
  simp only [freshCeId] at this
  omega

/-- With the invariant, every node carrying the id of an idle found node is
unlaunched. -/
theorem idpick_ce_none {s : OrchState} {pick : Nat} {n₀ : ExecNodeRow}
    (hinv : Inv s) (hf : findNode s pick = some n₀)
    (hidle : idleStatus n₀.container_execution_status = true) :
    ∀ n ∈ s.nodes, n.id = pick → n.container_execution_id = none := by
  intro n hn hid
  have hmem : n₀ ∈ s.nodes := List.mem_of_find?_eq_some hf
  have hid₀ : n₀.id = pick := by simpa using List.find?_some hf
  have : n = n₀ := eq_of_mem_of_id_eq hinv.1 hn hmem (by rw [hid, hid₀])
  rw [this]
  exact hinv.2.1 n₀ hmem hidle

/-- `setNodeStatus` preserves the invariant whenever every node carrying the
updated id is unlaunched (any new status is then harmless). -/
theorem inv_setNodeStatus {s : OrchState} (pick : Nat)
    (st : ContainerExecutionStatus) (hinv : Inv s)
    (hce : ∀ n ∈ s.nodes, n.id = pick → n.container_execution_id = none) :
    Inv (setNodeStatus s pick st) := by
  obtain ⟨hA, hC, hE, hD⟩ := hinv
  set g := fun n : ExecNodeRow =>
    if n.id == pick then { n with container_execution_status := some st }
    else n with hg
  have hnodes : (setNodeStatus s pick st).nodes = s.nodes.map g := rfl
  have hces : (setNodeStatus s pick st).container_executions =
      s.container_executions := rfl
  have hgid : ∀ n, (g n).id = n.id := by
    intro n; by_cases hc : n.id = pick <;> simp [hg, hc]
  have hgce : ∀ n, (g n).container_execution_id = n.container_execution_id := by
    intro n; by_cases hc : n.id = pick <;> simp [hg, hc]
  refine ⟨?_, ?_, ?_, ?_⟩
  · rw [hnodes, List.map_map]
    rw [show ((fun n : ExecNodeRow => n.id) ∘ g) = fun n : ExecNodeRow => n.id from
      funext hgid]
    exact hA
  · rw [hnodes]
    intro n hn hidle
    obtain ⟨m, hm, rfl⟩ := List.mem_map.mp hn
    rw [hgce]
    by_cases hc : m.id = pick
    · exact hce m hm hc
    · have hgm : g m = m := by simp [hg, hc]
      rw [hgm] at hidle
      exact hC m hm hidle
  · rw [hnodes, hces]
    intro n hn cid hcid
    obtain ⟨m, hm, rfl⟩ := List.mem_map.mp hn
    rw [hgce] at hcid
    exact hE m hm cid hcid
  · rw [hnodes, hces]
    intro n hn st' hst' hterm c hc hcid
    obtain ⟨m, hm, rfl⟩ := List.mem_map.mp hn
    rw [hgce] at hcid
    by_cases hcp : m.id = pick
    · rw [hce m hm hcp] at hcid; cases hcid
    · have hgm : g m = m := by simp [hg, hcp]
      rw [hgm] at hst'
      exact hD m hm st' hst' hterm c hc hcid

/-- The invariant only mentions nodes and container executions. -/
theorem inv_of_core_eq {s s' : OrchState} (hn : s'.nodes = s.nodes)
    (hc : s'.container_executions = s.container_executions) (hinv : Inv s) :
    Inv s' := by
  obtain ⟨hA, hC, hE, hD⟩ := hinv
  exact ⟨hn ▸ hA, hn ▸ hC, hn ▸ hc ▸ hE, hn ▸ hc ▸ hD⟩

/-- A flip step out of an idle status preserves the invariant when the
container-execution table is untouched. -/
theorem inv_flip {s s' : OrchState} {a b : ContainerExecutionStatus}
    (hflip : FlipStep a b s s')
    (hces : s'.container_executions = s.container_executions)
    (hinv : Inv s) (hidleA : idleStatus (some a) = true) : Inv s' := by
  obtain ⟨hA, hC, hE, hD⟩ := hinv
  obtain ⟨g, hnodes, hgid, hflipc⟩ := hflip
  have hgce : ∀ n ∈ s.nodes, (g n).container_execution_id =
      n.container_execution_id := by
    intro n hn
    rcases hflipc n hn with h | ⟨_, h⟩ <;> rw [h]
  refine ⟨?_, ?_, ?_, ?_⟩
  · rw [hnodes, List.map_map]
    rw [show ((fun n : ExecNodeRow => n.id) ∘ g) = fun n : ExecNodeRow => n.id from
      funext hgid]
    exact hA
  · rw [hnodes]
    intro n hn hidle
    obtain ⟨m, hm, rfl⟩ := List.mem_map.mp hn
    rw [hgce m hm]
    rcases hflipc m hm with h | ⟨hw, _⟩
    · rw [h] at hidle
      exact hC m hm hidle
    · exact hC m hm (hw ▸ hidleA)
  · rw [hnodes, hces]
    intro n hn cid hcid
    obtain ⟨m, hm, rfl⟩ := List.mem_map.mp hn
    rw [hgce m hm] at hcid
    exact hE m hm cid hcid
  · rw [hnodes, hces]
    intro n hn st' hst' hterm c hc hcid
    obtain ⟨m, hm, rfl⟩ := List.mem_map.mp hn
    rw [hgce m hm] at hcid
    rcases hflipc m hm with h | ⟨hw, _⟩
    · rw [h] at hst'
      exact hD m hm st' hst' hterm c hc hcid
    · -- the flipped node was idle, hence unlaunched
      rw [hC m hm (hw ▸ hidleA)] at hcid
      cases hcid

/-- The final launch-persist transaction (fresh `ContainerExecution` plus the
node update to `PENDING`) preserves the invariant. -/
theorem inv_launchPersist {s : OrchState} {pick : Nat}
    (hinv : Inv s)
    (ce : ContainerExecutionRow) (hceid : ce.id = freshCeId s) (key : String) :
    Inv (updateNode { s with container_executions := s.container_executions ++ [ce] }
      pick fun m =>
        { m with
          container_execution_id := some ce.id
          container_execution_cache_key := some key
          container_execution_status := some ContainerExecutionStatus.PENDING }) := by
  obtain ⟨hA, hC, hE, hD⟩ := hinv
  set g := fun m : ExecNodeRow =>
    if m.id == pick then
      { m with
        container_execution_id := some ce.id
        container_execution_cache_key := some key
        container_execution_status := some ContainerExecutionStatus.PENDING }
    else m with hg
  have hgup : ∀ m : ExecNodeRow, m.id = pick → g m =
      { m with
        container_execution_id := some ce.id
        container_execution_cache_key := some key
        container_execution_status := some ContainerExecutionStatus.PENDING } := by
    intro m hc; simp [hg, hc]
  have hgkeep : ∀ m : ExecNodeRow, ¬ m.id = pick → g m = m := by
    intro m hc; simp [hg, hc]
  have hnodes : (updateNode
      { s with container_executions := s.container_executions ++ [ce] } pick
      fun m =>
        { m with
          container_execution_id := some ce.id
          container_execution_cache_key := some key
          container_execution_status := some ContainerExecutionStatus.PENDING }).nodes
      = s.nodes.map g := rfl
  have hces : (updateNode
      { s with container_executions := s.container_executions ++ [ce] } pick
      fun m =>
        { m with
          container_execution_id := some ce.id
          container_execution_cache_key := some key
          container_execution_status := some ContainerExecutionStatus.PENDING
          }).container_executions = s.container_executions ++ [ce] := rfl
  refine ⟨?_, ?_, ?_, ?_⟩
  · rw [hnodes, List.map_map]
    rw [show ((fun n : ExecNodeRow => n.id) ∘ g) = fun n : ExecNodeRow => n.id from
      funext fun n => by by_cases hc : n.id = pick <;> simp [hg, hc]]
    exact hA
  · rw [hnodes]
    intro n hn hidle'
    obtain ⟨m, hm, rfl⟩ := List.mem_map.mp hn
    by_cases hc : m.id = pick
    · rw [hgup m hc] at hidle'
      simp [idleStatus] at hidle'
    · rw [hgkeep m hc] at hidle' ⊢
      exact hC m hm hidle'
  · rw [hnodes, hces]
    intro n hn cid hcid
    obtain ⟨m, hm, rfl⟩ := List.mem_map.mp hn
    by_cases hc : m.id = pick
    · rw [hgup m hc] at hcid
      simp only at hcid
      cases hcid
      simp
    · rw [hgkeep m hc] at hcid
      have := hE m hm cid hcid
      simp only [List.map_append]
      exact List.mem_append_left _ this
  · rw [hnodes, hces]
    intro n hn st' hst' hterm c hc hcid
    obtain ⟨m, hm, rfl⟩ := List.mem_map.mp hn
    by_cases hcp : m.id = pick
    · rw [hgup m hcp] at hst'
      have hPEND : st' = ContainerExecutionStatus.PENDING := by
        simpa using hst'.symm
      rw [hPEND] at hterm
      simp [ContainerExecutionStatus.isTerminal] at hterm
    · rw [hgkeep m hcp] at hst' hcid
      rcases List.mem_append.mp hc with hcold | hcnew
      · exact hD m hm st' hst' hterm c hcold hcid
      · -- the fresh row: an old node cannot reference the fresh id
        have hcee : c = ce := by simpa using hcnew
        subst hcee
        rw [hceid] at hcid
        exact absurd (hE m hm _ hcid) (freshCeId_not_mem s)

/-- Updating a container execution without changing id or status preserves
the invariant. -/
theorem inv_updateCe_frame {s : OrchState} (ceId : Nat)
    (f : ContainerExecutionRow → ContainerExecutionRow)
    (hfid : ∀ c, (f c).id = c.id) (hfst : ∀ c, (f c).status = c.status)
    (hinv : Inv s) : Inv (updateCe s ceId f) := by
  obtain ⟨hA, hC, hE, hD⟩ := hinv
  set g := fun c : ContainerExecutionRow => if c.id == ceId then f c else c with hg
  have hgid : ∀ c, (g c).id = c.id := by
    intro c; by_cases hc : c.id = ceId <;> simp [hg, hc, hfid]
  have hgst : ∀ c, (g c).status = c.status := by
    intro c; by_cases hc : c.id = ceId <;> simp [hg, hc, hfst]
  refine ⟨hA, hC, ?_, ?_⟩
  · show ∀ n ∈ s.nodes, ∀ cid, _ → cid ∈ (s.container_executions.map g).map (·.id)
    intro n hn cid hcid
    rw [List.map_map]
    rw [show ((fun c : ContainerExecutionRow => c.id) ∘ g) =
      fun c : ContainerExecutionRow => c.id from funext hgid]
    exact hE n hn cid hcid
  · show ∀ n ∈ s.nodes, ∀ st', _
    intro n hn st' hst' hterm c hc hcid
    obtain ⟨c₀, hc₀, rfl⟩ := List.mem_map.mp hc
    rw [hgid c₀] at hcid
    rw [hgst c₀]
    exact hD n hn st' hst' hterm c₀ hc₀ hcid

/-- Marking a container execution and all its nodes with a common non-idle
status preserves the invariant, provided no terminal node references the
execution (which holds whenever the execution is in flight). -/
theorem inv_ceNodesSet {s : OrchState} (pick : Nat)
    (st : ContainerExecutionStatus)
    (f : ContainerExecutionRow → ContainerExecutionRow)
    (hfid : ∀ c, (f c).id = c.id) (hfst : ∀ c, (f c).status = st)
    (hstidle : idleStatus (some st) = false)
    (hinv : Inv s) : Inv (setStatusOfCeNodes (updateCe s pick f) pick st) := by
  obtain ⟨hA, hC, hE, hD⟩ := hinv
  set gc := fun c : ContainerExecutionRow => if c.id == pick then f c else c with hgc
  set gn := fun n : ExecNodeRow =>
    if n.container_execution_id == some pick then
      { n with container_execution_status := some st }
    else n with hgn
  have hgcid : ∀ c, (gc c).id = c.id := by
    intro c; by_cases hc : c.id = pick <;> simp [hgc, hc, hfid]
  have hgnid : ∀ n, (gn n).id = n.id := by
    intro n; by_cases hc : n.container_execution_id = some pick <;> simp [hgn, hc]
  have hgnce : ∀ n, (gn n).container_execution_id = n.container_execution_id := by
    intro n; by_cases hc : n.container_execution_id = some pick <;> simp [hgn, hc]
  refine ⟨?_, ?_, ?_, ?_⟩
  · show ((s.nodes.map gn).map (·.id)).Nodup
    rw [List.map_map]
    rw [show ((fun n : ExecNodeRow => n.id) ∘ gn) = fun n : ExecNodeRow => n.id from
      funext hgnid]
    exact hA
  · show ∀ n ∈ s.nodes.map gn, _
    intro n hn hidle
    obtain ⟨m, hm, rfl⟩ := List.mem_map.mp hn
    rw [hgnce m]
    by_cases hc : m.container_execution_id = some pick
    · rw [show gn m = { m with container_execution_status := some st } from by
        simp [hgn, hc]] at hidle
      simp only at hidle
      rw [hidle] at hstidle
      cases hstidle
    · rw [show gn m = m from by simp [hgn, hc]] at hidle
      exact hC m hm hidle
  · show ∀ n ∈ s.nodes.map gn, ∀ cid, _ → cid ∈
      ((s.container_executions.map gc).map (·.id))
    intro n hn cid hcid
    obtain ⟨m, hm, rfl⟩ := List.mem_map.mp hn
    rw [hgnce m] at hcid
    rw [List.map_map]
    rw [show ((fun c : ContainerExecutionRow => c.id) ∘ gc) =
      fun c : ContainerExecutionRow => c.id from funext hgcid]
    exact hE m hm cid hcid
  · show ∀ n ∈ s.nodes.map gn, ∀ st', _
    intro n hn st' hst' hterm c hc hcid
    obtain ⟨m, hm, rfl⟩ := List.mem_map.mp hn
    obtain ⟨c₀, hc₀, rfl⟩ := List.mem_map.mp hc
    rw [hgnce m] at hcid
    rw [hgcid c₀] at hcid
    by_cases hcp : m.container_execution_id = some pick
    · -- the node was marked `st`; its container execution was marked `st` too
      have hcid₀ : c₀.id = pick := by
        rw [hcp] at hcid
        simpa using hcid.symm
      rw [show gn m = { m with container_execution_status := some st } from by
        simp [hgn, hcp]] at hst'
      simp only at hst'
      cases hst'
      rw [if_pos (show (c₀.id == pick) = true by simp [hcid₀]), hfst c₀]
      exact hterm
    · rw [show gn m = m from by simp [hgn, hcp]] at hst'
      by_cases hc₀p : c₀.id = pick
      · rw [hc₀p] at hcid
        exact absurd hcid hcp
      · rw [if_neg (show ¬ (c₀.id == pick) = true by simp [hc₀p])]
        exact hD m hm st' hst' hterm c₀ hc₀ hcid

theorem inv_markAllDownstream {s : OrchState} (e : Nat) (hinv : Inv s) :
    Inv (markAllDownstreamExecutionsAsSkipped s e) := by
  obtain ⟨hskip, hnne⟩ := markAllDownstreamSkipped_spec s e hinv.1
  exact inv_flip hskip hnne.1 hinv rfl

theorem inv_wake {s : OrchState} (e : Nat) (hinv : Inv s) :
    Inv (wakeDirectDownstream s e) := by
  obtain ⟨hflip, hnne⟩ := wakeDirectDownstream_spec s e hinv.1
  exact inv_flip hflip hnne.1 hinv rfl

/-! ## Branch equations of the ready-queue sweep -/

section QueuedBranches

variable (o : QueuedSweepOracle) (pick : Nat) (s : OrchState) (n : ExecNodeRow)

theorem queuedSweep_eq_notFound (hfn : findNode s pick = none) :
    processQueuedSweep o pick s = s := by
  unfold processQueuedSweep
  rw [hfn]

theorem queuedSweep_eq_ineligible (hfn : findNode s pick = some n)
    (helig : (n.container_execution_status == some .UNINITIALIZED ||
      n.container_execution_status == some .QUEUED) = false) :
    processQueuedSweep o pick s = s := by
  unfold processQueuedSweep
  rw [hfn]
  simp only [helig, Bool.not_false, if_true]

theorem queuedSweep_eq_missingSpec (hfn : findNode s pick = some n)
    (helig : (n.container_execution_status == some .UNINITIALIZED ||
      n.container_execution_status == some .QUEUED) = true)
    (hcs : n.containerSpec = none) :
    processQueuedSweep o pick s = setNodeStatus s pick .SYSTEM_ERROR := by
  unfold processQueuedSweep
  rw [hfn]
  simp only [helig, Bool.not_true, Bool.false_eq_true, if_false, hcs]

theorem queuedSweep_eq_waiting (cs : Json) (hfn : findNode s pick = some n)
    (helig : (n.container_execution_status == some .UNINITIALIZED ||
      n.container_execution_status == some .QUEUED) = true)
    (hcs : n.containerSpec = some cs)
    (hmiss : (inputDataOf s pick).any (fun p => p.2.isNone) = true) :
    processQueuedSweep o pick s = setNodeStatus s pick .WAITING_FOR_UPSTREAM := by
  unfold processQueuedSweep
  rw [hfn]
  simp only [helig, Bool.not_true, Bool.false_eq_true, if_false, hcs, hmiss, if_true]

theorem queuedSweep_eq_noRun (cs : Json) (hfn : findNode s pick = some n)
    (helig : (n.container_execution_status == some .UNINITIALIZED ||
      n.container_execution_status == some .QUEUED) = true)
    (hcs : n.containerSpec = some cs)
    (hmiss : (inputDataOf s pick).any (fun p => p.2.isNone) = false)
    (hrun : runExistsFor s pick = false) :
    processQueuedSweep o pick s = setNodeStatus s pick .SYSTEM_ERROR := by
  unfold processQueuedSweep
  rw [hfn]
  simp only [helig, Bool.not_true, Bool.false_eq_true, if_false, hcs, hmiss,
    Bool.not_false, hrun, if_true]

theorem queuedSweep_eq_launchRaise (cs : Json) (hfn : findNode s pick = some n)
    (helig : (n.container_execution_status == some .UNINITIALIZED ||
      n.container_execution_status == some .QUEUED) = true)
    (hcs : n.containerSpec = some cs)
    (hmiss : (inputDataOf s pick).any (fun p => p.2.isNone) = false)
    (hrun : runExistsFor s pick = true)
    (hlr : o.launch_result = none) :
    processQueuedSweep o pick s =
      markAllDownstreamExecutionsAsSkipped
        (setNodeStatus { s with launcher_calls := s.launcher_calls ++ [pick] }
          pick .SYSTEM_ERROR) pick := by
  unfold processQueuedSweep
  rw [hfn]
  simp only [helig, Bool.not_true, Bool.false_eq_true, if_false, hcs, hmiss,
    Bool.not_false, hrun, if_true, hlr]

theorem queuedSweep_eq_badLaunchStatus (cs : Json) (lst : ContainerStatus)
    (hfn : findNode s pick = some n)
    (helig : (n.container_execution_status == some .UNINITIALIZED ||
      n.container_execution_status == some .QUEUED) = true)
    (hcs : n.containerSpec = some cs)
    (hmiss : (inputDataOf s pick).any (fun p => p.2.isNone) = false)
    (hrun : runExistsFor s pick = true)
    (hlr : o.launch_result = some lst)
    (hbad : (lst == ContainerStatus.PENDING || lst == ContainerStatus.RUNNING)
      = false) :
    processQueuedSweep o pick s =
      markAllDownstreamExecutionsAsSkipped
        (setNodeStatus { s with launcher_calls := s.launcher_calls ++ [pick] }
          pick .SYSTEM_ERROR) pick := by
  unfold processQueuedSweep
  rw [hfn]
  simp only [helig, Bool.not_true, Bool.false_eq_true, if_false, hcs, hmiss,
    Bool.not_false, hrun, if_true, hlr, hbad]

theorem queuedSweep_eq_persistFail (cs : Json) (lst : ContainerStatus)
    (hfn : findNode s pick = some n)
    (helig : (n.container_execution_status == some .UNINITIALIZED ||
      n.container_execution_status == some .QUEUED) = true)
    (hcs : n.containerSpec = some cs)
    (hmiss : (inputDataOf s pick).any (fun p => p.2.isNone) = false)
    (hrun : runExistsFor s pick = true)
    (hlr : o.launch_result = some lst)
    (hok : (lst == ContainerStatus.PENDING || lst == ContainerStatus.RUNNING)
      = true)
    (hpf : o.persist_fails = true) :
    processQueuedSweep o pick s =
      setNodeStatus { s with launcher_calls := s.launcher_calls ++ [pick] }
        pick .SYSTEM_ERROR := by
  unfold processQueuedSweep
  rw [hfn]
  simp only [helig, Bool.not_true, Bool.false_eq_true, if_false, hcs, hmiss,
    Bool.not_false, hrun, if_true, hlr, hok, hpf]

theorem queuedSweep_eq_success (cs : Json) (lst : ContainerStatus)
    (hfn : findNode s pick = some n)
    (helig : (n.container_execution_status == some .UNINITIALIZED ||
      n.container_execution_status == some .QUEUED) = true)
    (hcs : n.containerSpec = some cs)
    (hmiss : (inputDataOf s pick).any (fun p => p.2.isNone) = false)
    (hrun : runExistsFor s pick = true)
    (hlr : o.launch_result = some lst)
    (hok : (lst == ContainerStatus.PENDING || lst == ContainerStatus.RUNNING)
      = true)
    (hpf : o.persist_fails = false) :
    processQueuedSweep o pick s =
      updateNode
        { s with
          launcher_calls := s.launcher_calls ++ [pick]
          container_executions := s.container_executions ++
            [{ id := freshCeId s
               status := .PENDING
               last_processed_at := o.now
               launcher_status := lst
               output_uris := n.outputNames.map fun nm =>
                 (nm, "by_execution/" ++ o.exec_uuid ++ "/outputs/" ++ nm ++
                   "/data") }] }
        pick fun m =>
          { m with
            container_execution_id := some (freshCeId s)
            container_execution_cache_key := some
              (calculateContainerExecutionCacheKey cs
                ((inputDataOf s pick).filterMap fun p => p.2.map fun d => (p.1, d)))
            container_execution_status := some .PENDING } := by
  unfold processQueuedSweep
  rw [hfn]
  simp only [helig, Bool.not_true, Bool.false_eq_true, if_false, hcs, hmiss,
    Bool.not_false, hrun, if_true, hlr, hok, hpf]
  rfl

end QueuedBranches

/-- The ready-queue sweep is a `StepOK` step and preserves the invariant. -/
theorem processQueuedSweep_ok (o : QueuedSweepOracle) (pick : Nat) (s : OrchState)
    (hinv : Inv s) :
    StepOK s (processQueuedSweep o pick s) ∧ Inv (processQueuedSweep o pick s) := by
  cases hfn : findNode s pick with
  | none =>
      rw [queuedSweep_eq_notFound o pick s hfn]
      exact ⟨stepOK_refl s, hinv⟩
  | some n =>
    cases helig : (n.container_execution_status == some .UNINITIALIZED ||
        n.container_execution_status == some .QUEUED) with
    | false =>
        rw [queuedSweep_eq_ineligible o pick s n hfn helig]
        exact ⟨stepOK_refl s, hinv⟩
    | true =>
      have hnmem : n ∈ s.nodes := List.mem_of_find?_eq_some hfn
      have hnid : n.id = pick := by simpa using List.find?_some hfn
      have hstat : n.container_execution_status = some .UNINITIALIZED ∨
          n.container_execution_status = some .QUEUED := by
        simpa using helig
      have hidle : idleStatus n.container_execution_status = true := by
        rcases hstat with h | h <;> rw [h] <;> rfl
      have hce := idpick_ce_none hinv hfn hidle
      have hnonterm : ∀ m ∈ s.nodes, m.id = pick →
          ∀ st', m.container_execution_status = some st' →
          st'.isTerminal = false := by
        intro m hm hmid st' hst'
        have hmn : m = n := eq_of_mem_of_id_eq hinv.1 hm hnmem (hmid.trans hnid.symm)
        subst hmn
        rcases hstat with h | h <;> rw [h] at hst' <;> cases hst' <;> rfl
      have hpair : ∀ st, StepOK s (setNodeStatus s pick st) ∧
          Inv (setNodeStatus s pick st) := fun st =>
        ⟨setNodeStatus_stepOK s pick st hnonterm,
          inv_setNodeStatus pick st hinv hce⟩
      cases hcs : n.containerSpec with
      | none =>
          rw [queuedSweep_eq_missingSpec o pick s n hfn helig hcs]
          exact hpair _
      | some cs =>
        cases hmiss : (inputDataOf s pick).any (fun p => p.2.isNone) with
        | true =>
            rw [queuedSweep_eq_waiting o pick s n cs hfn helig hcs hmiss]
            exact hpair _
        | false =>
          cases hrun : runExistsFor s pick with
          | false =>
              rw [queuedSweep_eq_noRun o pick s n cs hfn helig hcs hmiss hrun]
              exact hpair _
          | true =>
            have hinv₁ : Inv { s with launcher_calls := s.launcher_calls ++ [pick] } :=
              inv_of_core_eq rfl rfl hinv
            have hstep₁ : StepOK s
                { s with launcher_calls := s.launcher_calls ++ [pick] } :=
              stepOK_of_nodes_eq rfl
            have hraisePair : StepOK s
                (markAllDownstreamExecutionsAsSkipped
                  (setNodeStatus
                    { s with launcher_calls := s.launcher_calls ++ [pick] }
                    pick .SYSTEM_ERROR) pick) ∧
                Inv (markAllDownstreamExecutionsAsSkipped
                  (setNodeStatus
                    { s with launcher_calls := s.launcher_calls ++ [pick] }
                    pick .SYSTEM_ERROR) pick) := by
              have h₂ := setNodeStatus_stepOK
                { s with launcher_calls := s.launcher_calls ++ [pick] }
                pick .SYSTEM_ERROR hnonterm
              have hinv₂ : Inv (setNodeStatus
                  { s with launcher_calls := s.launcher_calls ++ [pick] }
                  pick .SYSTEM_ERROR) :=
                inv_setNodeStatus pick _ hinv₁ hce
              obtain ⟨hskip, hnne⟩ := markAllDownstreamSkipped_spec _ pick hinv₂.1
              exact ⟨stepOK_trans (stepOK_trans hstep₁ h₂) (FlipStep.toStepOK (by decide) hskip),
                inv_flip hskip hnne.1 hinv₂ rfl⟩
            cases hlr : o.launch_result with
            | none =>
                rw [queuedSweep_eq_launchRaise o pick s n cs hfn helig hcs hmiss
                  hrun hlr]
                exact hraisePair
            | some lst =>
              cases hok : (lst == ContainerStatus.PENDING ||
                  lst == ContainerStatus.RUNNING) with
              | false =>
                  rw [queuedSweep_eq_badLaunchStatus o pick s n cs lst hfn helig
                    hcs hmiss hrun hlr hok]
                  exact hraisePair
              | true =>
                cases hpf : o.persist_fails with
                | true =>
                    rw [queuedSweep_eq_persistFail o pick s n cs lst hfn helig hcs
                      hmiss hrun hlr hok hpf]
                    exact ⟨stepOK_trans hstep₁ (setNodeStatus_stepOK _ pick _ hnonterm),
                      inv_setNodeStatus pick _ hinv₁ hce⟩
                | false =>
                    rw [queuedSweep_eq_success o pick s n cs lst hfn helig hcs
                      hmiss hrun hlr hok hpf]
                    refine ⟨?_, ?_⟩
                    · refine stepOK_trans (stepOK_of_nodes_eq rfl) ?_
                      exact updateNode_stepOK _ pick _ (fun m => rfl) hnonterm
                    · exact inv_launchPersist hinv₁ _ rfl _

/-! ## In-flight sweep: invariant and step lemmas -/

theorem fold_markAll_ok {α : Type} (f : α → Nat) :
    ∀ (l : List α) (s : OrchState), Inv s →
      StepOK s (l.foldl
        (fun acc a => markAllDownstreamExecutionsAsSkipped acc (f a)) s) ∧
      Inv (l.foldl
        (fun acc a => markAllDownstreamExecutionsAsSkipped acc (f a)) s) := by
  intro l
  induction l with
  | nil => intro s hinv; exact ⟨stepOK_refl s, hinv⟩
  | cons a t ih =>
      intro s hinv
      simp only [List.foldl_cons]
      obtain ⟨hskip, hnne⟩ :=
        markAllDownstreamSkipped_spec s (f a) hinv.1
      have hinv' : Inv (markAllDownstreamExecutionsAsSkipped s (f a)) :=
        inv_flip hskip hnne.1 hinv rfl
      obtain ⟨hso, hi⟩ := ih (markAllDownstreamExecutionsAsSkipped s (f a)) hinv'
      exact ⟨stepOK_trans (FlipStep.toStepOK (by decide) hskip) hso, hi⟩

theorem attach_frame (s : OrchState) (nodeId : Nat)
    (dataIds : List (String × Nat)) :
    (attachOutputsForNode s nodeId dataIds).nodes = s.nodes ∧
    (attachOutputsForNode s nodeId dataIds).container_executions =
      s.container_executions := by
  unfold attachOutputsForNode
  generalize s.output_links.filter (·.execution_id == nodeId) = links
  induction links generalizing s with
  | nil => exact ⟨rfl, rfl⟩
  | cons ol t ih =>
      simp only [List.foldl_cons]
      cases (dataIds.find? (·.1 == ol.output_name)).map (·.2) with
      | none => exact ih s
      | some did =>
          obtain ⟨h₁, h₂⟩ := ih (updateArtifactNode s ol.artifact_id fun a =>
            { a with dataId := some did, hadDataInPast := true })
          exact ⟨h₁, h₂⟩

theorem fold_wakeAttach_ok (dataIds : List (String × Nat)) :
    ∀ (l : List ExecNodeRow) (s : OrchState), Inv s →
      StepOK s (l.foldl (fun acc n =>
        wakeDirectDownstream (attachOutputsForNode acc n.id dataIds) n.id) s) ∧
      Inv (l.foldl (fun acc n =>
        wakeDirectDownstream (attachOutputsForNode acc n.id dataIds) n.id) s) := by
  intro l
  induction l with
  | nil => intro s hinv; exact ⟨stepOK_refl s, hinv⟩
  | cons a t ih =>
      intro s hinv
      simp only [List.foldl_cons]
      obtain ⟨haf₁, haf₂⟩ := attach_frame s a.id dataIds
      have hinvA : Inv (attachOutputsForNode s a.id dataIds) :=
        inv_of_core_eq haf₁ haf₂ hinv
      obtain ⟨hwf, hwnne⟩ :=
        wakeDirectDownstream_spec (attachOutputsForNode s a.id dataIds) a.id hinvA.1
      have hinvW : Inv (wakeDirectDownstream
          (attachOutputsForNode s a.id dataIds) a.id) :=
        inv_flip hwf hwnne.1 hinvA rfl
      obtain ⟨hso, hi⟩ := ih _ hinvW
      refine ⟨stepOK_trans (stepOK_trans (stepOK_of_nodes_eq haf₁)
        (FlipStep.toStepOK (by decide) hwf)) hso, hi⟩

/-- `runningSystemError` is a `StepOK` step and preserves the invariant,
provided no terminal node references the container execution. -/
theorem runningSystemError_ok (s : OrchState) (pick : Nat) (hinv : Inv s)
    (hsafe : ∀ m ∈ s.nodes, m.container_execution_id = some pick →
      ∀ st', m.container_execution_status = some st' → st'.isTerminal = false) :
    StepOK s (runningSystemError s pick) ∧ Inv (runningSystemError s pick) := by
  unfold runningSystemError
  have hinv₂ : Inv (setStatusOfCeNodes
      (updateCe s pick fun c => { c with status := .SYSTEM_ERROR }) pick
      .SYSTEM_ERROR) :=
    inv_ceNodesSet pick .SYSTEM_ERROR _ (fun c => rfl) (fun c => rfl) rfl hinv
  have hstep₂ : StepOK s (setStatusOfCeNodes
      (updateCe s pick fun c => { c with status := .SYSTEM_ERROR }) pick
      .SYSTEM_ERROR) :=
    stepOK_trans (stepOK_of_nodes_eq rfl)
      (setStatusOfCeNodes_stepOK _ pick _ hsafe)
  obtain ⟨hso, hi⟩ := fold_markAll_ok (fun i : Nat => i) _ _ hinv₂
  exact ⟨stepOK_trans hstep₂ hso, hi⟩

/-- `runningSucceeded` is a `StepOK` step and preserves the invariant, under
the same proviso. -/
theorem runningSucceeded_ok (o : RunningSweepOracle) (pick : Nat)
    (ce : ContainerExecutionRow) (s : OrchState) (hinv : Inv s)
    (hsafe : ∀ m ∈ s.nodes, m.container_execution_id = some pick →
      ∀ st', m.container_execution_status = some st' → st'.isTerminal = false) :
    StepOK s (runningSucceeded o pick ce s) ∧ Inv (runningSucceeded o pick ce s) := by
  unfold runningSucceeded
  by_cases hbad : (ce.output_uris.any
      (fun p => (o.output_info.find? (·.1 == p.1)).isNone) ||
      (s.nodes.filter (·.container_execution_id == some pick)).any
        (fun n => (s.output_links.filter (·.execution_id == n.id)).any
          fun ol => ce.output_uris.all (·.1 != ol.output_name))) = true
  · rw [if_pos hbad]
    exact runningSystemError_ok s pick hinv hsafe
  · rw [if_neg hbad]
    have hinvD : Inv { s with artifact_datas := s.artifact_datas ++
        (newOutputArtifactData o ce).map (·.2) } :=
      inv_of_core_eq rfl rfl hinv
    have hinv₃ := inv_ceNodesSet
      (s := { s with artifact_datas := s.artifact_datas ++
        (newOutputArtifactData o ce).map (·.2) }) pick
      .SUCCEEDED (fun c => { c with status := .SUCCEEDED, exit_code := o.exit_code })
      (fun c => rfl) (fun c => rfl) rfl hinvD
    have hstep₃ : StepOK s (setStatusOfCeNodes
        (updateCe { s with artifact_datas := s.artifact_datas ++
            (newOutputArtifactData o ce).map (·.2) } pick
          fun c => { c with status := .SUCCEEDED, exit_code := o.exit_code })
        pick .SUCCEEDED) :=
      stepOK_trans (stepOK_of_nodes_eq rfl)
        (setStatusOfCeNodes_stepOK _ pick _ hsafe)
    obtain ⟨hso, hi⟩ := fold_wakeAttach_ok
      ((newOutputArtifactData o ce).map fun p => (p.1, p.2.id))
      (s.nodes.filter (·.container_execution_id == some pick)) _ hinv₃
    exact ⟨stepOK_trans hstep₃ hso, hi⟩

/-! ## Branch equations of the in-flight sweep -/

theorem updateCe_nodes (s : OrchState) (ceId : Nat)
    (f : ContainerExecutionRow → ContainerExecutionRow) :
    (updateCe s ceId f).nodes = s.nodes := rfl

section RunningBranches

variable (o : RunningSweepOracle) (pick : Nat) (s : OrchState)
variable (ce : ContainerExecutionRow)

theorem runningSweep_eq_notFound (hfc : findCe s pick = none) :
    processRunningSweep o pick s = s := by
  unfold processRunningSweep
  rw [hfc]

theorem runningSweep_eq_ineligible (hfc : findCe s pick = some ce)
    (helig : (ce.status == ContainerExecutionStatus.PENDING ||
      ce.status == ContainerExecutionStatus.RUNNING) = false) :
    processRunningSweep o pick s = s := by
  unfold processRunningSweep
  rw [hfc]
  simp only [helig, Bool.not_false, if_true]

theorem runningSweep_eq_badLauncher (hfc : findCe s pick = some ce)
    (helig : (ce.status == ContainerExecutionStatus.PENDING ||
      ce.status == ContainerExecutionStatus.RUNNING) = true)
    (hl : (ce.launcher_status == ContainerStatus.PENDING ||
      ce.launcher_status == ContainerStatus.RUNNING) = false) :
    processRunningSweep o pick s =
      runningSystemError
        (updateCe s pick fun c => { c with last_processed_at := o.now }) pick := by
  unfold processRunningSweep
  rw [hfc]
  simp only [helig, Bool.not_true, Bool.false_eq_true, if_false, hl,
    Bool.not_false, if_true]

theorem runningSweep_eq_unchanged (hfc : findCe s pick = some ce)
    (helig : (ce.status == ContainerExecutionStatus.PENDING ||
      ce.status == ContainerExecutionStatus.RUNNING) = true)
    (hl : (ce.launcher_status == ContainerStatus.PENDING ||
      ce.launcher_status == ContainerStatus.RUNNING) = true)
    (heq : (o.refreshed_status == ce.launcher_status) = true) :
    processRunningSweep o pick s =
      updateCe s pick fun c => { c with last_processed_at := o.now } := by
  unfold processRunningSweep
  rw [hfc]
  simp only [helig, Bool.not_true, Bool.false_eq_true, if_false, hl, bne,
    heq, if_true]

theorem runningSweep_eq_noNodes (hfc : findCe s pick = some ce)
    (helig : (ce.status == ContainerExecutionStatus.PENDING ||
      ce.status == ContainerExecutionStatus.RUNNING) = true)
    (hl : (ce.launcher_status == ContainerStatus.PENDING ||
      ce.launcher_status == ContainerStatus.RUNNING) = true)
    (heq : (o.refreshed_status == ce.launcher_status) = false)
    (hempty : (s.nodes.filter (·.container_execution_id == some pick)).isEmpty
      = true) :
    processRunningSweep o pick s =
      runningSystemError
        (updateCe (updateCe s pick fun c => { c with last_processed_at := o.now })
          pick fun c => { c with launcher_status := o.refreshed_status }) pick := by
  unfold processRunningSweep
  rw [hfc]
  simp only [helig, Bool.not_true, Bool.false_eq_true, if_false, hl,
    Bool.not_false, if_true, bne, heq, updateCe_nodes, hempty]

theorem runningSweep_eq_running (hfc : findCe s pick = some ce)
    (helig : (ce.status == ContainerExecutionStatus.PENDING ||
      ce.status == ContainerExecutionStatus.RUNNING) = true)
    (hl : (ce.launcher_status == ContainerStatus.PENDING ||
      ce.launcher_status == ContainerStatus.RUNNING) = true)
    (heq : (o.refreshed_status == ce.launcher_status) = false)
    (hempty : (s.nodes.filter (·.container_execution_id == some pick)).isEmpty
      = false)
    (hrs : o.refreshed_status = .RUNNING) :
    processRunningSweep o pick s =
      setStatusOfCeNodes
        (updateCe
          (updateCe (updateCe s pick fun c => { c with last_processed_at := o.now })
            pick fun c => { c with launcher_status := o.refreshed_status })
          pick fun c => { c with status := ContainerExecutionStatus.RUNNING })
        pick ContainerExecutionStatus.RUNNING := by
  unfold processRunningSweep
  rw [hfc]
  rw [hrs] at heq
  simp only [helig, Bool.not_true, Bool.false_eq_true, if_false, hl,
    Bool.not_false, if_true, bne, heq, updateCe_nodes, hempty, hrs]

theorem runningSweep_eq_succeeded (hfc : findCe s pick = some ce)
    (helig : (ce.status == ContainerExecutionStatus.PENDING ||
      ce.status == ContainerExecutionStatus.RUNNING) = true)
    (hl : (ce.launcher_status == ContainerStatus.PENDING ||
      ce.launcher_status == ContainerStatus.RUNNING) = true)
    (heq : (o.refreshed_status == ce.launcher_status) = false)
    (hempty : (s.nodes.filter (·.container_execution_id == some pick)).isEmpty
      = false)
    (hrs : o.refreshed_status = .SUCCEEDED) :
    processRunningSweep o pick s =
      runningSucceeded o pick
        { ce with last_processed_at := o.now, launcher_status := o.refreshed_status }
        (updateCe (updateCe s pick fun c => { c with last_processed_at := o.now })
          pick fun c => { c with launcher_status := o.refreshed_status }) := by
  unfold processRunningSweep
  rw [hfc]
  rw [hrs] at heq
  simp only [helig, Bool.not_true, Bool.false_eq_true, if_false, hl,
    Bool.not_false, if_true, bne, heq, updateCe_nodes, hempty, hrs]

theorem runningSweep_eq_failed (hfc : findCe s pick = some ce)
    (helig : (ce.status == ContainerExecutionStatus.PENDING ||
      ce.status == ContainerExecutionStatus.RUNNING) = true)
    (hl : (ce.launcher_status == ContainerStatus.PENDING ||
      ce.launcher_status == ContainerStatus.RUNNING) = true)
    (heq : (o.refreshed_status == ce.launcher_status) = false)
    (hempty : (s.nodes.filter (·.container_execution_id == some pick)).isEmpty
      = false)
    (hrs : o.refreshed_status = .FAILED) :
    processRunningSweep o pick s =
      (s.nodes.filter (·.container_execution_id == some pick)).foldl
        (fun acc n => markAllDownstreamExecutionsAsSkipped acc n.id)
        (setStatusOfCeNodes
          (updateCe
            (updateCe
              (updateCe s pick fun c => { c with last_processed_at := o.now })
              pick fun c => { c with launcher_status := o.refreshed_status })
            pick fun c =>
              { c with status := ContainerExecutionStatus.FAILED
                       exit_code := o.exit_code })
          pick ContainerExecutionStatus.FAILED) := by
  unfold processRunningSweep
  rw [hfc]
  rw [hrs] at heq
  simp only [helig, Bool.not_true, Bool.false_eq_true, if_false, hl,
    Bool.not_false, if_true, bne, heq, updateCe_nodes, hempty, hrs]

theorem runningSweep_eq_otherStatus (hfc : findCe s pick = some ce)
    (helig : (ce.status == ContainerExecutionStatus.PENDING ||
      ce.status == ContainerExecutionStatus.RUNNING) = true)
    (hl : (ce.launcher_status == ContainerStatus.PENDING ||
      ce.launcher_status == ContainerStatus.RUNNING) = true)
    (heq : (o.refreshed_status == ce.launcher_status) = false)
    (hempty : (s.nodes.filter (·.container_execution_id == some pick)).isEmpty
      = false)
    (hrs : o.refreshed_status = .PENDING ∨ o.refreshed_status = .ERROR) :
    processRunningSweep o pick s =
      runningSystemError
        (updateCe (updateCe s pick fun c => { c with last_processed_at := o.now })
          pick fun c => { c with launcher_status := o.refreshed_status }) pick := by
  unfold processRunningSweep
  rw [hfc]
  rcases hrs with hrs | hrs <;> rw [hrs] at heq <;>
    simp only [helig, Bool.not_true, Bool.false_eq_true, if_false, hl,
      Bool.not_false, if_true, bne, heq, updateCe_nodes, hempty, hrs]

end RunningBranches

/-- The in-flight sweep is a `StepOK` step and preserves the invariant. -/
theorem processRunningSweep_ok (o : RunningSweepOracle) (pick : Nat) (s : OrchState)
    (hinv : Inv s) :
    StepOK s (processRunningSweep o pick s) ∧ Inv (processRunningSweep o pick s) := by
  cases hfc : findCe s pick with
  | none =>
      rw [runningSweep_eq_notFound o pick s hfc]
      exact ⟨stepOK_refl s, hinv⟩
  | some ce =>
    cases helig : (ce.status == ContainerExecutionStatus.PENDING ||
        ce.status == ContainerExecutionStatus.RUNNING) with
    | false =>
        rw [runningSweep_eq_ineligible o pick s ce hfc helig]
        exact ⟨stepOK_refl s, hinv⟩
    | true =>
      have hcemem : ce ∈ s.container_executions := List.mem_of_find?_eq_some hfc
      have hceid : ce.id = pick := by simpa using List.find?_some hfc
      have hsafe : ∀ m ∈ s.nodes, m.container_execution_id = some pick →
          ∀ st', m.container_execution_status = some st' →
          st'.isTerminal = false := by
        intro m hm hmce st' hst'
        cases hT : st'.isTerminal with
        | false => rfl
        | true =>
            exfalso
            have hcT := hinv.2.2.2 m hm st' hst' hT ce hcemem
              (by rw [hmce, hceid])
            have hst : ce.status = .PENDING ∨ ce.status = .RUNNING := by
              simpa using helig
            rcases hst with h | h <;> rw [h] at hcT <;>
              simp [ContainerExecutionStatus.isTerminal] at hcT
      have hinv₁ : Inv (updateCe s pick fun c =>
          { c with last_processed_at := o.now }) :=
        inv_updateCe_frame pick _ (fun c => rfl) (fun c => rfl) hinv
      have hstep₁ : StepOK s (updateCe s pick fun c =>
          { c with last_processed_at := o.now }) := stepOK_of_nodes_eq rfl
      cases hl : (ce.launcher_status == ContainerStatus.PENDING ||
          ce.launcher_status == ContainerStatus.RUNNING) with
      | false =>
          rw [runningSweep_eq_badLauncher o pick s ce hfc helig hl]
          obtain ⟨hso, hi⟩ := runningSystemError_ok _ pick hinv₁ hsafe
          exact ⟨stepOK_trans hstep₁ hso, hi⟩
      | true =>
        cases heq : (o.refreshed_status == ce.launcher_status) with
        | true =>
            rw [runningSweep_eq_unchanged o pick s ce hfc helig hl heq]
            exact ⟨hstep₁, hinv₁⟩
        | false =>
          have hinv₂ : Inv (updateCe
              (updateCe s pick fun c => { c with last_processed_at := o.now })
              pick fun c => { c with launcher_status := o.refreshed_status }) :=
            inv_updateCe_frame pick _ (fun c => rfl) (fun c => rfl) hinv₁
          have hstep₂ : StepOK s (updateCe
              (updateCe s pick fun c => { c with last_processed_at := o.now })
              pick fun c => { c with launcher_status := o.refreshed_status }) :=
            stepOK_of_nodes_eq rfl
          cases hempty : (s.nodes.filter
              (·.container_execution_id == some pick)).isEmpty with
          | true =>
              rw [runningSweep_eq_noNodes o pick s ce hfc helig hl heq hempty]
              obtain ⟨hso, hi⟩ := runningSystemError_ok _ pick hinv₂ hsafe
              exact ⟨stepOK_trans hstep₂ hso, hi⟩
          | false =>
            cases hrs : o.refreshed_status with
            | RUNNING =>
                rw [runningSweep_eq_running o pick s ce hfc helig hl heq hempty hrs]
                refine ⟨stepOK_trans hstep₂ (stepOK_trans (stepOK_of_nodes_eq rfl)
                  (setStatusOfCeNodes_stepOK _ pick _ hsafe)), ?_⟩
                exact inv_ceNodesSet pick .RUNNING _ (fun c => rfl) (fun c => rfl)
                  rfl hinv₂
            | SUCCEEDED =>
                rw [runningSweep_eq_succeeded o pick s ce hfc helig hl heq hempty hrs]
                obtain ⟨hso, hi⟩ := runningSucceeded_ok o pick
                  { ce with last_processed_at := o.now
                            launcher_status := o.refreshed_status } _ hinv₂ hsafe
                exact ⟨stepOK_trans hstep₂ hso, hi⟩
            | FAILED =>
                rw [runningSweep_eq_failed o pick s ce hfc helig hl heq hempty hrs]
                have hinv₃ := inv_ceNodesSet
                  (s := updateCe
                    (updateCe s pick fun c => { c with last_processed_at := o.now })
                    pick fun c => { c with launcher_status := o.refreshed_status })
                  pick .FAILED
                  (fun c => { c with status := ContainerExecutionStatus.FAILED
                                     exit_code := o.exit_code })
                  (fun c => rfl) (fun c => rfl) rfl hinv₂
                have hstep₃ : StepOK s (setStatusOfCeNodes
                    (updateCe
                      (updateCe
                        (updateCe s pick fun c =>
                          { c with last_processed_at := o.now })
                        pick fun c => { c with launcher_status := o.refreshed_status })
                      pick fun c =>
                        { c with status := ContainerExecutionStatus.FAILED
                                 exit_code := o.exit_code })
                    pick ContainerExecutionStatus.FAILED) :=
                  stepOK_trans hstep₂ (stepOK_trans (stepOK_of_nodes_eq rfl)
                    (setStatusOfCeNodes_stepOK _ pick _ hsafe))
                obtain ⟨hso, hi⟩ := fold_markAll_ok (fun n : ExecNodeRow => n.id)
                  (s.nodes.filter (·.container_execution_id == some pick)) _ hinv₃
                exact ⟨stepOK_trans hstep₃ hso, hi⟩
            | PENDING =>
                rw [runningSweep_eq_otherStatus o pick s ce hfc helig hl heq hempty
                  (Or.inl hrs)]
                obtain ⟨hso, hi⟩ := runningSystemError_ok _ pick hinv₂ hsafe
                exact ⟨stepOK_trans hstep₂ hso, hi⟩
            | ERROR =>
                rw [runningSweep_eq_otherStatus o pick s ce hfc helig hl heq hempty
                  (Or.inr hrs)]
                obtain ⟨hso, hi⟩ := runningSystemError_ok _ pick hinv₂ hsafe
                exact ⟨stepOK_trans hstep₂ hso, hi⟩

/-! ## Sweep traces -/

/-- One orchestrator sweep iteration: either queue, with the oracle
describing the external collaborators' behaviour and the row the `LIMIT 1`
query picked. -/
inductive SweepStep where
  | queued (o : QueuedSweepOracle) (pick : Nat) : SweepStep
  | running (o : RunningSweepOracle) (pick : Nat) : SweepStep
deriving DecidableEq, Repr

def applySweep : SweepStep → OrchState → OrchState
  | .queued o pick, s => processQueuedSweep o pick s
  | .running o pick, s => processRunningSweep o pick s

def applySweeps (steps : List SweepStep) (s : OrchState) : OrchState :=
  steps.foldl (fun acc st => applySweep st acc) s

theorem applySweep_ok (st : SweepStep) (s : OrchState) (hinv : Inv s) :
    StepOK s (applySweep st s) ∧ Inv (applySweep st s) := by
  cases st with
  | queued o pick => exact processQueuedSweep_ok o pick s hinv
  | running o pick => exact processRunningSweep_ok o pick s hinv

theorem applySweeps_ok (steps : List SweepStep) :
    ∀ s : OrchState, Inv s →
      StepOK s (applySweeps steps s) ∧ Inv (applySweeps steps s) := by
  induction steps with
  | nil => intro s hinv; exact ⟨stepOK_refl s, hinv⟩
  | cons st t ih =>
      intro s hinv
      obtain ⟨hso, hi⟩ := applySweep_ok st s hinv
      obtain ⟨hso', hi'⟩ := ih (applySweep st s) hi
      exact ⟨stepOK_trans hso hso', hi'⟩

/-- Look up a node by id after an id-preserving rewrite of the table. -/
theorem findNode_after_map {s s' : OrchState} {g : ExecNodeRow → ExecNodeRow}
    (he : s'.nodes = s.nodes.map g) (hgid : ∀ m, (g m).id = m.id)
    {n : ExecNodeRow} (hn : n ∈ s.nodes)
    (hnd : (s.nodes.map (·.id)).Nodup) :
    findNode s' n.id = some (g n) := by
  unfold findNode
  rw [he, List.find?_map]
  rw [show ((fun m : ExecNodeRow => m.id == n.id) ∘ g) =
    fun m : ExecNodeRow => m.id == n.id from funext fun m => by simp [hgid]]
  rw [find?_self_of_nodup hnd hn]
  rfl

/-- Claim C9: once an execution node's `container_execution_status` is
terminal, no sequence of orchestrator sweep iterations — ready-queue or
in-flight, under any launcher/storage behaviour and any row picks — ever
changes that node's status again.  `Inv` is the state invariant established
at compile time and preserved by the sweeps. -/
theorem C9_terminal_status_stable (s : OrchState) (hinv : Inv s)
    (steps : List SweepStep) (n : ExecNodeRow) (hn : n ∈ s.nodes)
    (st : ContainerExecutionStatus) (hst : n.container_execution_status = some st)
    (hterm : st.isTerminal = true) :
    (findNode (applySweeps steps s) n.id).map (·.container_execution_status) =
      some (some st) := by
  obtain ⟨hso, _⟩ := applySweeps_ok steps s hinv
  obtain ⟨g, he, hgid, hgterm⟩ := hso
  have hfind := findNode_after_map he hgid hn hinv.1
  rw [hfind]
  rw [hgterm n hn st hst hterm]
  simp [hst]

def c9Node : ExecNodeRow :=
  { id := 1, container_execution_id := some 7,
    container_execution_status := some .SUCCEEDED }

def c9State : OrchState :=
  { nodes := [c9Node,
      { id := 2, containerSpec := some (.obj []),
        container_execution_status := some .QUEUED }]
    container_executions := [{ id := 7, status := .SUCCEEDED }]
    runs := [{ id := 1, root_execution_id := 0 }]
    anc_links := [{ execution_id := 2, ancestor_execution_id := 0 }] }

theorem C9_witness :
    (findNode (applySweeps [.queued {} 2, .running {} 7] c9State) 1).map
      (·.container_execution_status) = some (some .SUCCEEDED) :=
  C9_terminal_status_stable c9State (by decide) [.queued {} 2, .running {} 7]
    c9Node (by decide) .SUCCEEDED (by decide) (by decide)

/-! ## C8: transactionality and failure handling of the ready-queue sweep -/

/-- Claim C8 (amended): for an eligible `QUEUED`/`UNINITIALIZED` node with a
container spec, all inputs present and an owning pipeline run: (i) a failure
raised by the launch call re-commits the node as `SYSTEM_ERROR` and runs
downstream skipping (which only turns `WAITING_FOR_UPSTREAM` nodes into
`SKIPPED`); (ii) a failure while persisting the `ContainerExecution`
(step 6) re-commits the node as `SYSTEM_ERROR` but leaves every other node
and the `ContainerExecution` table unchanged — no downstream skipping;
(iii) on success a single commit persists the `PENDING` `ContainerExecution`
and moves the node to `PENDING` with its cache key, leaving other nodes
unchanged. -/
theorem C8_failure_handling
    (o : QueuedSweepOracle) (pick : Nat) (s : OrchState) (n : ExecNodeRow)
    (cs : Json) (hinv : Inv s)
    (hfn : findNode s pick = some n)
    (helig : (n.container_execution_status == some .UNINITIALIZED ||
      n.container_execution_status == some .QUEUED) = true)
    (hcs : n.containerSpec = some cs)
    (hmiss : (inputDataOf s pick).any (fun p => p.2.isNone) = false)
    (hrun : runExistsFor s pick = true) :
    (o.launch_result = none →
      nodeStatus (processQueuedSweep o pick s) pick = some .SYSTEM_ERROR ∧
      (processQueuedSweep o pick s).container_executions =
        s.container_executions ∧
      ∃ g, (processQueuedSweep o pick s).nodes = s.nodes.map g ∧
        (∀ m, (g m).id = m.id) ∧
        ∀ m ∈ s.nodes, ¬ m.id = pick →
          (g m = m ∨ (m.container_execution_status = some .WAITING_FOR_UPSTREAM ∧
            g m = { m with container_execution_status := some .SKIPPED }))) ∧
    (∀ lst, o.launch_result = some lst →
      (lst == ContainerStatus.PENDING || lst == ContainerStatus.RUNNING) = true →
      o.persist_fails = true →
      nodeStatus (processQueuedSweep o pick s) pick = some .SYSTEM_ERROR ∧
      (processQueuedSweep o pick s).container_executions =
        s.container_executions ∧
      ∃ g, (processQueuedSweep o pick s).nodes = s.nodes.map g ∧
        (∀ m, (g m).id = m.id) ∧
        ∀ m ∈ s.nodes, ¬ m.id = pick → g m = m) ∧
    (∀ lst, o.launch_result = some lst →
      (lst == ContainerStatus.PENDING || lst == ContainerStatus.RUNNING) = true →
      o.persist_fails = false →
      nodeStatus (processQueuedSweep o pick s) pick = some .PENDING ∧
      (findNode (processQueuedSweep o pick s) pick).map
        (·.container_execution_cache_key) = some (some
          (calculateContainerExecutionCacheKey cs
            ((inputDataOf s pick).filterMap fun p => p.2.map fun d => (p.1, d)))) ∧
      (∃ ce : ContainerExecutionRow,
        (processQueuedSweep o pick s).container_executions =
          s.container_executions ++ [ce] ∧ ce.status = .PENDING ∧
        ce.launcher_status = lst) ∧
      ∃ g, (processQueuedSweep o pick s).nodes = s.nodes.map g ∧
        (∀ m, (g m).id = m.id) ∧
        ∀ m ∈ s.nodes, ¬ m.id = pick → g m = m) := by
  have hnmem : n ∈ s.nodes := List.mem_of_find?_eq_some hfn
  have hnid : n.id = pick := by simpa using List.find?_some hfn
  refine ⟨?_, ?_, ?_⟩
  · -- (i) launch raised
    intro hlr
    rw [queuedSweep_eq_launchRaise o pick s n cs hfn helig hcs hmiss hrun hlr]
    set s₁ : OrchState := { s with launcher_calls := s.launcher_calls ++ [pick] }
      with hs₁
    set g₁ := fun m : ExecNodeRow =>
      if m.id == pick then
        { m with container_execution_status := some .SYSTEM_ERROR }
      else m with hg₁
    have hn₂ : (setNodeStatus s₁ pick .SYSTEM_ERROR).nodes = s.nodes.map g₁ := rfl
    have hg₁id : ∀ m, (g₁ m).id = m.id := by
      intro m; by_cases hc : m.id = pick <;> simp [hg₁, hc]
    have hnd₂ : ((setNodeStatus s₁ pick .SYSTEM_ERROR).nodes.map (·.id)).Nodup := by
      rw [hn₂, List.map_map]
      rw [show ((fun m : ExecNodeRow => m.id) ∘ g₁) =
        fun m : ExecNodeRow => m.id from funext hg₁id]
      exact hinv.1
    obtain ⟨⟨g₂, he₂, hg₂id, hc₂⟩, hnne⟩ :=
      markAllDownstreamSkipped_spec (setNodeStatus s₁ pick .SYSTEM_ERROR) pick hnd₂
    have hcomp : (markAllDownstreamExecutionsAsSkipped
        (setNodeStatus s₁ pick .SYSTEM_ERROR) pick).nodes =
        s.nodes.map (g₂ ∘ g₁) := by
      rw [he₂, hn₂, List.map_map]
    have hfind := findNode_after_map hcomp
      (fun m => by simp [Function.comp, hg₂id, hg₁id]) hnmem hinv.1
    have hg₁n : g₁ n =
        { n with container_execution_status := some .SYSTEM_ERROR } := by
      simp [hg₁, hnid]
    have hg₂n : g₂ (g₁ n) = g₁ n := by
      have hmem : g₁ n ∈ (setNodeStatus s₁ pick .SYSTEM_ERROR).nodes :=
        hn₂ ▸ List.mem_map_of_mem g₁ hnmem
      rcases hc₂ (g₁ n) hmem with h | ⟨hw, _⟩
      · exact h
      · rw [hg₁n] at hw
        simp at hw
    rw [hnid] at hfind
    refine ⟨?_, hnne.1, ⟨g₂ ∘ g₁, hcomp,
      fun m => by simp [Function.comp, hg₂id, hg₁id], ?_⟩⟩
    · rw [nodeStatus, hfind]
      show ((g₂ (g₁ n)).container_execution_status) = _
      rw [hg₂n, hg₁n]
    · intro m hm hmp
      have hg₁m : g₁ m = m := by simp [hg₁, hmp]
      have hmem : g₁ m ∈ (setNodeStatus s₁ pick .SYSTEM_ERROR).nodes :=
        hn₂ ▸ List.mem_map_of_mem g₁ hm
      rw [hg₁m] at hmem
      rcases hc₂ m hmem with h | ⟨hw, h⟩
      · exact Or.inl (by simp [Function.comp, hg₁m, h])
      · exact Or.inr ⟨hw, by simp [Function.comp, hg₁m, h]⟩
  · -- (ii) persistence failure
    intro lst hlr hok hpf
    rw [queuedSweep_eq_persistFail o pick s n cs lst hfn helig hcs hmiss hrun hlr
      hok hpf]
    set g₁ := fun m : ExecNodeRow =>
      if m.id == pick then
        { m with container_execution_status := some .SYSTEM_ERROR }
      else m with hg₁
    have hg₁id : ∀ m, (g₁ m).id = m.id := by
      intro m; by_cases hc : m.id = pick <;> simp [hg₁, hc]
    have hn₂ : (setNodeStatus
        { s with launcher_calls := s.launcher_calls ++ [pick] }
        pick .SYSTEM_ERROR).nodes = s.nodes.map g₁ := rfl
    have hfind := findNode_after_map hn₂ hg₁id hnmem hinv.1
    rw [hnid] at hfind
    refine ⟨?_, rfl, ⟨g₁, hn₂, hg₁id, ?_⟩⟩
    · rw [nodeStatus, hfind]
      show (g₁ n).container_execution_status = _
      simp [hg₁, hnid]
    · intro m _ hmp
      simp [hg₁, hmp]
  · -- (iii) success: one commit
    intro lst hlr hok hpf
    have heq := queuedSweep_eq_success o pick s n cs lst hfn helig hcs hmiss hrun
      hlr hok hpf
    set g₃ := fun m : ExecNodeRow =>
      if m.id == pick then
        { m with
          container_execution_id := some (freshCeId s)
          container_execution_cache_key := some
            (calculateContainerExecutionCacheKey cs
              ((inputDataOf s pick).filterMap fun p => p.2.map fun d => (p.1, d)))
          container_execution_status := some ContainerExecutionStatus.PENDING }
      else m with hg₃
    have hg₃id : ∀ m, (g₃ m).id = m.id := by
      intro m; by_cases hc : m.id = pick <;> simp [hg₃, hc]
    have hn₃ : (processQueuedSweep o pick s).nodes = s.nodes.map g₃ := by
      rw [heq, hg₃]
      rfl
    have hce : (processQueuedSweep o pick s).container_executions =
        s.container_executions ++
          [{ id := freshCeId s
             status := .PENDING
             last_processed_at := o.now
             launcher_status := lst
             output_uris := n.outputNames.map fun nm =>
               (nm, "by_execution/" ++ o.exec_uuid ++ "/outputs/" ++ nm ++
                 "/data") }] := by
      rw [heq]
      rfl
    have hfind := findNode_after_map hn₃ hg₃id hnmem hinv.1
    rw [hnid] at hfind
    refine ⟨?_, ?_, ⟨_, hce, rfl, rfl⟩, ⟨g₃, hn₃, hg₃id, ?_⟩⟩
    · rw [nodeStatus, hfind]
      show (g₃ n).container_execution_status = _
      simp [hg₃, hnid]
    · rw [hfind]
      show some ((g₃ n).container_execution_cache_key) = _
      simp [hg₃, hnid]
    · intro m _ hmp
      simp [hg₃, hmp]

def c8Node : ExecNodeRow :=
  { id := 1, containerSpec := some (.obj []), outputNames := ["o"],
    container_execution_status := some .QUEUED }

/-- A run with a `QUEUED` node 1 (no inputs) and a downstream
`WAITING_FOR_UPSTREAM` node 2 consuming node 1's output artifact. -/
def c8State : OrchState :=
  { nodes := [{ id := 0 }, c8Node,
      { id := 2, container_execution_status := some .WAITING_FOR_UPSTREAM }]
    artifact_nodes := [{ id := 10 }]
    output_links := [{ execution_id := 1, output_name := "o", artifact_id := 10 }]
    input_links := [{ execution_id := 2, input_name := "in", artifact_id := 10 }]
    anc_links := [{ execution_id := 1, ancestor_execution_id := 0 }]
    runs := [{ id := 1, root_execution_id := 0 }] }

/-- Claim C8 counterexample: a failure while persisting the
`ContainerExecution` (step 6, within the claimed steps 2–6) re-commits node 1
as `SYSTEM_ERROR` but leaves the downstream `WAITING_FOR_UPSTREAM` node 2
unskipped, contradicting "every downstream node currently in
WAITING_FOR_UPSTREAM is marked SKIPPED" on any failure.  (A failure of the
launch call itself does skip node 2.) -/
theorem C8_counterexample :
    nodeStatus (processQueuedSweep { persist_fails := true } 1 c8State) 1 =
      some .SYSTEM_ERROR ∧
    nodeStatus (processQueuedSweep { persist_fails := true } 1 c8State) 2 =
      some .WAITING_FOR_UPSTREAM ∧
    nodeStatus (processQueuedSweep { persist_fails := true } 1 c8State) 2 ≠
      some .SKIPPED ∧
    nodeStatus (processQueuedSweep { launch_result := none } 1 c8State) 2 =
      some .SKIPPED := by
  refine ⟨by decide, by decide, by decide, by decide⟩

theorem C8_witness :
    nodeStatus (processQueuedSweep { persist_fails := true } 1 c8State) 1 =
      some .SYSTEM_ERROR ∧
    (processQueuedSweep { persist_fails := true } 1 c8State).container_executions
      = c8State.container_executions :=
  ⟨((C8_failure_handling { persist_fails := true } 1 c8State c8Node (.obj [])
      (by decide) (by decide) (by decide) (by decide) (by decide) (by decide)).2.1
      .PENDING rfl (by decide) rfl).1,
    ((C8_failure_handling { persist_fails := true } 1 c8State c8Node (.obj [])
      (by decide) (by decide) (by decide) (by decide) (by decide) (by decide)).2.1
      .PENDING rfl (by decide) rfl).2.1⟩

/-! ## C2: run cancellation (the `terminate` service the router calls is not
among the source files; the model follows the spec, sections 4.5, 4.2.1 and
4.2.5) -/

/-- Modelled from the spec: the effect of cancellation on one container
node's status: `WAITING_FOR_UPSTREAM` (downstream waiting) becomes
`SKIPPED`, any other non-terminal status becomes `CANCELLED`, terminal
statuses — and nodes with no container status — are left alone. -/
def cancelNodeStatus : Option ContainerExecutionStatus →
    Option ContainerExecutionStatus
  | some .WAITING_FOR_UPSTREAM => some .SKIPPED
  | some st => if st.isTerminal then some st else some .CANCELLED
  | none => none

/-- Modelled from the spec: the run's execution subtree — the root execution
together with every execution that lists the root as an ancestor in the
closure table. -/
def runSubtree (s : OrchState) (run : PipelineRunRow) : List Nat :=
  run.root_execution_id ::
    (s.anc_links.filter
      (·.ancestor_execution_id == run.root_execution_id)).map (·.execution_id)

/-- Modelled from the spec: `cancel(pipeline_run_id, by_user)` walks the
run's subtree via the closure table, skips/cancels every non-terminal
container node, and returns the `ContainerExecution` ids of the in-flight
(`PENDING`/`RUNNING`) nodes, for which the launcher is asked (best effort)
to terminate the containers. -/
def cancelRun (s : OrchState) (runId : Nat) : OrchState × List Nat :=
  match s.runs.find? (·.id == runId) with
  | none => (s, [])
  | some run =>
      ({ s with nodes := s.nodes.map fun n =>
          if (runSubtree s run).contains n.id then
            { n with container_execution_status :=
                cancelNodeStatus n.container_execution_status }
          else n },
        (s.nodes.filter fun n =>
          (runSubtree s run).contains n.id &&
          (n.container_execution_status == some .PENDING ||
            n.container_execution_status == some .RUNNING)).filterMap
          (·.container_execution_id))

theorem cancelNodeStatus_idem (st : Option ContainerExecutionStatus) :
    cancelNodeStatus (cancelNodeStatus st) = cancelNodeStatus st := by
  rcases st with _ | st
  · rfl
  · cases st <;> rfl

theorem cancelNodeStatus_not_inflight (st : Option ContainerExecutionStatus) :
    (cancelNodeStatus st == some ContainerExecutionStatus.PENDING ||
      cancelNodeStatus st == some ContainerExecutionStatus.RUNNING) = false := by
  rcases st with _ | st
  · rfl
  · cases st <;> rfl

theorem cancelRun_eq (s : OrchState) (runId : Nat) (run : PipelineRunRow)
    (hrun : s.runs.find? (·.id == runId) = some run) :
    cancelRun s runId =
      ({ s with nodes := s.nodes.map fun n =>
          if (runSubtree s run).contains n.id then
            { n with container_execution_status :=
                cancelNodeStatus n.container_execution_status }
          else n },
        (s.nodes.filter fun n =>
          (runSubtree s run).contains n.id &&
          (n.container_execution_status == some .PENDING ||
            n.container_execution_status == some .RUNNING)).filterMap
          (·.container_execution_id)) := by
  unfold cancelRun
  rw [hrun]

/-- Claim C2 (amended, modelled from the spec): `cancel` on an existing run
(i) turns subtree nodes in `WAITING_FOR_UPSTREAM` into `SKIPPED` — not
`CANCELLED`, refuting the claim's "every non-terminal node becomes
CANCELLED"; (ii) keeps terminal subtree nodes unchanged; (iii) cancels every
other subtree node holding a container status; (iv) leaves nodes outside the
subtree unchanged; (v) requests launcher termination for every in-flight
subtree node's container execution; and (vi) is idempotent: a second
`cancel` changes no status and requests no termination. -/
theorem C2_cancel (s : OrchState) (runId : Nat) (run : PipelineRunRow)
    (hrun : s.runs.find? (·.id == runId) = some run)
    (hnd : (s.nodes.map (·.id)).Nodup) :
    (∀ n ∈ s.nodes, (runSubtree s run).contains n.id = true →
      (n.container_execution_status = some .WAITING_FOR_UPSTREAM →
        nodeStatus (cancelRun s runId).1 n.id = some .SKIPPED) ∧
      (∀ st, n.container_execution_status = some st → st.isTerminal = true →
        nodeStatus (cancelRun s runId).1 n.id = some st) ∧
      (∀ st, n.container_execution_status = some st → st.isTerminal = false →
        st ≠ .WAITING_FOR_UPSTREAM →
        nodeStatus (cancelRun s runId).1 n.id = some .CANCELLED)) ∧
    (∀ n ∈ s.nodes, (runSubtree s run).contains n.id = false →
      nodeStatus (cancelRun s runId).1 n.id = n.container_execution_status) ∧
    (∀ n ∈ s.nodes, (runSubtree s run).contains n.id = true →
      (n.container_execution_status = some .PENDING ∨
        n.container_execution_status = some .RUNNING) →
      ∀ cid, n.container_execution_id = some cid →
        cid ∈ (cancelRun s runId).2) ∧
    cancelRun (cancelRun s runId).1 runId = ((cancelRun s runId).1, []) := by
  set g := fun n : ExecNodeRow =>
    if (runSubtree s run).contains n.id then
      { n with container_execution_status :=
          cancelNodeStatus n.container_execution_status }
    else n with hg
  have hgpos : ∀ m : ExecNodeRow, (runSubtree s run).contains m.id = true →
      g m = { m with
        container_execution_status :=
          cancelNodeStatus m.container_execution_status } := by
    intro m hc
    rw [hg]
    exact if_pos hc
  have hgneg : ∀ m : ExecNodeRow, (runSubtree s run).contains m.id = false →
      g m = m := by
    intro m hc
    rw [hg]
    exact if_neg (by rw [hc]; exact Bool.false_ne_true)
  have hgid : ∀ m, (g m).id = m.id := by
    intro m
    cases hc : (runSubtree s run).contains m.id with
    | false => rw [hgneg m hc]
    | true => rw [hgpos m hc]
  have hn₁ : (cancelRun s runId).1.nodes = s.nodes.map g := by
    rw [cancelRun_eq s runId run hrun, hg]
  refine ⟨?_, ?_, ?_, ?_⟩
  · intro n hn hcont
    have hfind := findNode_after_map hn₁ hgid hn hnd
    have hgn := hgpos n hcont
    refine ⟨?_, ?_, ?_⟩
    · intro hw
      rw [nodeStatus, hfind]
      show (g n).container_execution_status = _
      rw [hgn]
      show cancelNodeStatus n.container_execution_status = _
      rw [hw]
      rfl
    · intro st hst hterm
      rw [nodeStatus, hfind]
      show (g n).container_execution_status = _
      rw [hgn]
      show cancelNodeStatus n.container_execution_status = _
      rw [hst]
      cases st <;> first | rfl | exact absurd hterm (by decide)
    · intro st hst hnterm hnw
      rw [nodeStatus, hfind]
      show (g n).container_execution_status = _
      rw [hgn]
      show cancelNodeStatus n.container_execution_status = _
      rw [hst]
      cases st <;>
        first
          | rfl
          | exact absurd hnterm (by decide)
          | exact absurd rfl hnw
  · intro n hn hcont
    have hfind := findNode_after_map hn₁ hgid hn hnd
    rw [nodeStatus, hfind]
    show (g n).container_execution_status = _
    rw [hgneg n hcont]
  · intro n hn hcont hio cid hcid
    rw [cancelRun_eq s runId run hrun]
    show cid ∈ (s.nodes.filter fun n =>
      (runSubtree s run).contains n.id &&
      (n.container_execution_status == some .PENDING ||
        n.container_execution_status == some .RUNNING)).filterMap
      (·.container_execution_id)
    rw [List.mem_filterMap]
    refine ⟨n, ?_, hcid⟩
    rw [List.mem_filter]
    refine ⟨hn, ?_⟩
    show ((runSubtree s run).contains n.id &&
      (n.container_execution_status == some .PENDING ||
        n.container_execution_status == some .RUNNING)) = true
    rw [hcont]
    rcases hio with h | h <;> rw [h] <;> decide
  · have hrun₂ : (cancelRun s runId).1.runs.find? (·.id == runId) = some run := by
      rw [cancelRun_eq s runId run hrun]
      exact hrun
    have hsub : runSubtree (cancelRun s runId).1 run = runSubtree s run := by
      rw [cancelRun_eq s runId run hrun]
      rfl
    have hgg : ∀ m, g (g m) = g m := by
      intro m
      cases hc : (runSubtree s run).contains m.id with
      | false => rw [hgneg m hc, hgneg m hc]
      | true =>
          have hc' : (runSubtree s run).contains (g m).id = true := by
            rw [hgid m, hc]
          rw [hgpos (g m) hc', hgpos m hc]
          simp [cancelNodeStatus_idem]
    have hmm : (s.nodes.map g).map g = s.nodes.map g := by
      rw [List.map_map, show (g ∘ g) = g from funext hgg]
    rw [cancelRun_eq (cancelRun s runId).1 runId run hrun₂]
    rw [hsub, ← hg, hn₁, hmm]
    simp only [Prod.mk.injEq]
    constructor
    · rw [← hn₁]
    · rw [List.eq_nil_iff_forall_not_mem]
      intro cid hcid
      rw [List.mem_filterMap] at hcid
      obtain ⟨m, hm, _⟩ := hcid
      rw [List.mem_filter] at hm
      obtain ⟨hm, hpm⟩ := hm
      obtain ⟨n, hn, rfl⟩ := List.mem_map.mp hm
      cases hc : (runSubtree s run).contains n.id with
      | true =>
          rw [hgpos n hc] at hpm
          simp only [hc, Bool.true_and] at hpm
          rw [cancelNodeStatus_not_inflight] at hpm
          exact Bool.false_ne_true hpm
      | false =>
          rw [hgneg n hc] at hpm
          simp only [hc, Bool.false_and] at hpm
          exact Bool.false_ne_true hpm

def c2Run : PipelineRunRow := { id := 1, root_execution_id := 0 }

def c2Node2 : ExecNodeRow :=
  { id := 2, container_execution_id := some 7,
    container_execution_status := some .RUNNING }

/-- A run whose subtree holds a `WAITING_FOR_UPSTREAM` node 1 and an
in-flight `RUNNING` node 2 (container execution 7). -/
def c2Ce : ContainerExecutionRow :=
  { id := 7, status := .RUNNING, launcher_status := .RUNNING }

def c2State : OrchState :=
  { nodes := [{ id := 0 },
      { id := 1, container_execution_status := some .WAITING_FOR_UPSTREAM },
      c2Node2]
    container_executions := [c2Ce]
    anc_links := [{ execution_id := 1, ancestor_execution_id := 0 },
      { execution_id := 2, ancestor_execution_id := 0 }]
    runs := [c2Run] }

/-- Claim C2 counterexample: node 1 is non-terminal (`WAITING_FOR_UPSTREAM`)
and in the run's subtree, yet `cancel` leaves it `SKIPPED`, not `CANCELLED`
— the claim's "transitions every non-terminal container execution node in
the run's subtree to CANCELLED" fails.  (The in-flight node 2 is cancelled
with a terminate request for its container execution, and a second `cancel`
is a no-op.) -/
theorem C2_counterexample :
    nodeStatus c2State 1 = some .WAITING_FOR_UPSTREAM ∧
    ContainerExecutionStatus.WAITING_FOR_UPSTREAM.isTerminal = false ∧
    nodeStatus (cancelRun c2State 1).1 1 = some .SKIPPED ∧
    ¬ nodeStatus (cancelRun c2State 1).1 1 = some .CANCELLED ∧
    nodeStatus (cancelRun c2State 1).1 2 = some .CANCELLED ∧
    (cancelRun c2State 1).2 = [7] ∧
    cancelRun (cancelRun c2State 1).1 1 = ((cancelRun c2State 1).1, []) :=
  ⟨by decide, by decide, by decide, by decide, by decide, by decide, rfl⟩

theorem C2_witness :
    (∀ n ∈ c2State.nodes, (runSubtree c2State c2Run).contains n.id = true →
      (n.container_execution_status = some .WAITING_FOR_UPSTREAM →
        nodeStatus (cancelRun c2State 1).1 n.id = some .SKIPPED) ∧
      (∀ st, n.container_execution_status = some st → st.isTerminal = true →
        nodeStatus (cancelRun c2State 1).1 n.id = some st) ∧
      (∀ st, n.container_execution_status = some st → st.isTerminal = false →
        st ≠ .WAITING_FOR_UPSTREAM →
        nodeStatus (cancelRun c2State 1).1 n.id = some .CANCELLED)) ∧
    (∀ n ∈ c2State.nodes,
      (runSubtree c2State c2Run).contains n.id = false →
      nodeStatus (cancelRun c2State 1).1 n.id =
        n.container_execution_status) ∧
    (∀ n ∈ c2State.nodes, (runSubtree c2State c2Run).contains n.id = true →
      (n.container_execution_status = some .PENDING ∨
        n.container_execution_status = some .RUNNING) →
      ∀ cid, n.container_execution_id = some cid →
        cid ∈ (cancelRun c2State 1).2) ∧
    cancelRun (cancelRun c2State 1).1 1 = ((cancelRun c2State 1).1, []) :=
  C2_cancel c2State 1 c2Run (by decide) (by decide)

/-! ## C5: value-inlining threshold of the in-flight sweep -/

theorem attach_datas (s : OrchState) (nodeId : Nat)
    (dataIds : List (String × Nat)) :
    (attachOutputsForNode s nodeId dataIds).artifact_datas =
      s.artifact_datas := by
  unfold attachOutputsForNode
  generalize s.output_links.filter (·.execution_id == nodeId) = links
  induction links generalizing s with
  | nil => rfl
  | cons ol t ih =>
      simp only [List.foldl_cons]
      cases (dataIds.find? (·.1 == ol.output_name)).map (·.2) with
      | none => exact ih s
      | some did =>
          exact ih (updateArtifactNode s ol.artifact_id fun a =>
            { a with dataId := some did, hadDataInPast := true })

theorem fold_wakeAttach_datas (dataIds : List (String × Nat)) :
    ∀ (l : List ExecNodeRow) (s : OrchState), Inv s →
      (l.foldl (fun acc n =>
        wakeDirectDownstream (attachOutputsForNode acc n.id dataIds) n.id)
          s).artifact_datas = s.artifact_datas := by
  intro l
  induction l with
  | nil => intro s _; rfl
  | cons a t ih =>
      intro s hinv
      simp only [List.foldl_cons]
      obtain ⟨haf₁, haf₂⟩ := attach_frame s a.id dataIds
      have hinvA : Inv (attachOutputsForNode s a.id dataIds) :=
        inv_of_core_eq haf₁ haf₂ hinv
      obtain ⟨hwf, hwnne⟩ :=
        wakeDirectDownstream_spec (attachOutputsForNode s a.id dataIds) a.id
          hinvA.1
      have hinvW : Inv (wakeDirectDownstream
          (attachOutputsForNode s a.id dataIds) a.id) :=
        inv_flip hwf hwnne.1 hinvA rfl
      rw [ih _ hinvW, hwnne.2.2.1, attach_datas]

/-- `_maybe_preload_value` in closed form: the inlining guard is
`¬ is_dir ∧ total_size < 255` (the size bound in the source is 255). -/
theorem maybePreloadValue_eq (b : List Nat) (d : Bool) (n : Nat) :
    maybePreloadValue b d n =
      if d = false ∧ n < 255 then utf8DecodeString b else none := by
  unfold maybePreloadValue
  by_cases h : d = false ∧ n < 255
  · have hB : (!d && decide (n < 255)) = true := by
      rw [h.1]
      simp [h.2]
    rw [if_pos hB, if_pos h]
    cases hu : utf8DecodeString b <;> rfl
  · have hB : (!d && decide (n < 255)) = false := by
      cases d with
      | true => rfl
      | false =>
          have hn : ¬ n < 255 := fun hn => h ⟨rfl, hn⟩
          simp [hn]
    rw [if_neg (by simp only [hB]; decide), if_neg h]

theorem runningSucceeded_datas (o : RunningSweepOracle) (pick : Nat)
    (ce : ContainerExecutionRow) (s : OrchState) (hinv : Inv s)
    (hok : (ce.output_uris.any
        (fun p => (o.output_info.find? (·.1 == p.1)).isNone) ||
      (s.nodes.filter (·.container_execution_id == some pick)).any
        (fun n => (s.output_links.filter (·.execution_id == n.id)).any
          fun ol => ce.output_uris.all (·.1 != ol.output_name))) = false) :
    (runningSucceeded o pick ce s).artifact_datas =
      s.artifact_datas ++ (newOutputArtifactData o ce).map (·.2) := by
  unfold runningSucceeded
  rw [if_neg (by simp only [hok]; decide)]
  have hinvD : Inv { s with artifact_datas := s.artifact_datas ++
      (newOutputArtifactData o ce).map (·.2) } :=
    inv_of_core_eq rfl rfl hinv
  have hinv₃ := inv_ceNodesSet
    (s := { s with artifact_datas := s.artifact_datas ++
      (newOutputArtifactData o ce).map (·.2) }) pick
    .SUCCEEDED (fun c => { c with status := .SUCCEEDED, exit_code := o.exit_code })
    (fun c => rfl) (fun c => rfl) rfl hinvD
  show ((s.nodes.filter (·.container_execution_id == some pick)).foldl
      (fun acc n => wakeDirectDownstream
        (attachOutputsForNode acc n.id
          ((newOutputArtifactData o ce).map fun p => (p.1, p.2.id))) n.id)
      (setStatusOfCeNodes
        (updateCe
          { s with artifact_datas := s.artifact_datas ++
              (newOutputArtifactData o ce).map (·.2) }
          pick fun c => { c with status := .SUCCEEDED, exit_code := o.exit_code })
        pick .SUCCEEDED)).artifact_datas =
    s.artifact_datas ++ (newOutputArtifactData o ce).map (·.2)
  rw [fold_wakeAttach_datas
    ((newOutputArtifactData o ce).map fun p => (p.1, p.2.id))
    (s.nodes.filter (·.container_execution_id == some pick)) _ hinv₃]
  rfl

/-- Claim C5 (amended): when the in-flight sweep finalizes a container
execution as `SUCCEEDED`, it creates one `ArtifactData` per declared output,
and its value is inlined exactly when the output is not a directory, its
total size is strictly less than 255 bytes — not 256 as claimed — and its
bytes decode as UTF-8; otherwise `value` is null. -/
theorem C5_value_inlining
    (o : RunningSweepOracle) (pick : Nat) (s : OrchState)
    (ce : ContainerExecutionRow) (hinv : Inv s)
    (hfc : findCe s pick = some ce)
    (helig : (ce.status == ContainerExecutionStatus.PENDING ||
      ce.status == ContainerExecutionStatus.RUNNING) = true)
    (hl : (ce.launcher_status == ContainerStatus.PENDING ||
      ce.launcher_status == ContainerStatus.RUNNING) = true)
    (hempty : (s.nodes.filter (·.container_execution_id == some pick)).isEmpty
      = false)
    (hrs : o.refreshed_status = .SUCCEEDED)
    (hok : (ce.output_uris.any
        (fun p => (o.output_info.find? (·.1 == p.1)).isNone) ||
      (s.nodes.filter (·.container_execution_id == some pick)).any
        (fun n => (s.output_links.filter (·.execution_id == n.id)).any
          fun ol => ce.output_uris.all (·.1 != ol.output_name))) = false) :
    (processRunningSweep o pick s).artifact_datas =
      s.artifact_datas ++ (newOutputArtifactData o ce).map (·.2) ∧
    ∀ q ∈ newOutputArtifactData o ce, ∃ r,
      o.output_info.find? (·.1 == q.1) = some r ∧
      q.2.total_size = r.2.total_size ∧
      q.2.is_dir = r.2.is_dir ∧
      q.2.uri.isSome = true ∧
      q.2.value = if r.2.is_dir = false ∧ r.2.total_size < 255 then
        utf8DecodeString r.2.bytes else none := by
  have heq : (o.refreshed_status == ce.launcher_status) = false := by
    rw [hrs]
    cases hcl : ce.launcher_status <;> rw [hcl] at hl <;> revert hl <;> decide
  constructor
  · rw [runningSweep_eq_succeeded o pick s ce hfc helig hl heq hempty hrs]
    have hinv₂ : Inv (updateCe (updateCe s pick fun c =>
        { c with last_processed_at := o.now }) pick fun c =>
        { c with launcher_status := o.refreshed_status }) :=
      inv_updateCe_frame pick _ (fun c => rfl) (fun c => rfl)
        (inv_updateCe_frame pick _ (fun c => rfl) (fun c => rfl) hinv)
    exact runningSucceeded_datas o pick _ _ hinv₂ hok
  · intro q hq
    unfold newOutputArtifactData at hq
    rw [List.mem_filterMap] at hq
    obtain ⟨i, _, hi⟩ := hq
    rw [Option.bind_eq_some] at hi
    obtain ⟨p, hp, hi⟩ := hi
    rw [Option.map_eq_some'] at hi
    obtain ⟨r, hr, hqe⟩ := hi
    subst hqe
    exact ⟨r, hr, rfl, rfl, rfl,
      maybePreloadValue_eq r.2.bytes r.2.is_dir r.2.total_size⟩

/-- 255-byte UTF-8-decodable single-file output: by the claim (`< 256`) it
must be inlined; the code (`< 255`) leaves `value` null. -/
def c5Info : DataInfoB :=
  { total_size := 255, is_dir := false, md5_hex := "",
    bytes := List.replicate 255 97 }

def c5Oracle : RunningSweepOracle :=
  { refreshed_status := .SUCCEEDED, exit_code := some 0,
    output_info := [("o", c5Info)], fresh_data_id := 100 }

def c5Ce : ContainerExecutionRow :=
  { id := 7, status := .RUNNING, launcher_status := .RUNNING,
    output_uris := [("o", "u")] }

def c5Node : ExecNodeRow :=
  { id := 1, outputNames := ["o"], container_execution_id := some 7,
    container_execution_status := some .RUNNING }

def c5State : OrchState :=
  { nodes := [c5Node]
    container_executions := [c5Ce]
    artifact_nodes := [{ id := 10 }]
    output_links := [{ execution_id := 1, output_name := "o", artifact_id := 10 }] }

/-- Claim C5 counterexample: a 255-byte, non-directory, UTF-8-decodable
output of an execution finalized as `SUCCEEDED` is NOT inlined, refuting the
claimed "strictly less than 256 bytes" condition: `_maybe_preload_value`
tests `total_size < 255`. -/
theorem C5_counterexample :
    (utf8DecodeString (List.replicate 255 97)).isSome = true ∧
    255 < 256 ∧
    (processRunningSweep c5Oracle 7 c5State).container_executions.map (·.status)
      = [.SUCCEEDED] ∧
    (processRunningSweep c5Oracle 7 c5State).artifact_datas.map (·.value)
      = [none] :=
  ⟨by decide, by decide, by decide, by decide⟩

theorem C5_witness :
    (processRunningSweep c5Oracle 7 c5State).artifact_datas =
      c5State.artifact_datas ++
        (newOutputArtifactData c5Oracle c5Ce).map (·.2) ∧
    ∀ q ∈ newOutputArtifactData c5Oracle c5Ce, ∃ r,
      c5Oracle.output_info.find? (·.1 == q.1) = some r ∧
      q.2.total_size = r.2.total_size ∧
      q.2.is_dir = r.2.is_dir ∧
      q.2.uri.isSome = true ∧
      q.2.value = if r.2.is_dir = false ∧ r.2.total_size < 255 then
        utf8DecodeString r.2.bytes else none :=
  C5_value_inlining c5Oracle 7 c5State c5Ce (by decide) (by decide) (by decide)
    (by decide) (by decide) rfl (by decide)

/-! ## C6: the single-execution query's artifact maps -/

/-- `ExecutionNodesApiService_Sql.get`'s `input_artifacts` query:
`InputArtifactLink` rows of the execution, keyed by input name. -/
def inputArtifactsCode (s : OrchState) (execId : Nat) : List (String × Nat) :=
  (s.input_links.filter (·.execution_id == execId)).map fun il =>
    (il.input_name, il.artifact_id)

/-- `ExecutionNodesApiService_Sql.get`'s `output_artifacts` query as written:
it selects from `OutputArtifactLink` but its `WHERE` clause constrains
`InputArtifactLink.execution_id` — a cross join.  The rows are every
`OutputArtifactLink` of the whole table, once per `InputArtifactLink` row of
the requested execution (so: none at all when the execution has no inputs). -/
def outputArtifactsCode (s : OrchState) (execId : Nat) : List (String × Nat) :=
  (s.input_links.filter (·.execution_id == execId)).flatMap fun _ =>
    s.output_links.map fun ol => (ol.output_name, ol.artifact_id)

/-- The claim's (and the spec's) intended `output_artifacts` map: the
`OutputArtifactLink` rows whose `execution_id` equals the requested id. -/
def outputArtifactsSpec (s : OrchState) (execId : Nat) : List (String × Nat) :=
  (s.output_links.filter (·.execution_id == execId)).map fun ol =>
    (ol.output_name, ol.artifact_id)

/-- Execution 1 produces artifact 10 as output `o1`; execution 2 consumes it
as input `in` and produces artifact 20 as output `o2`. -/
def c6State : OrchState :=
  { nodes := [{ id := 1 }, { id := 2 }]
    artifact_nodes := [{ id := 10 }, { id := 20 }]
    output_links := [{ execution_id := 1, output_name := "o1", artifact_id := 10 },
      { execution_id := 2, output_name := "o2", artifact_id := 20 }]
    input_links := [{ execution_id := 2, input_name := "in", artifact_id := 10 }] }

/-- Claim C6: the get-single-execution query's `output_artifacts` is NOT the
map of the execution's own `OutputArtifactLink` rows: for execution 1 (which
has an output but no inputs) it returns nothing, and for execution 2 it
returns every `OutputArtifactLink` row of the whole table — the `WHERE`
clause filters `InputArtifactLink` instead of `OutputArtifactLink`.  The
`input_artifacts` half of the claim is correct. -/
theorem C6_output_artifacts_bug :
    outputArtifactsSpec c6State 1 = [("o1", 10)] ∧
    outputArtifactsCode c6State 1 = [] ∧
    outputArtifactsSpec c6State 2 = [("o2", 20)] ∧
    outputArtifactsCode c6State 2 = [("o1", 10), ("o2", 20)] ∧
    outputArtifactsCode c6State 2 ≠ outputArtifactsSpec c6State 2 ∧
    outputArtifactsCode c6State 1 ≠ outputArtifactsSpec c6State 1 ∧
    inputArtifactsCode c6State 2 = [("in", 10)] :=
  ⟨by decide, by decide, by decide, by decide, by decide, by decide, by decide⟩

/-! ## C1: cache reuse in the ready-queue sweep -/

/-- The cache key both node 1 (fresh, `QUEUED`) and node 2 (prior,
`SUCCEEDED`) of `c1State` get: same container spec, no inputs. -/
def c1Key : String :=
  calculateContainerExecutionCacheKey (Json.obj []) []

/-- A run where node 1 is `QUEUED` with container spec `{}` and no inputs,
while node 2 already `SUCCEEDED` with the very same cache key stored
(`container_execution_cache_key = c1Key`), its `ContainerExecution` 7
`SUCCEEDED`, and its output artifact 20 holding `ArtifactData` 100.  Node 1's
output artifact 10 has no data yet. -/
def c1State : OrchState :=
  { nodes := [{ id := 0 },
      { id := 1, containerSpec := some (.obj []), outputNames := ["o"],
        container_execution_status := some .QUEUED },
      { id := 2, containerSpec := some (.obj []), outputNames := ["o"],
        container_execution_id := some 7,
        container_execution_cache_key := some c1Key,
        container_execution_status := some .SUCCEEDED }]
    container_executions := [{ id := 7, status := .SUCCEEDED }]
    artifact_nodes := [{ id := 10 },
      { id := 20, dataId := some 100, hadDataInPast := true }]
    output_links := [{ execution_id := 1, output_name := "o", artifact_id := 10 },
      { execution_id := 2, output_name := "o", artifact_id := 20 }]
    anc_links := [{ execution_id := 1, ancestor_execution_id := 0 },
      { execution_id := 2, ancestor_execution_id := 0 }]
    runs := [{ id := 1, root_execution_id := 0 }] }

/-- Claim C1: the ready-queue sweep computes node 1's cache key — equal to
the stored key of the prior `SUCCEEDED` node 2 backed by the prior
`SUCCEEDED` `ContainerExecution` 7 — yet still calls the launcher
(`launcher_calls = [1]`), moves the node to `PENDING` rather than
`SUCCEEDED`, and leaves node 1's output `ArtifactNode` 10 without any
`artifact_data_id` (no adoption of `ArtifactData` 100).  The code computes
the key and then hits `# TODO: !!! Cache reuse`: the claimed
`QUEUED → SUCCEEDED` cache path does not exist. -/
theorem C1_no_cache_reuse :
    nodeStatus c1State 2 = some .SUCCEEDED ∧
    (findNode c1State 2).map (·.container_execution_cache_key) =
      some (some c1Key) ∧
    (findCe c1State 7).map (·.status) = some .SUCCEEDED ∧
    nodeStatus (processQueuedSweep {} 1 c1State) 1 = some .PENDING ∧
    (findNode (processQueuedSweep {} 1 c1State) 1).map
      (·.container_execution_cache_key) = some (some c1Key) ∧
    (processQueuedSweep {} 1 c1State).launcher_calls = [1] ∧
    ((processQueuedSweep {} 1 c1State).artifact_nodes.find?
      (·.id == 10)).map (·.dataId) = some none := by
  refine ⟨by decide, by decide, by decide, by decide, by decide, by decide,
    by decide⟩

/-! ## C7/C10: pipeline compilation
(`PipelineRunsApiService_Sql.create` → `_toposort_tasks` →
`_recursively_create_all_executions_and_artifacts`).  `component_structures`
is not among the source files; the task/component structures carry exactly
the fields the compiler reads. -/

/-- A task argument: constant string, graph input, or upstream task output. -/
inductive ArgSrc where
  | const (value : String) : ArgSrc
  | graphInput (inputName : String) : ArgSrc
  | taskOutput (taskId : String) (outputName : String) : ArgSrc
deriving DecidableEq, Repr

/-- Modelled from the spec: `InputSpec` — the fields the compiler reads. -/
structure InputSpecM where
  name : String
  typeSpec : Option TypeSpecT := none
  defaultValue : Option String := none
  optional : Bool := false
deriving DecidableEq, Repr

/-- Modelled from the spec: `OutputSpec` — the fields the compiler reads. -/
structure OutputSpecM where
  name : String
  typeSpec : Option TypeSpecT := none
deriving DecidableEq, Repr

mutual

/-- Modelled from the spec: `TaskSpec` (component reference is inlined as its
resolved spec, which is what the compiler dereferences). -/
inductive TaskSpecM where
  | mk (componentSpec : Option ComponentSpecM)
       (arguments : List (String × ArgSrc)) : TaskSpecM

/-- Modelled from the spec: `ComponentSpec`. -/
inductive ComponentSpecM where
  | mk (inputs : List InputSpecM) (outputs : List OutputSpecM)
       (implementation : Option ImplementationM) : ComponentSpecM

/-- Modelled from the spec: a container implementation (its container spec
taken as opaque JSON) or a graph implementation. -/
inductive ImplementationM where
  | container (containerSpecJson : Json) : ImplementationM
  | graph (tasks : List (String × TaskSpecM))
          (outputValues : List (String × ArgSrc)) : ImplementationM

end

def TaskSpecM.componentSpec : TaskSpecM → Option ComponentSpecM
  | .mk cs _ => cs

def TaskSpecM.arguments : TaskSpecM → List (String × ArgSrc)
  | .mk _ args => args

def ComponentSpecM.inputs : ComponentSpecM → List InputSpecM
  | .mk ins _ _ => ins

def ComponentSpecM.outputs : ComponentSpecM → List OutputSpecM
  | .mk _ outs _ => outs

def ComponentSpecM.implementation : ComponentSpecM → Option ImplementationM
  | .mk _ _ impl => impl

/-- Lookup in an association list built like a Python dict from pairs: the
LAST binding of a key wins. -/
def lookupLast (l : List (String × Nat)) (k : String) : Option Nat :=
  (l.reverse.find? (·.1 == k)).map (·.2)

/-- The database state built by compilation, with the identity-column
counters of the three inserted-into tables. -/
structure CompileSt where
  nodes : List ExecNodeRow := []
  artifact_nodes : List ArtifactNodeRow := []
  artifact_datas : List ArtifactDataRow := []
  input_links : List InputArtifactLinkRow := []
  output_links : List OutputArtifactLinkRow := []
  anc_links : List AncestorLinkRow := []
  next_exec_id : Nat := 1
  next_artifact_id : Nat := 101
  next_data_id : Nat := 1001
deriving DecidableEq, Repr

/-- `_construct_constant_artifact_node_and_add_to_session`: build the
constant artifact node (splitting the declared type — which can raise) plus
its inline data, and insert both. -/
def addConstantArtifact (st : CompileSt) (value : String)
    (artifactType : Option TypeSpecT) : Except CompileErr (CompileSt × Nat) := do
  let na ← constructConstantArtifactNode value artifactType
  let aid := st.next_artifact_id
  let did := st.next_data_id
  .ok ({ st with
      artifact_nodes := st.artifact_nodes ++
        [{ na.1 with id := aid, dataId := some did }]
      artifact_datas := st.artifact_datas ++ [{ na.2 with id := did }]
      next_artifact_id := aid + 1
      next_data_id := did + 1 }, aid)

/-- `_toposort_tasks`, dependency collection: the `TaskOutputArgument`
referents of a task's arguments, first occurrence kept, raising `TypeError`
for a reference to a non-existing task. -/
def taskDeps (tasks : List (String × TaskSpecM)) (t : TaskSpecM) :
    Except CompileErr (List String) :=
  t.arguments.foldlM
    (fun acc p =>
      match p.2 with
      | .taskOutput tid _ =>
          if (tasks.find? (·.1 == tid)).isNone then .error .typeError
          else .ok (if acc.contains tid then acc else acc ++ [tid])
      | _ => .ok acc) []

def taskDependents (deps : List (String × List String)) :
    List (String × List String) :=
  deps.map fun p => (p.1, (deps.filter (fun q => q.2.contains p.1)).map (·.1))

def decrRemaining (l : List (String × Nat)) (k : String) : List (String × Nat) :=
  l.map fun p => if p.1 == k then (p.1, p.2 - 1) else p

/-- `_toposort_tasks`'s recursive `process_task`, on the
(remaining-dependency-count, sorted-ids) state. -/
def processTask (dependents : List (String × List String)) :
    Nat → String → List (String × Nat) × List String →
      List (String × Nat) × List String
  | 0, _, st => st
  | fuel + 1, t, (remaining, sorted) =>
      if ((remaining.find? (·.1 == t)).map (·.2) == some 0) &&
          !sorted.contains t then
        (((dependents.find? (·.1 == t)).map (·.2)).getD []).foldl
          (fun acc d => processTask dependents fuel d (decrRemaining acc.1 d, acc.2))
          (remaining, sorted ++ [t])
      else (remaining, sorted)

/-- `_toposort_tasks`: raises `TypeError` on references to unknown tasks and
`ValueError` on cycles, else returns the tasks in dependency order. -/
def toposortTasks (tasks : List (String × TaskSpecM)) :
    Except CompileErr (List (String × TaskSpecM)) := do
  let deps ← tasks.foldlM
    (fun acc p => do
      let ds ← taskDeps tasks p.2
      pure (acc ++ [(p.1, ds)]))
    ([] : List (String × List String))
  let dependents := taskDependents deps
  let remaining := deps.map fun p => (p.1, p.2.length)
  let st := deps.foldl
    (fun acc p => processTask dependents (tasks.length + 2) p.1 acc)
    (remaining, ([] : List String))
  if st.2.length = deps.length then
    .ok (st.2.filterMap fun t => (tasks.find? (·.1 == t)).map fun p => (t, p.2))
  else .error .valueErrorCycle

mutual

/-- `_recursively_create_all_executions_and_artifacts`: create the execution
node with one `ExecutionToAncestorExecutionLink` per passed ancestor (the
parent — the caller's node — is the last one), resolve the component's
inputs against the passed artifact map (materializing truthy defaults as
constants, raising for missing required inputs), then: for a container
implementation, create the typed output artifacts (splitting each output's
type — which can raise) and set `QUEUED`/`WAITING_FOR_UPSTREAM`; for a graph
implementation, toposort, resolve and recursively compile each child task,
then wire the graph's output values.  Returns the new node's id and its
output-name → artifact-id map. -/
def compileTask : Nat → TaskSpecM → Option String → List (String × Nat) →
    List Nat → CompileSt →
    Except CompileErr (CompileSt × Nat × List (String × Nat))
  | 0, _, _, _, _, _ => .error .fuelExhausted
  | fuel + 1, task, taskIdInParent, inputs0, anc, st => do
      let some cs := task.componentSpec | .error .apiServiceError
      let some impl := cs.implementation | .error .apiServiceError
      let eid := st.next_exec_id
      let st : CompileSt := { st with
        nodes := st.nodes ++
          [{ id := eid, parent_execution_id := anc.getLast?,
             task_id_in_parent_execution := taskIdInParent }]
        next_exec_id := eid + 1
        anc_links := st.anc_links ++ anc.map fun a =>
          { execution_id := eid, ancestor_execution_id := a } }
      let resIn ← cs.inputs.foldlM
        (fun (acc : CompileSt × List (String × Nat)) ispec => do
          match (acc.2.find? (·.1 == ispec.name)).map (·.2) with
          | some aid =>
              pure ({ acc.1 with input_links := acc.1.input_links ++
                  [{ execution_id := eid, input_name := ispec.name,
                     artifact_id := aid }] }, acc.2)
          | none =>
              if ispec.optional then pure acc
              else
                match ispec.defaultValue with
                | some d =>
                    if d == "" then .error .apiServiceError
                    else do
                      let r ← addConstantArtifact acc.1 d ispec.typeSpec
                      pure ({ r.1 with input_links := r.1.input_links ++
                          [{ execution_id := eid, input_name := ispec.name,
                             artifact_id := r.2 }] },
                        acc.2 ++ [(ispec.name, r.2)])
                | none => .error .apiServiceError)
        (st, inputs0)
      let st := resIn.1
      let inputsF := resIn.2
      match impl with
      | .container cjson => do
          let st ← cs.outputs.foldlM
            (fun st ospec => do
              let tnp ← splitTypeSpec ospec.typeSpec
              let aid := st.next_artifact_id
              pure { st with
                artifact_nodes := st.artifact_nodes ++
                  [{ id := aid, typeName := tnp.1, typeProps := tnp.2,
                     producerExecutionId := some eid,
                     producerOutputName := some ospec.name }]
                next_artifact_id := aid + 1
                output_links := st.output_links ++
                  [{ execution_id := eid, output_name := ospec.name,
                     artifact_id := aid }] })
            st
          let allData := inputsF.all fun p =>
            match st.artifact_nodes.find? (·.id == p.2) with
            | some a => a.dataId.isSome
            | none => false
          let st : CompileSt := { st with nodes := st.nodes.map fun n =>
              if n.id == eid then
                { n with
                  containerSpec := some cjson
                  container_execution_status := some (if allData then
                      ContainerExecutionStatus.QUEUED
                    else ContainerExecutionStatus.WAITING_FOR_UPSTREAM) }
              else n }
          .ok (st, eid,
            (st.output_links.filter (·.execution_id == eid)).map fun ol =>
              (ol.output_name, ol.artifact_id))
      | .graph tasks outputValues => do
          let sorted ← toposortTasks tasks
          let r ← compileChildren fuel sorted inputsF anc eid [] st
          let st ← outputValues.foldlM
            (fun st p =>
              match p.2 with
              | .taskOutput tid oname =>
                  match (r.2.find? (·.1 == tid)).map (·.2) with
                  | none => .error .keyError
                  | some m =>
                      match lookupLast m oname with
                      | none => .error .keyError
                      | some aid =>
                          .ok { st with output_links := st.output_links ++
                            [{ execution_id := eid, output_name := p.1,
                               artifact_id := aid }] }
              | _ => .error .apiServiceError)
            r.1
          .ok (st, eid,
            (st.output_links.filter (·.execution_id == eid)).map fun ol =>
              (ol.output_name, ol.artifact_id))

/-- The per-child half of the graph branch: resolve the child's arguments
(graph inputs from the parent's map — unconnected ones are skipped with a
warning; upstream task outputs from the accumulated sibling map — a missing
entry is a `KeyError`; constant strings materialized, splitting the input's
declared type), recurse with the parent appended to the ancestor chain, and
record the child's output artifacts. -/
def compileChildren : Nat → List (String × TaskSpecM) → List (String × Nat) →
    List Nat → Nat → List (String × List (String × Nat)) → CompileSt →
    Except CompileErr (CompileSt × List (String × List (String × Nat)))
  | 0, _, _, _, _, _, _ => .error .fuelExhausted
  | _ + 1, [], _, _, _, touts, st => .ok (st, touts)
  | fuel + 1, (tid, ct) :: rest, graphInputs, anc, parentId, touts, st => do
      let some ccs := ct.componentSpec | .error .apiServiceError
      let resolved ← ccs.inputs.foldlM
        (fun (acc : CompileSt × List (String × Nat)) ispec =>
          -- `input_argument` falls back to the (non-None) default, which then
          -- takes the constant-string branch; `None` plus optional is a skip.
          match (ct.arguments.find? (·.1 == ispec.name)).map (·.2) with
          | none =>
              if ispec.optional then pure acc
              else
                match ispec.defaultValue with
                | none => .error CompileErr.apiServiceError
                | some d => do
                    let r ← addConstantArtifact acc.1 d ispec.typeSpec
                    pure (r.1, acc.2 ++ [(ispec.name, r.2)])
          | some (ArgSrc.graphInput gname) =>
              match (graphInputs.find? (·.1 == gname)).map (·.2) with
              | none => pure acc
              | some aid => pure (acc.1, acc.2 ++ [(ispec.name, aid)])
          | some (ArgSrc.taskOutput stid soname) =>
              match (touts.find? (·.1 == stid)).map (·.2) with
              | none => .error .keyError
              | some m =>
                  match lookupLast m soname with
                  | none => .error .keyError
                  | some aid => pure (acc.1, acc.2 ++ [(ispec.name, aid)])
          | some (ArgSrc.const v) => do
              let r ← addConstantArtifact acc.1 v ispec.typeSpec
              pure (r.1, acc.2 ++ [(ispec.name, r.2)]))
        (st, [])
      let r ← compileTask fuel ct (some tid) resolved.2 (anc ++ [parentId])
        resolved.1
      compileChildren fuel rest graphInputs anc parentId
        (touts ++ [(tid, r.2.2)]) r.1

end

/-- `PipelineRunsApiService_Sql.create`'s compilation entry point for a
pipeline without root arguments: the top-level recursive call with no input
artifacts and an empty ancestor list. -/
def compileRoot (fuel : Nat) (task : TaskSpecM) :
    Except CompileErr (CompileSt × Nat) := do
  let r ← compileTask fuel task none [] [] {}
  .ok (r.1, r.2.1)

/-- The ancestor ids recorded for execution `e`, in insertion order. -/
def linksOf (st : CompileSt) (e : Nat) : List Nat :=
  (st.anc_links.filter (·.execution_id == e)).map (·.ancestor_execution_id)

/-- The proper-ancestor chain of execution `e` obtained by following
`parent_execution_id`, root first. -/
def ancChain (nodes : List ExecNodeRow) : Nat → Nat → List Nat
  | 0, _ => []
  | fuel + 1, e =>
      match nodes.find? (·.id == e) with
      | none => []
      | some n =>
          match n.parent_execution_id with
          | none => []
          | some p => ancChain nodes fuel p ++ [p]

/-- Compilation-state invariant: node ids are fresh-bounded and distinct,
ancestor links point strictly upward, and every node's recorded ancestor
list is its parent's list extended by the parent. -/
def CompileInv (st : CompileSt) : Prop :=
  (∀ n ∈ st.nodes, n.id < st.next_exec_id) ∧
  (st.nodes.map (·.id)).Nodup ∧
  (∀ l ∈ st.anc_links, l.execution_id < st.next_exec_id ∧
    l.ancestor_execution_id < l.execution_id) ∧
  (∀ m ∈ st.nodes,
    (m.parent_execution_id = none → linksOf st m.id = []) ∧
    (∀ p, m.parent_execution_id = some p →
      (∃ q ∈ st.nodes, q.id = p) ∧ p < m.id ∧
      linksOf st m.id = linksOf st p ++ [p]))

/-- Validity of an ancestor-chain argument: bounded ids, and if nonempty it
is the recorded ancestor list of its last element (the parent) extended by
the parent. -/
def AncOK (st : CompileSt) (anc : List Nat) : Prop :=
  (∀ a ∈ anc, a < st.next_exec_id) ∧
  (anc = [] ∨ ∃ anc₀ p, anc = anc₀ ++ [p] ∧ (∃ q ∈ st.nodes, q.id = p) ∧
    linksOf st p = anc₀)

/-- What one compilation step guarantees about the state evolution. -/
def PostRel (s t : CompileSt) : Prop :=
  s.next_exec_id ≤ t.next_exec_id ∧
  (∀ m ∈ s.nodes, m ∈ t.nodes) ∧
  ∃ w, t.anc_links = s.anc_links ++ w ∧
    ∀ l ∈ w, s.next_exec_id ≤ l.execution_id

theorem postRel_refl (s : CompileSt) : PostRel s s :=
  ⟨Nat.le_refl _, fun _ hm => hm, [], (List.append_nil _).symm, by simp⟩

theorem postRel_trans {s t u : CompileSt} (h₁ : PostRel s t)
    (h₂ : PostRel t u) : PostRel s u := by
  obtain ⟨hn₁, hm₁, w₁, hw₁, hb₁⟩ := h₁
  obtain ⟨hn₂, hm₂, w₂, hw₂, hb₂⟩ := h₂
  refine ⟨Nat.le_trans hn₁ hn₂, fun m hm => hm₂ m (hm₁ m hm),
    w₁ ++ w₂, by rw [hw₂, hw₁, List.append_assoc], ?_⟩
  intro l hl
  rcases List.mem_append.mp hl with h | h
  · exact hb₁ l h
  · exact Nat.le_trans hn₁ (hb₂ l h)

theorem except_bind_ok {ε α β : Type} {x : Except ε α} {f : α → Except ε β}
    {b : β} (h : x >>= f = .ok b) : ∃ a, x = .ok a ∧ f a = .ok b := by
  cases x with
  | error e => exact absurd h (by intro hx; cases hx)
  | ok a => exact ⟨a, rfl, h⟩

theorem filter_links_append {w₁ w₂ : List AncestorLinkRow} {x : Nat}
    (h : ∀ l ∈ w₂, (l.execution_id == x) = false) :
    (w₁ ++ w₂).filter (·.execution_id == x) =
      w₁.filter (·.execution_id == x) := by
  rw [List.filter_append]
  have : w₂.filter (·.execution_id == x) = [] := by
    rw [List.eq_nil_iff_forall_not_mem]
    intro l hl
    rw [List.mem_filter] at hl
    rw [h l hl.1] at hl
    exact Bool.false_ne_true hl.2
  rw [this, List.append_nil]

theorem linksOf_stable {s t : CompileSt} {w : List AncestorLinkRow} {x : Nat}
    (hw : t.anc_links = s.anc_links ++ w)
    (hb : ∀ l ∈ w, s.next_exec_id ≤ l.execution_id)
    (hx : x < s.next_exec_id) : linksOf t x = linksOf s x := by
  unfold linksOf
  rw [hw, filter_links_append]
  intro l hl
  have := hb l hl
  simp only [beq_eq_false_iff_ne, ne_eq]
  omega

/-- `CompileInv` only looks at the nodes, the ancestor links and the
execution-id counter. -/
theorem inv_transfer {s t : CompileSt} (hn : t.nodes = s.nodes)
    (ha : t.anc_links = s.anc_links) (hx : t.next_exec_id = s.next_exec_id)
    (hinv : CompileInv s) : CompileInv t := by
  have hlof : ∀ x, linksOf t x = linksOf s x := by
    intro x; unfold linksOf; rw [ha]
  obtain ⟨h₁, h₂, h₃, h₄⟩ := hinv
  refine ⟨?_, ?_, ?_, ?_⟩
  · intro n hn'; rw [hn] at hn'; rw [hx]; exact h₁ n hn'
  · rw [hn]; exact h₂
  · intro l hl; rw [ha] at hl; rw [hx]; exact h₃ l hl
  · intro m hm
    rw [hn] at hm
    refine ⟨?_, ?_⟩
    · intro hp; rw [hlof]; exact (h₄ m hm).1 hp
    · intro p hp
      obtain ⟨⟨q, hq, hqid⟩, hlt, hchain⟩ := (h₄ m hm).2 p hp
      exact ⟨⟨q, by rw [hn]; exact hq, hqid⟩, hlt,
        by rw [hlof, hlof]; exact hchain⟩

/-- `CompileInv` survives per-node edits that keep ids and parents. -/
theorem inv_map_nodes {s t : CompileSt} {g : ExecNodeRow → ExecNodeRow}
    (hn : t.nodes = s.nodes.map g)
    (hgid : ∀ m, (g m).id = m.id)
    (hgp : ∀ m, (g m).parent_execution_id = m.parent_execution_id)
    (ha : t.anc_links = s.anc_links) (hx : t.next_exec_id = s.next_exec_id)
    (hinv : CompileInv s) : CompileInv t := by
  have hlof : ∀ x, linksOf t x = linksOf s x := by
    intro x; unfold linksOf; rw [ha]
  obtain ⟨h₁, h₂, h₃, h₄⟩ := hinv
  refine ⟨?_, ?_, ?_, ?_⟩
  · intro n hn'
    rw [hn] at hn'
    obtain ⟨m, hm, rfl⟩ := List.mem_map.mp hn'
    rw [hx, hgid]
    exact h₁ m hm
  · rw [hn, List.map_map]
    rw [show ((fun n : ExecNodeRow => n.id) ∘ g) =
      fun n : ExecNodeRow => n.id from funext hgid]
    exact h₂
  · intro l hl; rw [ha] at hl; rw [hx]; exact h₃ l hl
  · intro m hm
    rw [hn] at hm
    obtain ⟨m₀, hm₀, rfl⟩ := List.mem_map.mp hm
    refine ⟨?_, ?_⟩
    · intro hp
      rw [hgp] at hp
      rw [hlof, hgid]
      exact (h₄ m₀ hm₀).1 hp
    · intro p hp
      rw [hgp] at hp
      obtain ⟨⟨q, hq, hqid⟩, hlt, hchain⟩ := (h₄ m₀ hm₀).2 p hp
      refine ⟨⟨g q, by rw [hn]; exact List.mem_map_of_mem g hq,
        by rw [hgid]; exact hqid⟩, by rw [hgid]; exact hlt, ?_⟩
      rw [hlof, hlof, hgid]
      exact hchain

/-- Frame of `addConstantArtifact`: nodes, ancestor links and the execution
counter are untouched. -/
theorem addConstantArtifact_frame {st : CompileSt} {v : String}
    {t : Option TypeSpecT} {r : CompileSt × Nat}
    (h : addConstantArtifact st v t = .ok r) :
    r.1.nodes = st.nodes ∧ r.1.anc_links = st.anc_links ∧
    r.1.next_exec_id = st.next_exec_id := by
  unfold addConstantArtifact at h
  obtain ⟨na, hna, h⟩ := except_bind_ok h
  cases h
  exact ⟨rfl, rfl, rfl⟩

/-- A fold whose every successful step preserves nodes, ancestor links and
the execution counter preserves them overall. -/
theorem foldlM_frame {α β : Type} (proj : β → CompileSt)
    (f : β → α → Except CompileErr β)
    (hf : ∀ b a b', f b a = .ok b' →
      (proj b').nodes = (proj b).nodes ∧
      (proj b').anc_links = (proj b).anc_links ∧
      (proj b').next_exec_id = (proj b).next_exec_id) :
    ∀ (l : List α) (b b' : β), l.foldlM f b = .ok b' →
      (proj b').nodes = (proj b).nodes ∧
      (proj b').anc_links = (proj b).anc_links ∧
      (proj b').next_exec_id = (proj b).next_exec_id := by
  intro l
  induction l with
  | nil =>
      intro b b' h
      cases h
      exact ⟨rfl, rfl, rfl⟩
  | cons a t ih =>
      intro b b' h
      rw [List.foldlM_cons] at h
      obtain ⟨b₁, h₁, h₂⟩ := except_bind_ok h
      obtain ⟨e₁, e₂, e₃⟩ := hf b a b₁ h₁
      obtain ⟨e₁', e₂', e₃'⟩ := ih b₁ b' h₂
      exact ⟨e₁'.trans e₁, e₂'.trans e₂, e₃'.trans e₃⟩

theorem postRel_of_frame {s t : CompileSt} (hn : t.nodes = s.nodes)
    (ha : t.anc_links = s.anc_links) (hx : t.next_exec_id = s.next_exec_id) :
    PostRel s t :=
  ⟨Nat.le_of_eq hx.symm, fun m hm => hn ▸ hm, [],
    by rw [ha, List.append_nil],
    fun l hl => absurd hl (List.not_mem_nil l)⟩

/-- What `compileTask` guarantees at a given fuel. -/
def CTStmt (fuel : Nat) : Prop :=
  ∀ task tip inputs anc st₀ res,
    compileTask fuel task tip inputs anc st₀ = .ok res →
    CompileInv st₀ → AncOK st₀ anc →
    CompileInv res.1 ∧ PostRel st₀ res.1

/-- What `compileChildren` guarantees at a given fuel. -/
def CCStmt (fuel : Nat) : Prop :=
  ∀ ts gins anc pid touts st₀ res,
    compileChildren fuel ts gins anc pid touts st₀ = .ok res →
    CompileInv st₀ →
    (∀ a ∈ anc, a < st₀.next_exec_id) →
    (∃ q ∈ st₀.nodes, q.id = pid) →
    linksOf st₀ pid = anc →
    CompileInv res.1 ∧ PostRel st₀ res.1

/-- The invariant and the evolution guarantee after creating the execution
node with its ancestor links (the first mutation of `compileTask`). -/
theorem newNode_step (st₀ : CompileSt) (anc : List Nat) (tip : Option String)
    (hinv : CompileInv st₀) (hanc : AncOK st₀ anc) :
    CompileInv { st₀ with
      nodes := st₀.nodes ++
        [{ id := st₀.next_exec_id, parent_execution_id := anc.getLast?,
           task_id_in_parent_execution := tip }]
      next_exec_id := st₀.next_exec_id + 1
      anc_links := st₀.anc_links ++ anc.map fun a =>
        { execution_id := st₀.next_exec_id, ancestor_execution_id := a } } ∧
    PostRel st₀ { st₀ with
      nodes := st₀.nodes ++
        [{ id := st₀.next_exec_id, parent_execution_id := anc.getLast?,
           task_id_in_parent_execution := tip }]
      next_exec_id := st₀.next_exec_id + 1
      anc_links := st₀.anc_links ++ anc.map fun a =>
        { execution_id := st₀.next_exec_id, ancestor_execution_id := a } } ∧
    linksOf { st₀ with
      nodes := st₀.nodes ++
        [{ id := st₀.next_exec_id, parent_execution_id := anc.getLast?,
           task_id_in_parent_execution := tip }]
      next_exec_id := st₀.next_exec_id + 1
      anc_links := st₀.anc_links ++ anc.map fun a =>
        { execution_id := st₀.next_exec_id, ancestor_execution_id := a } }
      st₀.next_exec_id = anc := by
  obtain ⟨hbound, hnd, hlinkb, hchain⟩ := hinv
  obtain ⟨hancb, hancc⟩ := hanc
  set eid := st₀.next_exec_id with heid
  set node : ExecNodeRow :=
    { id := eid, parent_execution_id := anc.getLast?,
      task_id_in_parent_execution := tip } with hnode
  set newL := anc.map fun a =>
    ({ execution_id := eid, ancestor_execution_id := a } : AncestorLinkRow)
    with hnewL
  set st₁ : CompileSt := { st₀ with
    nodes := st₀.nodes ++ [node]
    next_exec_id := eid + 1
    anc_links := st₀.anc_links ++ newL } with hst₁
  have hnewExec : ∀ l ∈ newL, l.execution_id = eid := by
    intro l hl
    rw [hnewL] at hl
    obtain ⟨a, _, rfl⟩ := List.mem_map.mp hl
    rfl
  have hstable : ∀ x, x < eid → linksOf st₁ x = linksOf st₀ x := by
    intro x hx
    unfold linksOf
    rw [hst₁]
    rw [filter_links_append]
    intro l hl
    rw [hnewExec l hl]
    simp only [beq_eq_false_iff_ne, ne_eq]
    omega
  have hlinksNew : linksOf st₁ eid = anc := by
    unfold linksOf
    rw [hst₁]
    show ((st₀.anc_links ++ newL).filter (·.execution_id == eid)).map _ = anc
    rw [List.filter_append]
    have h₁ : st₀.anc_links.filter (·.execution_id == eid) = [] := by
      rw [List.eq_nil_iff_forall_not_mem]
      intro l hl
      rw [List.mem_filter] at hl
      have := (hlinkb l hl.1).1
      have h2 := hl.2
      simp only [beq_iff_eq] at h2
      omega
    have h₂ : newL.filter (·.execution_id == eid) = newL := by
      rw [List.filter_eq_self]
      intro l hl
      rw [hnewExec l hl]
      exact beq_self_eq_true eid
    rw [h₁, h₂, List.nil_append, hnewL, List.map_map]
    rw [show ((fun l : AncestorLinkRow => l.ancestor_execution_id) ∘
      fun a => ({ execution_id := eid, ancestor_execution_id := a } :
        AncestorLinkRow)) = fun a : Nat => a from funext fun a => rfl]
    exact List.map_id anc
  have hmemNode : node ∈ st₁.nodes := by
    rw [hst₁]
    exact List.mem_append_right _ (List.mem_singleton.mpr rfl)
  refine ⟨⟨?_, ?_, ?_, ?_⟩, ⟨Nat.le_succ eid, ?_, newL, rfl, ?_⟩, hlinksNew⟩
  · intro n hn
    rw [hst₁] at hn
    rcases List.mem_append.mp hn with h | h
    · have := hbound n h
      show n.id < eid + 1
      omega
    · rw [List.mem_singleton.mp h, hnode]
      show eid < eid + 1
      omega
  · show ((st₀.nodes ++ [node]).map (·.id)).Nodup
    rw [List.map_append, List.nodup_append]
    refine ⟨hnd, List.nodup_singleton _, ?_⟩
    intro a ha hb
    rw [hnode] at hb
    simp only [List.map_cons, List.map_nil, List.mem_singleton] at hb
    obtain ⟨n, hn, rfl⟩ := List.mem_map.mp ha
    have := hbound n hn
    omega
  · intro l hl
    rw [hst₁] at hl
    rcases List.mem_append.mp hl with h | h
    · obtain ⟨hb1, hb2⟩ := hlinkb l h
      exact ⟨by show _ < eid + 1; omega, hb2⟩
    · rw [hnewL] at h
      obtain ⟨a, ha, rfl⟩ := List.mem_map.mp h
      have := hancb a ha
      exact ⟨by show eid < eid + 1; omega, by show a < eid; omega⟩
  · intro m hm
    rw [hst₁] at hm
    rcases List.mem_append.mp hm with h | h
    · have hmid := hbound m h
      refine ⟨?_, ?_⟩
      · intro hp
        rw [hstable m.id hmid]
        exact (hchain m h).1 hp
      · intro p hp
        obtain ⟨⟨q, hq, hqid⟩, hlt, hc⟩ := (hchain m h).2 p hp
        have hpb : p < eid := by
          have := hbound q hq
          omega
        refine ⟨⟨q, by rw [hst₁]; exact List.mem_append_left _ hq, hqid⟩,
          hlt, ?_⟩
        rw [hstable m.id hmid, hstable p hpb]
        exact hc
    · rw [List.mem_singleton.mp h, hnode]
      rcases hancc with hnil | ⟨anc₀, p, hdecomp, ⟨q, hq, hqid⟩, hlp⟩
      · refine ⟨?_, ?_⟩
        · intro _
          show linksOf st₁ eid = []
          rw [hlinksNew, hnil]
        · intro p hp
          rw [hnil] at hp
          cases hp
      · have hlast : anc.getLast? = some p := by
          rw [hdecomp]
          exact List.getLast?_concat _
        refine ⟨?_, ?_⟩
        · intro hp
          show linksOf st₁ eid = []
          rw [hlast] at hp
          cases hp
        · intro p' hp'
          show (∃ q ∈ st₁.nodes, q.id = p') ∧ p' < eid ∧
            linksOf st₁ eid = linksOf st₁ p' ++ [p']
          rw [hlast] at hp'
          cases hp'
          have hpb : p < eid := by
            have := hbound q hq
            omega
          refine ⟨⟨q, by rw [hst₁]; exact List.mem_append_left _ hq, hqid⟩,
            hpb, ?_⟩
          rw [hlinksNew, hstable p hpb, hlp, hdecomp]
  · intro m hm
    rw [hst₁]
    exact List.mem_append_left _ hm
  · intro l hl
    rw [hnewExec l hl]

theorem compile_spec : ∀ fuel, CTStmt fuel ∧ CCStmt fuel := by
  intro fuel
  induction fuel with
  | zero =>
      constructor
      · intro task tip inputs anc st₀ res h _ _
        exact absurd h (by intro hx; cases hx)
      · intro ts gins anc pid touts st₀ res h _ _ _ _
        exact absurd h (by intro hx; cases hx)
  | succ fuel ih =>
      constructor
      · -- compileTask
        intro task tip inputs anc st₀ res h hinv hanc
        obtain ⟨csOpt, args⟩ := task
        cases csOpt with
        | none => exact absurd h (by intro hx; cases hx)
        | some cs =>
        obtain ⟨ins, outs, implOpt⟩ := cs
        cases implOpt with
        | none => exact absurd h (by intro hx; cases hx)
        | some impl =>
        unfold compileTask at h
        simp only [TaskSpecM.componentSpec, ComponentSpecM.implementation,
          ComponentSpecM.inputs, ComponentSpecM.outputs] at h
        obtain ⟨resIn, hIn, h⟩ := except_bind_ok h
        try simp only [] at h
        obtain ⟨hinv₁, hpost₁, hlinks₁⟩ := newNode_step st₀ anc tip hinv hanc
        obtain ⟨e₁, e₂, e₃⟩ := foldlM_frame Prod.fst _
          (fun b a b' hstep => by
            split at hstep
            next aid hfind =>
              cases hstep
              exact ⟨rfl, rfl, rfl⟩
            next hfind =>
              split at hstep
              next hopt =>
                cases hstep
                exact ⟨rfl, rfl, rfl⟩
              next hopt =>
                split at hstep
                next d hdef =>
                  split at hstep
                  next hd => cases hstep
                  next hd =>
                    obtain ⟨r, hr, hstep⟩ := except_bind_ok hstep
                    cases hstep
                    exact addConstantArtifact_frame hr
                next hdef => cases hstep)
          _ _ _ hIn
        have hinv₂ : CompileInv resIn.1 := inv_transfer e₁ e₂ e₃ hinv₁
        have hpost₂ : PostRel st₀ resIn.1 :=
          postRel_trans hpost₁ (postRel_of_frame e₁ e₂ e₃)
        cases impl with
        | container cjson =>
            try simp only [] at h
            obtain ⟨st₂, hOut, h⟩ := except_bind_ok h
            try simp only [] at h
            cases h
            obtain ⟨o₁, o₂, o₃⟩ := foldlM_frame (fun s : CompileSt => s) _
              (fun b a b' hstep => by
                obtain ⟨tnp, htnp, hstep⟩ := except_bind_ok hstep
                cases hstep
                exact ⟨rfl, rfl, rfl⟩)
              _ _ _ hOut
            have hinv₃ : CompileInv st₂ := inv_transfer o₁ o₂ o₃ hinv₂
            have hpost₃ : PostRel st₀ st₂ :=
              postRel_trans hpost₂ (postRel_of_frame o₁ o₂ o₃)
            refine ⟨inv_map_nodes rfl ?_ ?_ rfl rfl hinv₃, ?_, ?_, ?_⟩
            · intro m
              by_cases hc : (m.id == st₀.next_exec_id) = true <;> simp [hc]
            · intro m
              by_cases hc : (m.id == st₀.next_exec_id) = true <;> simp [hc]
            · exact hpost₃.1
            · intro m hm
              have hm₂ := hpost₃.2.1 m hm
              have hid : m.id < st₀.next_exec_id := hinv.1 m hm
              have hgm : (if (m.id == st₀.next_exec_id) = true then
                  { m with
                    containerSpec := some cjson
                    container_execution_status := some (if
                        resIn.2.all fun p =>
                          match st₂.artifact_nodes.find? (·.id == p.2) with
                          | some a => a.dataId.isSome
                          | none => false then
                        ContainerExecutionStatus.QUEUED
                      else ContainerExecutionStatus.WAITING_FOR_UPSTREAM) }
                else m) = m := by
                rw [if_neg]
                intro hc
                rw [beq_iff_eq] at hc
                omega
              exact List.mem_map.mpr ⟨m, hm₂, hgm⟩
            · obtain ⟨w, hw, hb⟩ := hpost₃.2.2
              exact ⟨w, hw, hb⟩
        | graph gtasks gouts =>
            try simp only [] at h
            obtain ⟨sorted, hsort, h⟩ := except_bind_ok h
            try simp only [] at h
            obtain ⟨r, hcc, h⟩ := except_bind_ok h
            try simp only [] at h
            obtain ⟨st₄, hOv, h⟩ := except_bind_ok h
            try simp only [] at h
            cases h
            obtain ⟨hinvR, hpostR⟩ := ih.2 sorted resIn.2 anc st₀.next_exec_id
              [] resIn.1 r hcc hinv₂
              (by
                intro a ha
                have : a < st₀.next_exec_id := hanc.1 a ha
                rw [e₃]
                show a < st₀.next_exec_id + 1
                omega)
              (by
                refine ⟨{ id := st₀.next_exec_id, parent_execution_id := anc.getLast?, task_id_in_parent_execution := tip }, ?_, rfl⟩
                rw [e₁]
                exact List.mem_append_right _ (List.mem_singleton.mpr rfl))
              (by
                have hst : linksOf resIn.1 st₀.next_exec_id =
                    linksOf { st₀ with
                      nodes := st₀.nodes ++
                        [{ id := st₀.next_exec_id,
                           parent_execution_id := anc.getLast?,
                           task_id_in_parent_execution := tip }]
                      next_exec_id := st₀.next_exec_id + 1
                      anc_links := st₀.anc_links ++ anc.map fun a =>
                        { execution_id := st₀.next_exec_id,
                          ancestor_execution_id := a } }
                      st₀.next_exec_id := by
                  unfold linksOf
                  rw [e₂]
                rw [hst]
                exact hlinks₁)
            obtain ⟨o₁, o₂, o₃⟩ := foldlM_frame (fun s : CompileSt => s) _
              (fun b a b' hstep => by
                split at hstep
                next tid oname =>
                  split at hstep
                  next hfind => cases hstep
                  next m hfind =>
                    split at hstep
                    next hl => cases hstep
                    next aid hl =>
                      cases hstep
                      exact ⟨rfl, rfl, rfl⟩
                next hno => cases hstep)
              _ _ _ hOv
            exact ⟨inv_transfer o₁ o₂ o₃ hinvR,
              postRel_trans (postRel_trans hpost₂ hpostR) (postRel_of_frame o₁ o₂ o₃)⟩
      · -- compileChildren
        intro ts gins anc pid touts st₀ res h hinv hancb hqpid hlinks
        cases ts with
        | nil =>
            cases h
            exact ⟨hinv, postRel_refl st₀⟩
        | cons tt rest =>
            obtain ⟨tid, ct⟩ := tt
            obtain ⟨ccsOpt, cargs⟩ := ct
            cases ccsOpt with
            | none => exact absurd h (by intro hx; cases hx)
            | some ccs =>
            obtain ⟨cins, couts, cimpl⟩ := ccs
            unfold compileChildren at h
            simp only [TaskSpecM.componentSpec, TaskSpecM.arguments,
              ComponentSpecM.inputs] at h
            obtain ⟨resolved, hres, h⟩ := except_bind_ok h
            try simp only [] at h
            obtain ⟨r, hct, h⟩ := except_bind_ok h
            try simp only [] at h
            obtain ⟨e₁, e₂, e₃⟩ := foldlM_frame Prod.fst _
              (fun b a b' hstep => by
                split at hstep
                next hfind =>
                  split at hstep
                  next hopt =>
                    cases hstep
                    exact ⟨rfl, rfl, rfl⟩
                  next hopt =>
                    split at hstep
                    next hdef => cases hstep
                    next d hdef =>
                      obtain ⟨r2, hr2, hstep⟩ := except_bind_ok hstep
                      cases hstep
                      exact addConstantArtifact_frame hr2
                next gname hfind =>
                  split at hstep
                  next hg =>
                    cases hstep
                    exact ⟨rfl, rfl, rfl⟩
                  next aid hg =>
                    cases hstep
                    exact ⟨rfl, rfl, rfl⟩
                next stid soname hfind =>
                  split at hstep
                  next hg => cases hstep
                  next m hg =>
                    split at hstep
                    next hl => cases hstep
                    next aid hl =>
                      cases hstep
                      exact ⟨rfl, rfl, rfl⟩
                next v hfind =>
                  obtain ⟨r2, hr2, hstep⟩ := except_bind_ok hstep
                  cases hstep
                  exact addConstantArtifact_frame hr2)
              _ _ _ hres
            obtain ⟨q, hqmem, hqid⟩ := hqpid
            have hpidb : pid < st₀.next_exec_id := by
              have := hinv.1 q hqmem
              omega
            obtain ⟨hinvR, hpostR⟩ := ih.1 _ _ _ _ _ _ hct
              (inv_transfer e₁ e₂ e₃ hinv)
              (by
                refine ⟨?_, Or.inr ⟨anc, pid, rfl, ⟨q, ?_, hqid⟩, ?_⟩⟩
                · intro a ha
                  rw [e₃]
                  rcases List.mem_append.mp ha with h' | h'
                  · exact hancb a h'
                  · rw [List.mem_singleton.mp h']
                    exact hpidb
                · rw [e₁]
                  exact hqmem
                · unfold linksOf
                  rw [e₂]
                  exact hlinks)
            obtain ⟨hinvF, hpostF⟩ := ih.2 rest gins anc pid
              (touts ++ [(tid, r.2.2)]) r.1 res h hinvR
              (by
                intro a ha
                have h₁ : a < st₀.next_exec_id := hancb a ha
                have h₂ := hpostR.1
                rw [e₃] at h₂
                have h₃ : ((st₀, ([] : List (String × Nat))).1).next_exec_id =
                    st₀.next_exec_id := rfl
                rw [h₃] at h₂
                omega)
              (by
                refine ⟨q, hpostR.2.1 q ?_, hqid⟩
                rw [e₁]
                exact hqmem)
              (by
                obtain ⟨w, hw, hb⟩ := hpostR.2.2
                have hstab := linksOf_stable hw hb (by rw [e₃]; exact hpidb)
                rw [hstab]
                unfold linksOf
                rw [e₂]
                exact hlinks)
            exact ⟨hinvF,
              postRel_trans (postRel_trans (postRel_of_frame e₁ e₂ e₃) hpostR) hpostF⟩

/-- Under the invariant, every node's recorded ancestor list is exactly its
parent chain. -/
theorem chain_of_inv (st : CompileSt) (hinv : CompileInv st) :
    ∀ fuel, ∀ m ∈ st.nodes, m.id < fuel →
      linksOf st m.id = ancChain st.nodes fuel m.id := by
  intro fuel
  induction fuel with
  | zero =>
      intro m _ hlt
      exact absurd hlt (Nat.not_lt_zero _)
  | succ fuel ihf =>
      intro m hm hlt
      have hfind : st.nodes.find? (·.id == m.id) = some m :=
        find?_self_of_nodup hinv.2.1 hm
      unfold ancChain
      rw [hfind]
      try simp only []
      cases hp : m.parent_execution_id with
      | none => exact (hinv.2.2.2 m hm).1 hp
      | some p =>
          try simp only []
          obtain ⟨⟨q, hq, hqid⟩, hplt, hc⟩ := (hinv.2.2.2 m hm).2 p hp
          rw [hc]
          have hqc := ihf q hq (by omega)
          rw [hqid] at hqc
          rw [hqc]

/-- Claim C7 (amended): the `ExecutionToAncestorExecutionLink` table built by
compilation holds, for every execution node, exactly the node's proper
(one-or-more-step) `parent_execution_id` ancestors, root first — the STRICT
transitive closure.  Every row points strictly upward, so the reflexive
pairs demanded by the claim's "reflexive-transitive closure" are never
present. -/
theorem C7_ancestor_links (fuel : Nat) (task : TaskSpecM) (st : CompileSt)
    (rid : Nat) (h : compileRoot fuel task = .ok (st, rid)) :
    (∀ n ∈ st.nodes,
      linksOf st n.id = ancChain st.nodes st.next_exec_id n.id) ∧
    ∀ l ∈ st.anc_links, l.ancestor_execution_id < l.execution_id := by
  unfold compileRoot at h
  obtain ⟨r, hr, h⟩ := except_bind_ok h
  injection h with h₂
  have hst : r.1 = st := congrArg Prod.fst h₂
  subst hst
  obtain ⟨hinvF, _⟩ := (compile_spec fuel).1 task none [] [] {} r hr
    ⟨fun n hn => absurd hn (List.not_mem_nil n), List.nodup_nil,
      fun l hl => absurd hl (List.not_mem_nil l),
      fun m hm => absurd hm (List.not_mem_nil m)⟩
    ⟨fun a ha => absurd ha (List.not_mem_nil a), Or.inl rfl⟩
  refine ⟨?_, ?_⟩
  · intro n hn
    exact chain_of_inv r.1 hinvF r.1.next_exec_id n hn (hinvF.1 n hn)
  · intro l hl
    exact (hinvF.2.2.1 l hl).2

/-- A pipeline that is a single container task. -/
def c7Task : TaskSpecM :=
  .mk (some (.mk [] [] (some (.container (.obj []))))) []

/-- Claim C7 counterexample: compiling a single-container pipeline creates
execution node 1 and NO closure rows at all — but the reflexive-transitive
closure of `parent_execution_id` contains the pair (1, 1), so the table does
not equal it (the reflexive pairs are missing; the table is strict). -/
theorem C7_counterexample :
    ((compileRoot 2 c7Task).map fun p => p.1.nodes.map (·.id)) = .ok [1] ∧
    ((compileRoot 2 c7Task).map fun p => p.2) = .ok 1 ∧
    ((compileRoot 2 c7Task).map fun p => p.1.anc_links) = .ok [] ∧
    ((compileRoot 2 c7Task).map fun p =>
      p.1.anc_links.contains { execution_id := p.2, ancestor_execution_id := p.2 })
      = .ok false :=
  ⟨rfl, rfl, rfl, rfl⟩

/-- A graph pipeline with one container child task `A`. -/
def c7GraphTask : TaskSpecM :=
  .mk (some (.mk [] [] (some (.graph [("A", c7Task)] [])))) []

/-- The state compilation of `c7GraphTask` produces: graph root 1, container
child 2 with parent 1 and the single closure row (2, 1). -/
def c7GraphSt : CompileSt :=
  { nodes := [{ id := 1 },
      { id := 2, parent_execution_id := some 1,
        task_id_in_parent_execution := some "A",
        containerSpec := some (.obj []),
        container_execution_status := some .QUEUED }]
    anc_links := [{ execution_id := 2, ancestor_execution_id := 1 }]
    next_exec_id := 3 }

theorem C7_witness :
    (∀ n ∈ c7GraphSt.nodes,
      linksOf c7GraphSt n.id =
        ancChain c7GraphSt.nodes c7GraphSt.next_exec_id n.id) ∧
    ∀ l ∈ c7GraphSt.anc_links, l.ancestor_execution_id < l.execution_id :=
  C7_ancestor_links 3 c7GraphTask c7GraphSt 1 rfl

/-! ## C10: dict-shaped type specs -/

/-- Claim C10 (amended): `_split_type_spec` indeed never returns on a
mapping — a single-entry mapping raises `IndexError` (the `kv_pairs[1]`
unpack) and any other mapping raises `TypeError` — so materializing a
CONSTANT with a dict-shaped declared type always fails.  (But a dict-typed
input wired from an upstream output never reaches `_split_type_spec`; see
the counterexample.) -/
theorem C10_dict_type_specs (entries : List (String × Json)) :
    (entries.length = 1 →
      splitTypeSpec (some (.map entries)) = .error .indexError) ∧
    (¬ entries.length = 1 →
      splitTypeSpec (some (.map entries)) = .error .typeError) ∧
    (∀ v, ¬ splitTypeSpec (some (.map entries)) = .ok v) ∧
    ∀ value res,
      ¬ constructConstantArtifactNode value (some (.map entries)) = .ok res := by
  have hsp : splitTypeSpec (some (TypeSpecT.map entries)) =
      if entries.length = 1 then .error .indexError
      else .error .typeError := rfl
  have herr : ∃ e, splitTypeSpec (some (TypeSpecT.map entries)) = .error e := by
    by_cases h1 : entries.length = 1
    · exact ⟨.indexError, by rw [hsp, if_pos h1]⟩
    · exact ⟨.typeError, by rw [hsp, if_neg h1]⟩
  refine ⟨?_, ?_, ?_, ?_⟩
  · intro h1
    rw [hsp, if_pos h1]
  · intro h1
    rw [hsp, if_neg h1]
  · intro v hv
    obtain ⟨e, he⟩ := herr
    rw [he] at hv
    cases hv
  · intro value res hres
    obtain ⟨e, he⟩ := herr
    unfold constructConstantArtifactNode at hres
    rw [he] at hres
    have hres₂ : (Except.error e :
        Except CompileErr (ArtifactNodeRow × ArtifactDataRow)) = .ok res := hres
    cases hres₂

def c10DictType : TypeSpecT := .map [("MyDict", .obj [])]

/-- Container task `A` with one (untyped) output `o`. -/
def c10TaskA : TaskSpecM :=
  .mk (some (.mk [] [{ name := "o" }] (some (.container (.obj []))))) []

/-- Container task `B` whose required input `i` declares the dict-shaped
type and is wired from task `A`'s output. -/
def c10TaskB : TaskSpecM :=
  .mk (some (.mk [{ name := "i", typeSpec := some c10DictType }] []
    (some (.container (.obj []))))) [("i", .taskOutput "A" "o")]

def c10Pipeline : TaskSpecM :=
  .mk (some (.mk [] [] (some (.graph [("A", c10TaskA), ("B", c10TaskB)] [])))) []

/-- Claim C10 counterexample: the claim's conclusion "submitting a pipeline
in which any input or output declares a dict-shaped type spec always fails
compilation" is false — `c10Pipeline` declares the dict type on input `i`
of task `B`, wired from an upstream task output, and compiles fine (three
executions; `B`'s input link attached to `A`'s output artifact): inputs fed
by upstream artifacts never pass through `_split_type_spec`. -/
theorem C10_counterexample :
    splitTypeSpec (some c10DictType) = .error .indexError ∧
    ((compileRoot 4 c10Pipeline).map fun p => p.1.nodes.map (·.id)) =
      .ok [1, 2, 3] ∧
    ((compileRoot 4 c10Pipeline).map fun p => p.1.input_links) =
      .ok [{ execution_id := 3, input_name := "i", artifact_id := 101 }] ∧
    ((compileRoot 4 c10Pipeline).map fun p => p.1.output_links) =
      .ok [{ execution_id := 2, output_name := "o", artifact_id := 101 }] :=
  ⟨rfl, rfl, rfl, rfl⟩

theorem C10_witness :
    splitTypeSpec (some (.map [("T", Json.obj [])])) = .error .indexError ∧
    ∀ res, ¬ constructConstantArtifactNode "v"
      (some (.map [("T", Json.obj [])])) = .ok res :=
  ⟨(C10_dict_type_specs [("T", Json.obj [])]).1 rfl,
    fun res => (C10_dict_type_specs [("T", Json.obj [])]).2.2.2 "v" res⟩

end CloudPipelines
